import Mathlib

/-!
Arborist: the level-wise training core (`bottom.cc`, `splitsig.h`).

A shallow embedding of the level orchestrator `Bottom`, its pair enumerator,
the MRRA / buffer-bit windows, the restaging kernel and the split-signature
registry, followed by theorems about them.

Conventions of the embedding.

* Storage reached through a bare pointer (`bottomNode`, `splitFlags`,
  `indexNode`, the sample buffers, `levelSS`) carries no length in the source; it
  is a total map from index to value.  The pointer `preStage`, which the source
  clears between levels, is an optional table.
* `std::vector` and `std::deque` objects are lists; an access outside the
  container has no defined behaviour in the source and makes the embedded
  operation return `none`.
* Counters of type `unsigned int` index in-memory containers and stay far below
  `2^32`; they are natural numbers.  Where the source narrows to
  `unsigned char` the reduction modulo `256` is explicit, and so is the
  narrowing of the unsigned run count to `int` in `PairInit`.
* Pairs are indexed node-major, `levelIdx * nPred + predIdx`: the inline
  `PairOffset` is not part of `bottom.cc`, which fixes this stride by the way
  `RestageInit` sizes, writes and reads its bit vectors.
* The two `omp parallel for` loops are run in index order.
-/

namespace Arborist

/-! ## Data model -/

/-- Modelled from the spec: `BottomNode::pathMax` (declared in `bottom.h`), the
depth of the level window, fixed at the 8 bits of the path byte. -/
def pathMax : Nat := 8

/-- Modelled from the spec: per-pair state of the Bottom Node Table (class
declared in `bottom.h`): run count and factor cardinality. -/
structure BottomNode where
  runCount : Nat
  facCard : Nat
deriving DecidableEq, Repr

/-- Modelled from the spec: `BottomNode::Init(card)` (in `bottom.h`), run count
set to the factor cardinality. -/
def BottomNode.Init (card : Nat) : BottomNode :=
  { runCount := card, facCard := card }

/-- Accessor `BottomNode::RunCount()` as `PairInit` reads it, `int rl =
bottomNode[botIdx].RunCount()`: the unsigned 32-bit run count narrowed to `int`,
so that a count from `2^31` on reads negative. -/
def BottomNode.RunCount (b : BottomNode) : Int :=
  if b.runCount < 2 ^ 31 then (b.runCount : Int) else (b.runCount : Int) - 2 ^ 32

/-- Modelled from the spec: `BottomNode::Inherit(parent)` (in `bottom.h`) copies
the parent's state into the receiving entry. -/
def BottomNode.Inherit (_self parent : BottomNode) : BottomNode :=
  parent

/-- Most recently restaged ancestor (class declared in `bottom.h`); the fields
are those `MRRA::RestageIdx` reads and writes. -/
structure MRRA where
  start : Nat
  extent : Nat
  restageIdx : Int
deriving DecidableEq, Repr

/-- Modelled from the spec: `MRRA::Init(start, extent)` (in `bottom.h`); the
dense index stays negative until the first reference. -/
def MRRA.Init (start extent : Nat) : MRRA :=
  { start := start, extent := extent, restageIdx := -1 }

/-- Restaging source node (class declared in `bottom.h`), fields as filled by
`rsNode.Init(start, extent, levelDel, pathAccum)`. -/
structure RestageNode where
  startIdx : Nat
  extent : Nat
  levelDel : Nat
  pathZero : Nat
deriving DecidableEq, Repr

/-- Initialiser `RestageNode::Init(start, extent, levelDel, pathZero)`. -/
def RestageNode.Init (start extent levelDel pathZero : Nat) : RestageNode :=
  { startIdx := start, extent := extent, levelDel := levelDel, pathZero := pathZero }

/-- Accessor `RestageNode::PathZero()`. -/
def RestageNode.PathZero (r : RestageNode) : Nat :=
  r.pathZero

/-- Splitting pair (class declared in `bottom.h`).  The flag `split` records
which of the two initialisers built the pair, as `SplitPair::Split` reports. -/
structure SplitPair where
  bottomIdx : Nat
  restageIdx : Nat
  setIdx : Int
  split : Bool
deriving DecidableEq, Repr

/-- Initialiser `SplitPair::Init(bottomIdx, restageIdx)`: restages only. -/
def SplitPair.Init (bottomIdx restageIdx : Nat) : SplitPair :=
  { bottomIdx := bottomIdx, restageIdx := restageIdx, setIdx := -1, split := false }

/-- Initialiser `SplitPair::SplitInit(bottomIdx, restageIdx, setIdx)`. -/
def SplitPair.SplitInit (bottomIdx restageIdx : Nat) (setIdx : Int) : SplitPair :=
  { bottomIdx := bottomIdx, restageIdx := restageIdx, setIdx := setIdx, split := true }

/-- Initialiser `SplitPair::SplitInit(bottomIdx, restageIdx)` without a run set:
the set index is the negative sentinel. -/
def SplitPair.SplitInitNoSet (bottomIdx restageIdx : Nat) : SplitPair :=
  SplitPair.SplitInit bottomIdx restageIdx (-1)

/-- Inline `Bottom::PairOffset(levelIdx, predIdx)` (body in `bottom.h`): the
node-major pair index `levelIdx * nPred + predIdx`.  The stride `nPred` is the
one `bottom.cc` relies on: `RestageInit` allocates `restageNode.size() * nPred`
bits for `reaching`, sets them at `PairOffset(restageIdx, predIdx)` and reads
them back at the running index of the loops over `restageIdx`, then `predIdx`;
its first loop walks the pairs "in node-major order". -/
def PairOffset (nPred levelIdx predIdx : Nat) : Nat :=
  levelIdx * nPred + predIdx

/-- Inline `Bottom::SplitCoords(bottomIdx, levelIdx, predIdx)` (body in
`bottom.h`), the inverse of `PairOffset`: the pair index resolved to
`(levelIdx, predIdx)`. -/
def SplitCoords (nPred bottomIdx : Nat) : Nat × Nat :=
  (bottomIdx / nPred, bottomIdx % nPred)

/-- Collaborator members of `Bottom` that `PairInit` and `RestageInit` call and
whose bodies are in `bottom.h`: `Exhausted(botIdx)` and
`MrraIdx(bottomIdx, levelIdx, levelDel, reset)`, the latter returning
`(mrraIdx, levelDel)`. -/
structure PairEnv where
  Exhausted : Nat → Bool
  MrraIdx : Nat → Nat → Bool → Nat × Nat

/-- The window `mrraLevel`: one vector of MRRAs per level, oldest first. -/
abbrev MrraWindow := List (List MRRA)

/-- The element `(*(end(mrraLevel) - levelDel))[mrraIdx]`. -/
def MrraWindow.look (w : MrraWindow) (levelDel mrraIdx : Nat) : Option MRRA :=
  if levelDel = 0 ∨ w.length < levelDel then none
  else
    match w[w.length - levelDel]? with
    | none => none
    | some mrraVec => mrraVec[mrraIdx]?

/-- Store through the reference `(*(end(mrraLevel) - levelDel))[mrraIdx]`. -/
def MrraWindow.store (w : MrraWindow) (levelDel mrraIdx : Nat) (m : MRRA) : MrraWindow :=
  match w[w.length - levelDel]? with
  | none => w
  | some mrraVec => w.set (w.length - levelDel) (mrraVec.set mrraIdx m)

/-- Method `MRRA::RestageIdx(levelDel, pathAccum, restageNode)`.  Returns the
dense index, the updated MRRA, `pathAccum` and `restageNode`. -/
def MRRA.RestageIdx (m : MRRA) (levelDel pathAccum : Nat) (restageNode : List RestageNode) :
    Nat × MRRA × Nat × List RestageNode :=
  if m.restageIdx < 0 then
    let idx : Int := (restageNode.length : Int)
    let rsNode := RestageNode.Init m.start m.extent levelDel pathAccum
    (idx.toNat, { m with restageIdx := idx }, pathAccum + 2 ^ levelDel, restageNode ++ [rsNode])
  else
    (m.restageIdx.toNat, m, pathAccum, restageNode)

/-- Method `Bottom::PathAccum(restageNode, bottomIdx, pathAccum)`.  Returns the
dense index with the updated window, `restageNode` and `pathAccum`. -/
def PathAccum (env : PairEnv) (nPred : Nat) (w : MrraWindow)
    (restageNode : List RestageNode) (bottomIdx pathAccum : Nat) :
    Option (Nat × MrraWindow × List RestageNode × Nat) :=
  let levelIdx := (SplitCoords nPred bottomIdx).1
  let mrraIdx := (env.MrraIdx bottomIdx levelIdx false).1
  let levelDel := (env.MrraIdx bottomIdx levelIdx false).2
  match w.look levelDel mrraIdx with
  | none => none
  | some m =>
    let r := m.RestageIdx levelDel pathAccum restageNode
    some (r.1, w.store levelDel mrraIdx r.2.1, r.2.2.2, r.2.2.1 + 2 ^ levelDel)

/-- Loop state of `PairInit`. -/
structure PairAcc where
  setCount : Nat
  pathAccum : Nat
  safeCount : List Nat
  pairNode : List SplitPair
  restageNode : List RestageNode
  mrraLevel : MrraWindow

/-- The dense index a pair receives in `PairInit`:
`ancTot > 0 ? PathAccum(restageNode, botIdx, pathAccum) : 0`. -/
def PairTouch (env : PairEnv) (ancTot nPred : Nat) (acc : PairAcc) (botIdx : Nat) :
    Option (Nat × MrraWindow × List RestageNode × Nat) :=
  if ancTot > 0 then
    PathAccum env nPred acc.mrraLevel acc.restageNode botIdx acc.pathAccum
  else some (0, acc.mrraLevel, acc.restageNode, acc.pathAccum)

/-- The pair built and pushed by one iteration of `PairInit` once its dense
index `t.1` is known; `rl` is the run count and `flag` the split flag. -/
def PairEmit (flag : Bool) (rl : Int) (acc : PairAcc) (botIdx : Nat)
    (t : Nat × MrraWindow × List RestageNode × Nat) : Option PairAcc :=
  if flag = true then
    if rl > 1 then
      if acc.setCount < acc.safeCount.length then
        some { setCount := acc.setCount + 1
               pathAccum := t.2.2.2
               safeCount := acc.safeCount.set acc.setCount rl.toNat
               pairNode := acc.pairNode ++ [SplitPair.SplitInit botIdx t.1 acc.setCount]
               restageNode := t.2.2.1
               mrraLevel := t.2.1 }
      else none
    else
      some { setCount := acc.setCount
             pathAccum := t.2.2.2
             safeCount := acc.safeCount
             pairNode := acc.pairNode ++ [SplitPair.SplitInitNoSet botIdx t.1]
             restageNode := t.2.2.1
             mrraLevel := t.2.1 }
  else
    some { setCount := acc.setCount
           pathAccum := t.2.2.2
           safeCount := acc.safeCount
           pairNode := acc.pairNode ++ [SplitPair.Init botIdx t.1]
           restageNode := t.2.2.1
           mrraLevel := t.2.1 }

/-- The emission test of `PairInit` at pair index `botIdx`:
`rl != 1 && (splitFlags[botIdx] || Exhausted(botIdx))`. -/
def Emits (env : PairEnv) (bottomNode : Nat → BottomNode) (splitFlags : Nat → Bool)
    (botIdx : Nat) : Bool :=
  decide ((bottomNode botIdx).RunCount ≠ 1) && (splitFlags botIdx || env.Exhausted botIdx)

/-- One iteration of the loop of `Bottom::PairInit`, at pair index `botIdx`. -/
def PairStep (env : PairEnv) (ancTot nPred : Nat) (bottomNode : Nat → BottomNode)
    (splitFlags : Nat → Bool) (acc : PairAcc) (botIdx : Nat) : Option PairAcc :=
  if Emits env bottomNode splitFlags botIdx = true then
    match PairTouch env ancTot nPred acc botIdx with
    | none => none
    | some t => PairEmit (splitFlags botIdx) (bottomNode botIdx).RunCount acc botIdx t
  else some acc

/-- What `PairInit` leaves behind: the two output vectors, the window with the
dense indices it cached, the announcement `RunSets(setCount)` with the values
stored through `CountSafe(setIdx)` for `setIdx < setCount`, and the returned
path total. -/
structure PairInitOut where
  pairNode : List SplitPair
  restageNode : List RestageNode
  mrraLevel : MrraWindow
  setCount : Nat
  countSafe : List Nat
  pathTotal : Nat
deriving DecidableEq, Repr

/-- Method `Bottom::PairInit(run, splitFlags, pairNode, restageNode)`, with both
output vectors empty on entry. -/
def PairInit (env : PairEnv) (ancTot levelCount nPred nPredFac : Nat)
    (bottomNode : Nat → BottomNode) (w : MrraWindow) (splitFlags : Nat → Bool) :
    Option PairInitOut :=
  let init : PairAcc :=
    { setCount := 0, pathAccum := 0, safeCount := List.replicate (nPredFac * levelCount) 0
      pairNode := [], restageNode := [], mrraLevel := w }
  match (List.range (levelCount * nPred)).foldlM
      (PairStep env ancTot nPred bottomNode splitFlags) init with
  | none => none
  | some acc =>
    some { pairNode := acc.pairNode, restageNode := acc.restageNode, mrraLevel := acc.mrraLevel
           setCount := acc.setCount, countSafe := acc.safeCount.take acc.setCount
           pathTotal := acc.pathAccum }

/-! ## Restaging kernel -/

/-- Reaching-path node (class declared in `bottom.h`): the level index, negative
for a path that reaches no node, and the offset of its target slice. -/
structure PathNode where
  levelIdx : Int
  offset : Nat
deriving DecidableEq, Repr

/-- Modelled from the spec: `PathNode::Init()` (in `bottom.h`), the state of a
path that no node of the level reaches: negative level index. -/
def PathNode.Init0 : PathNode :=
  { levelIdx := -1, offset := 0 }

/-- Initialiser `PathNode::Init(levelIdx, offset)`. -/
def PathNode.Init (levelIdx offset : Nat) : PathNode :=
  { levelIdx := (levelIdx : Int), offset := offset }

/-- Accessor `PathNode::Offset()`. -/
def PathNode.Offset (n : PathNode) : Nat :=
  n.offset

/-- Accessor `PathNode::Coords(levelIdx, offset)`. -/
def PathNode.Coords (n : PathNode) : Int × Nat :=
  (n.levelIdx, n.offset)

/-- Sample-path tracker entry, constructed as `extinct(0), path(0)`. -/
structure SamplePath where
  extinct : Nat
  path : Nat
deriving DecidableEq, Repr

/-- Constructor `SamplePath::SamplePath()`. -/
def SamplePath.new : SamplePath :=
  { extinct := 0, path := 0 }

/-- Modelled from the spec: `Bottom::IsLive(sIdx, path)` (in `bottom.h`): false
for an extinct sample, otherwise outputs the path byte. -/
def IsLive (samplePath : Nat → SamplePath) (sIdx : Nat) : Option Nat :=
  if (samplePath sIdx).extinct = 0 then some ((samplePath sIdx).path % 256) else none

/-- The mask `unsigned char pathMask = ~(0xff << levelDel)`: the shift and the
complement are taken in `int`, the result is narrowed to a byte. -/
def pathMask (levelDel : Nat) : Nat :=
  ((-(255 * 2 ^ levelDel : Int) - 1) % 256).toNat

/-- Local state of `RestageNode::Restage`: the stack array `targOffset`, of which
the first `2^levelDel` entries are initialised, and the target buffers. -/
structure RestageState (α : Type) where
  targOffset : List Nat
  targ : Nat → α
  sIdxTarg : Nat → Nat

/-- The initial fill of `targOffset` from `pathNode[pathZero + path].Offset()`. -/
def RestageNode.targOffsets (r : RestageNode) (pathNode : List PathNode) : Option (List Nat) :=
  (List.range (2 ^ r.levelDel)).mapM
    (fun path => (pathNode[r.pathZero + path]?).map PathNode.Offset)

/-- One iteration of the copying loop of `RestageNode::Restage` at source
position `idx`. -/
def RestageStep {α : Type} (samplePath : Nat → SamplePath) (mask : Nat)
    (source : Nat → α) (sIdxSource : Nat → Nat) (st : RestageState α) (idx : Nat) :
    Option (RestageState α) :=
  let sIdx := sIdxSource idx
  match IsLive samplePath sIdx with
  | none => some st
  | some sIdxPath =>
    let path := sIdxPath &&& mask
    match st.targOffset[path]? with
    | none => none
    | some destIdx =>
      some { targOffset := st.targOffset.set path (destIdx + 1)
             targ := Function.update st.targ destIdx (source idx)
             sIdxTarg := Function.update st.sIdxTarg destIdx sIdx }

/-- Method `RestageNode::Singletons`: the calls `SetSingleton(levelIdx, predIdx)`
it makes, in order.  `IsRun buf first last` stands for `targ->IsRun(first, last)`
of the collaborator `SPNode`. -/
def RestageNode.Singletons {α : Type} (r : RestageNode) (pathNode : List PathNode)
    (targOffset : List Nat) (IsRun : (Nat → α) → Int → Int → Bool) (targ : Nat → α)
    (predIdx : Nat) : Option (List (Nat × Nat)) :=
  (List.range (2 ^ r.levelDel)).foldlM
    (fun calls path =>
      match pathNode[r.pathZero + path]?, targOffset[path]? with
      | some node, some last =>
        if node.Coords.1 ≥ 0 then
          if IsRun targ (node.Coords.2 : Int) ((last : Int) - 1) = true then
            some (calls ++ [(node.Coords.1.toNat, predIdx)])
          else some calls
        else some calls
      | _, _ => none)
    []

/-- What `RestageNode::Restage` leaves behind: the target buffers, the final
`targOffset` and the `SetSingleton` calls made by `Singletons`. -/
structure RestageOut (α : Type) where
  targ : Nat → α
  sIdxTarg : Nat → Nat
  targOffset : List Nat
  singletons : List (Nat × Nat)

/-- Method `RestageNode::Restage` on the buffers handed out by
`samplePred->Buffers(predIdx, sourceBit, ...)`. -/
def RestageNode.Restage {α : Type} (r : RestageNode) (samplePath : Nat → SamplePath)
    (pathNode : List PathNode) (IsRun : (Nat → α) → Int → Int → Bool) (predIdx : Nat)
    (source : Nat → α) (sIdxSource : Nat → Nat) (targ : Nat → α) (sIdxTarg : Nat → Nat) :
    Option (RestageOut α) :=
  if r.levelDel > pathMax then none
  else
    match r.targOffsets pathNode with
    | none => none
    | some targOffset =>
      match (List.range' r.startIdx r.extent).foldlM
          (RestageStep samplePath (pathMask r.levelDel) source sIdxSource)
          { targOffset := targOffset, targ := targ, sIdxTarg := sIdxTarg } with
      | none => none
      | some st =>
        match r.Singletons pathNode st.targOffset IsRun st.targ predIdx with
        | none => none
        | some calls =>
          some { targ := st.targ, sIdxTarg := st.sIdxTarg, targOffset := st.targOffset
                 singletons := calls }

/-- Local state of `RestageNode::RestageTwo`: the scalar offsets `leftOff` and
`rightOff`, and the target buffers. -/
structure RestageTwoState (α : Type) where
  leftOff : Nat
  rightOff : Nat
  targ : Nat → α
  sIdxTarg : Nat → Nat

/-- One iteration of the copying loop of `RestageNode::RestageTwo` at source
position `idx`: `destIdx = (sIdxPath & pathMask) == 0 ? leftOff++ : rightOff++`. -/
def RestageTwoStep {α : Type} (samplePath : Nat → SamplePath) (mask : Nat)
    (source : Nat → α) (sIdxSource : Nat → Nat) (st : RestageTwoState α) (idx : Nat) :
    RestageTwoState α :=
  let sIdx := sIdxSource idx
  match IsLive samplePath sIdx with
  | none => st
  | some sIdxPath =>
    if sIdxPath &&& mask = 0 then
      { leftOff := st.leftOff + 1
        rightOff := st.rightOff
        targ := Function.update st.targ st.leftOff (source idx)
        sIdxTarg := Function.update st.sIdxTarg st.leftOff sIdx }
    else
      { leftOff := st.leftOff
        rightOff := st.rightOff + 1
        targ := Function.update st.targ st.rightOff (source idx)
        sIdxTarg := Function.update st.sIdxTarg st.rightOff sIdx }

/-- Method `RestageNode::RestageTwo` on the buffers handed out by
`samplePred->Buffers(predIdx, sourceBit, ...)`.  It makes no `Singletons` call. -/
def RestageNode.RestageTwo {α : Type} (r : RestageNode) (samplePath : Nat → SamplePath)
    (pathNode : List PathNode) (source : Nat → α) (sIdxSource : Nat → Nat)
    (targ : Nat → α) (sIdxTarg : Nat → Nat) : Option (RestageTwoState α) :=
  match pathNode[r.pathZero]?, pathNode[r.pathZero + 1]? with
  | some left, some right =>
    some ((List.range' r.startIdx r.extent).foldl
      (RestageTwoStep samplePath (pathMask r.levelDel) source sIdxSource)
      { leftOff := left.Offset, rightOff := right.Offset, targ := targ, sIdxTarg := sIdxTarg })
  | _, _ => none

/-- The masked path of the sample at source position `idx`, if it is live. -/
def livePath (samplePath : Nat → SamplePath) (levelDel : Nat) (sIdxSource : Nat → Nat)
    (idx : Nat) : Option Nat :=
  (IsLive samplePath (sIdxSource idx)).map (fun b => b % 2 ^ levelDel)

/-- The positions of `l`, in order, whose sample is live with masked path `p`. -/
def liveSel (samplePath : Nat → SamplePath) (levelDel : Nat) (sIdxSource : Nat → Nat)
    (l : List Nat) (p : Nat) : List Nat :=
  l.filter (fun idx => livePath samplePath levelDel sIdxSource idx == some p)

/-- The source positions of `[startIdx, startIdx + extent)`, in order, whose
sample is live with masked path `p`. -/
def liveSlice (r : RestageNode) (samplePath : Nat → SamplePath) (sIdxSource : Nat → Nat)
    (p : Nat) : List Nat :=
  liveSel samplePath r.levelDel sIdxSource (List.range' r.startIdx r.extent) p

/-- Loop invariant of the copying loop of `RestageNode::Restage` after the
positions `l`: every path's offset has advanced by its number of live samples,
the cells written for a path hold its live source cells in source order, and
every other target cell is as it was in `targ0`, `sIdx0`. -/
def RestageInv {α : Type} (samplePath : Nat → SamplePath) (levelDel : Nat)
    (source : Nat → α) (sIdxSource : Nat → Nat) (off : Nat → Nat)
    (targ0 : Nat → α) (sIdx0 : Nat → Nat) (l : List Nat) (st : RestageState α) : Prop :=
  st.targOffset.length = 2 ^ levelDel ∧
  (∀ p, p < 2 ^ levelDel →
    st.targOffset[p]? = some (off p + (liveSel samplePath levelDel sIdxSource l p).length)) ∧
  (∀ p k idx, p < 2 ^ levelDel →
    (liveSel samplePath levelDel sIdxSource l p)[k]? = some idx →
    st.targ (off p + k) = source idx ∧ st.sIdxTarg (off p + k) = sIdxSource idx) ∧
  (∀ pos, (∀ p k, p < 2 ^ levelDel →
      k < (liveSel samplePath levelDel sIdxSource l p).length → pos ≠ off p + k) →
    st.targ pos = targ0 pos ∧ st.sIdxTarg pos = sIdx0 pos)

/-- The offset `pathNode[pathZero + p].Offset()` of the target slice of path `p`. -/
def sliceOffset (r : RestageNode) (pathNode : List PathNode) (p : Nat) : Nat :=
  ((pathNode[r.pathZero + p]?).map PathNode.Offset).getD 0

/-! ## Bit sets, the split-signature registry and the orchestrator state -/

/-- Modelled from the spec: `BitMatrix` (in `bv.h`), known by its `IsSet` and
`SetBit` surface; a fresh matrix has every bit clear. -/
structure BitMatrix where
  nRow : Nat
  nCol : Nat
  bits : Nat → Nat → Bool

/-- Constructor `BitMatrix(nRow, nCol)`. -/
def BitMatrix.new (nRow nCol : Nat) : BitMatrix :=
  { nRow := nRow, nCol := nCol, bits := fun _ _ => false }

/-- Accessor `BitMatrix::IsSet(row, col)`. -/
def BitMatrix.IsSet (m : BitMatrix) (row col : Nat) : Bool :=
  m.bits row col

/-- Update `BitMatrix::SetBit(row, col, bit)`. -/
def BitMatrix.SetBit (m : BitMatrix) (row col : Nat) (bit : Bool) : BitMatrix :=
  { m with bits := fun i j => if i = row ∧ j = col then bit else m.bits i j }

/-- Modelled from the spec: bit vector `BV` (in `bv.h`), known by its `IsSet`
and `SetBit` surface; a fresh vector has every bit clear. -/
structure BV where
  nBit : Nat
  bits : Nat → Bool

/-- Constructor `BV(nBit)`. -/
def BV.new (nBit : Nat) : BV :=
  { nBit := nBit, bits := fun _ => false }

/-- Accessor `BV::IsSet(pos)`. -/
def BV.IsSet (v : BV) (pos : Nat) : Bool :=
  v.bits pos

/-- Update `BV::SetBit(pos, bit)`. -/
def BV.SetBit (v : BV) (pos : Nat) (bit : Bool) : BV :=
  { v with bits := fun i => if i = pos then bit else v.bits i }

/-- Information content, a `double` in the source; only its order and the exact
mean of two ranks are used, so it is a rational number. -/
abbrev Info := ℚ

/-- Fields of `SSNode` (splitsig.h). -/
structure SSNode where
  leftExpl : Bool
  setIdx : Nat
  predIdx : Nat
  sCount : Nat
  idxStart : Nat
  lhExtent : Nat
  info : Info
  rankMean : Info
  lhImplicit : Nat
  bufIdx : Nat
deriving DecidableEq

/-- Fields of `SplitSig` (splitsig.h): the workspace `levelSS` is reached
through a pointer. -/
structure SplitSig where
  nPred : Nat
  splitCount : Nat
  levelSS : Nat → SSNode

/-- Accessor `SplitSig::Lookup(splitIdx, predIdx)`:
`levelSS[predIdx * splitCount + splitIdx]`. -/
def SplitSig.Lookup (ss : SplitSig) (splitIdx predIdx : Nat) : SSNode :=
  ss.levelSS (predIdx * ss.splitCount + splitIdx)

/-- Modelled from the spec: `SplitSig::ArgMax(levelIdx, gainMin)` (defined in
`splitsig.cc`): the `SSNode` with maximum `info` across the predictors, returned
iff that `info` is at least `gainMin`, otherwise none.  Among equal maxima the
lowest predictor is kept. -/
def SplitSig.ArgMax (ss : SplitSig) (levelIdx : Nat) (gainMin : Info) : Option SSNode :=
  let best : Option SSNode :=
    (List.range ss.nPred).foldl
      (fun acc predIdx =>
        match acc with
        | none => some (ss.Lookup levelIdx predIdx)
        | some b =>
          if b.info < (ss.Lookup levelIdx predIdx).info then some (ss.Lookup levelIdx predIdx)
          else some b)
      none
  match best with
  | none => none
  | some b => if gainMin ≤ b.info then some b else none

/-- Collaborator `IndexNode` (index.h), by what its accessors
`PathCoords(start, extent, path)` and `MinInfo()` return. -/
structure IndexNode where
  start : Nat
  extent : Nat
  path : Nat
  minInfo : Info

/-- Accessor `IndexNode::PathCoords(start, extent, path)`. -/
def IndexNode.PathCoords (n : IndexNode) : Nat × Nat × Nat :=
  (n.start, n.extent, n.path)

/-- Dense restaging pair (class declared in `bottom.h`), filled by
`rsPair.Init(restageIdx, predIdx)`. -/
structure RestagePair where
  nodeIdx : Nat
  predIdx : Nat
deriving DecidableEq, Repr

/-- Initialiser `RestagePair::Init(nodeIdx, predIdx)`. -/
def RestagePair.Init (nodeIdx predIdx : Nat) : RestagePair :=
  { nodeIdx := nodeIdx, predIdx := predIdx }

/-- Accessor `RestagePair::Coords(nodeIdx, predIdx)`. -/
def RestagePair.Coords (p : RestagePair) : Nat × Nat :=
  (p.nodeIdx, p.predIdx)

/-- Accessor `SplitPair::BottomIdx(restageIdx)`: the pair index, with the dense
restaging index as output parameter. -/
def SplitPair.BottomIdx (p : SplitPair) : Nat × Nat :=
  (p.bottomIdx, p.restageIdx)

/-- Accessor `SplitPair::Split(setIdx)`: whether the pair splits, with the run-set
index as output parameter. -/
def SplitPair.Split (p : SplitPair) : Bool × Int :=
  (p.split, p.setIdx)

/-- State of the orchestrator `Bottom`.  The pointer `preStage` is `none` while
it addresses no table. -/
structure Bottom where
  nPred : Nat
  nPredFac : Nat
  ancTot : Nat
  levelCount : Nat
  samplePath : Nat → SamplePath
  bottomNode : Nat → BottomNode
  preStage : Option (Nat → BottomNode)
  bufferLevel : List BitMatrix
  mrraLevel : MrraWindow
  splitSig : SplitSig

/-- Constructor `Bottom::Bottom`.  `FacCard` is `PBTrain::FacCard`; `fresh` and
`ss` stand for the contents of the newly allocated node table and for the new
`SplitSig`. -/
def Bottom.new (FacCard : Nat → Nat) (fresh : Nat → BottomNode) (ss : SplitSig)
    (bagCount nPred nPredFac : Nat) : Bottom :=
  { nPred := nPred
    nPredFac := nPredFac
    ancTot := 0
    levelCount := 1
    samplePath := fun _ => SamplePath.new
    bottomNode := (List.range nPred).foldl
      (fun tbl predIdx => Function.update tbl predIdx (BottomNode.Init (FacCard predIdx)))
      fresh
    preStage := none
    bufferLevel := [BitMatrix.new 1 nPred]
    mrraLevel := [[MRRA.Init 0 bagCount]]
    splitSig := ss }

/-- Method `Bottom::BufBit(levelIdx, predIdx)`: the bit of the newest matrix. -/
def Bottom.BufBit (b : Bottom) (levelIdx predIdx : Nat) : Option Nat :=
  match b.bufferLevel.getLast? with
  | none => none
  | some m => some (if m.IsSet levelIdx predIdx = true then 1 else 0)

/-- Method `Bottom::Overlap(splitNext)`; `fresh` stands for the contents of the
newly allocated table. -/
def Bottom.Overlap (b : Bottom) (fresh : Nat → BottomNode) (splitNext : Nat) : Bottom :=
  { b with levelCount := splitNext, preStage := some fresh }

/-- One of the two loops of `Bottom::Inherit`: for every predictor,
`preStage[PairOffset(next, predIdx)].Inherit(bottomNode[PairOffset(levelIdx, predIdx)])`. -/
def Bottom.InheritLoop (b : Bottom) (levelIdx next : Nat) (pre : Nat → BottomNode) :
    Nat → BottomNode :=
  (List.range b.nPred).foldl
    (fun tbl predIdx =>
      Function.update tbl (PairOffset b.nPred next predIdx)
        ((tbl (PairOffset b.nPred next predIdx)).Inherit
          (b.bottomNode (PairOffset b.nPred levelIdx predIdx))))
    pre

/-- Method `Bottom::Inherit(levelIdx, lNext, rNext, ...)`; the remaining
arguments are unused by the body.  The staged table is dereferenced only when a
loop body runs. -/
def Bottom.Inherit (b : Bottom) (levelIdx : Nat) (lNext rNext : Int) : Option Bottom :=
  if (lNext < 0 ∧ rNext < 0) ∨ b.nPred = 0 then some b
  else
    match b.preStage with
    | none => none
    | some pre =>
      let pre1 := if lNext ≥ 0 then b.InheritLoop levelIdx lNext.toNat pre else pre
      let pre2 := if rNext ≥ 0 then b.InheritLoop levelIdx rNext.toNat pre1 else pre1
      some { b with preStage := some pre2 }

/-- Method `Bottom::DeOverlap`: the staged table becomes the current one.  With
no staged table the source leaves `bottomNode` null; the embedding has no null
table and returns `none`. -/
def Bottom.DeOverlap (b : Bottom) : Option Bottom :=
  match b.preStage with
  | none => none
  | some pre => some { b with bottomNode := pre, preStage := none }

/-- Modelled from the spec: `Bottom::SetSingleton(levelIdx, predIdx)` (in
`bottom.h`) marks the pair singleton, run count 1, in the staged table at
`PairOffset(levelIdx, predIdx)`. -/
def Bottom.SetSingleton (b : Bottom) (levelIdx predIdx : Nat) : Option Bottom :=
  match b.preStage with
  | none => none
  | some pre =>
    some { b with preStage := some (Function.update pre (PairOffset b.nPred levelIdx predIdx)
      { pre (PairOffset b.nPred levelIdx predIdx) with runCount := 1 }) }

/-! ## Restage initialisation, restaging, splitting: one level -/

/-- Modelled from the spec: the double-buffered sample storage of the
collaborator `SamplePred` (samplepred.h): per predictor two buffers of cells
with parallel sample-index arrays, selected by a buffer bit. -/
structure SamplePred (α : Type) where
  node : Nat → Nat → Nat → α
  sIdx : Nat → Nat → Nat → Nat

/-- Accessor `SamplePred::PredBase(predIdx, bufBit)`. -/
def SamplePred.PredBase {α : Type} (sp : SamplePred α) (predIdx bufBit : Nat) : Nat → α :=
  sp.node predIdx bufBit

/-- The target side of `SamplePred::Buffers(predIdx, sourceBit, ..)` replaced by
what a restage left in it. -/
def SamplePred.storeTarg {α : Type} (sp : SamplePred α) (predIdx sourceBit : Nat)
    (targ : Nat → α) (sIdxTarg : Nat → Nat) : SamplePred α :=
  { node := fun p bit => if p = predIdx ∧ bit = 1 - sourceBit then targ else sp.node p bit
    sIdx := fun p bit => if p = predIdx ∧ bit = 1 - sourceBit then sIdxTarg else sp.sIdx p bit }

/-- Collaborators of one level whose code is outside the repository excerpt:
the members of `PairEnv`, the value of a value-initialised `MRRA`, the run test
`SPNode::IsRun`, the splitting kernels `SplitPred::SplitFac` / `SplitNum`, which
publish into the registry through `SSWrite`, and `SplitPred::LevelInit`, which
returns the split flags and prepares the registry. -/
structure LevelEnv (α : Type) where
  pair : PairEnv
  mrraFresh : MRRA
  IsRun : (Nat → α) → Int → Int → Bool
  SplitFac : List Nat → Nat → Int → IndexNode → (Nat → α) → SplitSig → SplitSig
  SplitNum : List Nat → Nat → IndexNode → (Nat → α) → SplitSig → SplitSig
  LevelInit : Bottom → (Nat → Bool) × SplitSig

/-- Loop state of the first loop of `Bottom::RestageInit`. -/
structure RestageInitAcc where
  restageSource : BV
  reaching : BV
  bufTarg : BitMatrix
  mrraTarg : List MRRA
  pathNode : List PathNode
  idxPrev : Nat

/-- The matrix `*(end(bufferLevel) - levelDel)`. -/
def bufLook (bufferLevel : List BitMatrix) (levelDel : Nat) : Option BitMatrix :=
  if levelDel = 0 ∨ bufferLevel.length < levelDel then none
  else bufferLevel[bufferLevel.length - levelDel]?

/-- One iteration of the first loop of `Bottom::RestageInit`, for `pair`. -/
def RestageInitStep (env : PairEnv) (nPred : Nat) (indexNode : Nat → IndexNode)
    (bufferLevel : List BitMatrix) (restageNode : List RestageNode)
    (acc : RestageInitAcc) (pair : SplitPair) : Option RestageInitAcc :=
  let bottomIdx := pair.BottomIdx.1
  let restageIdx := pair.BottomIdx.2
  let levelIdx := (SplitCoords nPred bottomIdx).1
  let predIdx := (SplitCoords nPred bottomIdx).2
  match restageNode[restageIdx]? with
  | none => none
  | some rsNode =>
    let pathZero := rsNode.PathZero
    let start := (indexNode levelIdx).PathCoords.1
    let extent := (indexNode levelIdx).PathCoords.2.1
    let path := (indexNode levelIdx).PathCoords.2.2
    if pathZero + path < acc.pathNode.length then
      let mrraIdx := (env.MrraIdx bottomIdx levelIdx true).1
      let levelDel := (env.MrraIdx bottomIdx levelIdx true).2
      match bufLook bufferLevel levelDel with
      | none => none
      | some bufMRRA =>
        let sourceBit := bufMRRA.IsSet mrraIdx predIdx
        if acc.idxPrev ≠ levelIdx ∧ acc.mrraTarg.length ≤ levelIdx then none
        else
          some { restageSource :=
                   acc.restageSource.SetBit (PairOffset nPred restageIdx predIdx) sourceBit
                 reaching := acc.reaching.SetBit (PairOffset nPred restageIdx predIdx) true
                 bufTarg := acc.bufTarg.SetBit levelIdx predIdx (!sourceBit)
                 mrraTarg :=
                   if acc.idxPrev ≠ levelIdx then
                     acc.mrraTarg.set levelIdx (MRRA.Init start extent)
                   else acc.mrraTarg
                 pathNode := acc.pathNode.set (pathZero + path) (PathNode.Init levelIdx start)
                 idxPrev := levelIdx }
    else none

/-- The second loop of `Bottom::RestageInit`: one `RestagePair` for every set bit
of `reaching`, read at the running position `idx`. -/
def reachingPairs (reaching : BV) (nRestage nPred : Nat) : List RestagePair :=
  (List.range nRestage).flatMap (fun restageIdx =>
    ((List.range nPred).filter (fun predIdx =>
      reaching.IsSet (restageIdx * nPred + predIdx))).map
        (fun predIdx => RestagePair.Init restageIdx predIdx))

/-- The statement `ancTot -= mrraLevel[0].size()` on an `unsigned int`. -/
def ancSub (ancTot size : Nat) : Nat :=
  if size ≤ ancTot then ancTot - size else ancTot + 2 ^ 32 - size

/-- What `Bottom::RestageInit` leaves behind: the orchestrator with its windows
and `ancTot` updated, the returned `restageSource`, and the filled vectors. -/
structure RestageInitOut where
  bottom : Bottom
  restageSource : BV
  restagePair : List RestagePair
  pathNode : List PathNode

/-- Method `Bottom::RestageInit(indexNode, pairNode, restageNode, restagePair,
pathNode)`, with `restagePair` empty on entry. -/
def Bottom.RestageInit (b : Bottom) (env : PairEnv) (mrraFresh : MRRA)
    (indexNode : Nat → IndexNode) (pairNode : List SplitPair)
    (restageNode : List RestageNode) (pathNode : List PathNode) : Option RestageInitOut :=
  let init : RestageInitAcc :=
    { restageSource := BV.new (restageNode.length * b.nPred)
      reaching := BV.new (restageNode.length * b.nPred)
      bufTarg := BitMatrix.new b.levelCount b.nPred
      mrraTarg := List.replicate b.levelCount mrraFresh
      pathNode := pathNode
      idxPrev := b.levelCount }
  match pairNode.foldlM
      (RestageInitStep env b.nPred indexNode b.bufferLevel restageNode) init with
  | none => none
  | some acc =>
    let bufPushed := b.bufferLevel ++ [acc.bufTarg]
    let mrraPushed := b.mrraLevel ++ [acc.mrraTarg]
    some { bottom :=
             { b with
               bufferLevel := if bufPushed.length > pathMax then bufPushed.drop 1 else bufPushed
               ancTot := if mrraPushed.length > pathMax then
                   ancSub b.ancTot (mrraPushed.headD []).length
                 else b.ancTot
               mrraLevel := if mrraPushed.length > pathMax then mrraPushed.drop 1
                 else mrraPushed }
           restageSource := acc.restageSource
           restagePair := reachingPairs acc.reaching restageNode.length b.nPred
           pathNode := acc.pathNode }

/-- The body of the loop of `Bottom::Restage` for one `RestagePair`: the restage
itself, its `SetSingleton` calls, and the target buffers written back. -/
def Bottom.RestageOne {α : Type} (env : LevelEnv α) (restageNode : List RestageNode)
    (pathNode : List PathNode) (restageSource : BV) (st : Bottom × SamplePred α)
    (pr : RestagePair) : Option (Bottom × SamplePred α) :=
  let nodeIdx := pr.Coords.1
  let predIdx := pr.Coords.2
  match restageNode[nodeIdx]? with
  | none => none
  | some rsNode =>
    let sourceBit : Nat :=
      if restageSource.IsSet (PairOffset st.1.nPred nodeIdx predIdx) = true then 1 else 0
    match rsNode.Restage st.1.samplePath pathNode env.IsRun predIdx
        (st.2.node predIdx sourceBit) (st.2.sIdx predIdx sourceBit)
        (st.2.node predIdx (1 - sourceBit)) (st.2.sIdx predIdx (1 - sourceBit)) with
    | none => none
    | some out =>
      match out.singletons.foldlM (fun (bb : Bottom) c => bb.SetSingleton c.1 c.2) st.1 with
      | none => none
      | some b' => some (b', st.2.storeTarg predIdx sourceBit out.targ out.sIdxTarg)

/-- Method `Bottom::Restage`, its parallel loop run in index order. -/
def Bottom.Restage {α : Type} (b : Bottom) (env : LevelEnv α) (sp : SamplePred α)
    (restageNode : List RestageNode) (restagePair : List RestagePair)
    (pathNode : List PathNode) (restageSource : BV) : Option (Bottom × SamplePred α) :=
  restagePair.foldlM (Bottom.RestageOne env restageNode pathNode restageSource) (b, sp)

/-- Method `Bottom::Split(indexNode, pairNode)` for one pair; `run` is the state
of the `Run` workspace announced by `PairInit`. -/
def Bottom.SplitOne {α : Type} (env : LevelEnv α) (sp : SamplePred α) (run : List Nat)
    (indexNode : Nat → IndexNode) (b : Bottom) (pair : SplitPair) : Option Bottom :=
  if pair.Split.1 = true then
    let bottomIdx := pair.BottomIdx.1
    let levelIdx := (SplitCoords b.nPred bottomIdx).1
    let predIdx := (SplitCoords b.nPred bottomIdx).2
    match b.BufBit levelIdx predIdx with
    | none => none
    | some bufBit =>
      if pair.Split.2 ≥ 0 then
        some { b with splitSig := env.SplitFac run bottomIdx pair.Split.2 (indexNode levelIdx)
                                    (sp.PredBase predIdx bufBit) b.splitSig }
      else
        some { b with splitSig := env.SplitNum run bottomIdx (indexNode levelIdx)
                                    (sp.PredBase predIdx bufBit) b.splitSig }
  else some b

/-- Method `Bottom::Split(pairNode, indexNode)`, its parallel loop run in index
order.  The preceding call `splitPred->RunOffsets()` acts on the collaborator
alone. -/
def Bottom.Split {α : Type} (b : Bottom) (env : LevelEnv α) (sp : SamplePred α)
    (run : List Nat) (indexNode : Nat → IndexNode) (pairNode : List SplitPair) :
    Option Bottom :=
  pairNode.foldlM (Bottom.SplitOne env sp run indexNode) b

/-- The restaging part of `Bottom::Level`, run when `ancTot > 0`. -/
def Bottom.LevelRestage {α : Type} (b : Bottom) (env : LevelEnv α) (sp : SamplePred α)
    (indexNode : Nat → IndexNode) (out : PairInitOut) : Option (Bottom × SamplePred α) :=
  if b.ancTot > 0 then
    match b.RestageInit env.pair env.mrraFresh indexNode out.pairNode out.restageNode
        (List.replicate out.pathTotal PathNode.Init0) with
    | none => none
    | some ri =>
      ri.bottom.Restage env sp out.restageNode ri.restagePair ri.pathNode ri.restageSource
  else some (b, sp)

/-- Method `Bottom::Level(run, splitFlags, indexNode)`. -/
def Bottom.Level {α : Type} (b : Bottom) (env : LevelEnv α) (sp : SamplePred α)
    (splitFlags : Nat → Bool) (indexNode : Nat → IndexNode) :
    Option (Bottom × SamplePred α) :=
  match PairInit env.pair b.ancTot b.levelCount b.nPred b.nPredFac b.bottomNode b.mrraLevel
      splitFlags with
  | none => none
  | some out =>
    match Bottom.LevelRestage { b with mrraLevel := out.mrraLevel } env sp indexNode out with
    | none => none
    | some st =>
      match Bottom.Split { st.1 with ancTot := st.1.ancTot + st.1.levelCount } env st.2
          out.countSafe indexNode out.pairNode with
      | none => none
      | some b' => some (b', st.2)

/-- Whether the pair at `botIdx` takes a run set in `PairInit`: it is emitted
with its split flag set and a run count above 1. -/
def TakesSet (env : PairEnv) (bottomNode : Nat → BottomNode) (splitFlags : Nat → Bool)
    (botIdx : Nat) : Bool :=
  Emits env bottomNode splitFlags botIdx && splitFlags botIdx &&
    decide ((bottomNode botIdx).RunCount > 1)

/-! ## Split results -/

/-- Fields of `NuxLH` (splitsig.h). -/
structure NuxLH where
  info : Info
  idxStart : Nat
  lhExtent : Nat
  sCount : Nat
  rankLH : Nat
  rankRH : Nat
  lhImplicit : Nat
deriving DecidableEq

/-- Method `NuxLH::Init(idxStart, lhExtent, sCount, info)`. -/
def NuxLH.Init (n : NuxLH) (idxStart lhExtent sCount : Nat) (info : Info) : NuxLH :=
  { n with idxStart := idxStart, lhExtent := lhExtent, sCount := sCount, info := info
           rankLH := 0, rankRH := 0 }

/-- Method `NuxLH::InitNum(idxStart, lhExtent, sCount, info, rankLH, rankRH,
lhImplicit)`. -/
def NuxLH.InitNum (n : NuxLH) (idxStart lhExtent sCount : Nat) (info : Info)
    (rankLH rankRH lhImplicit : Nat) : NuxLH :=
  { n.Init idxStart lhExtent sCount info with
    rankLH := rankLH, rankRH := rankRH, lhImplicit := lhImplicit }

/-- Method `NuxLH::InitNum` called without its last argument, which then takes
its default `0`. -/
def NuxLH.InitNumDefault (n : NuxLH) (idxStart lhExtent sCount : Nat) (info : Info)
    (rankLH rankRH : Nat) : NuxLH :=
  n.InitNum idxStart lhExtent sCount info rankLH rankRH 0

/-- Method `NuxLH::Ref`: the outputs `(idxStart, lhExtent, sCount, info,
rankMean, lhImplicit)`.  The mean `0.5 * (double(rankLH) + double(rankRH))` of
two 32-bit ranks is exact in a `double`. -/
def NuxLH.Ref (n : NuxLH) : Nat × Nat × Nat × Info × Info × Nat :=
  (n.idxStart, n.lhExtent, n.sCount, n.info,
    (1 / 2 : Info) * ((n.rankLH : Info) + (n.rankRH : Info)), n.lhImplicit)

/-- The level index `pathNode[pathZero + p].levelIdx` of path `p`, negative when
the path reaches no node. -/
def pathLevel (r : RestageNode) (pathNode : List PathNode) (p : Nat) : Int :=
  ((pathNode[r.pathZero + p]?).map PathNode.levelIdx).getD (-1)

/-- The paths for which `RestageNode::Singletons` calls `SetSingleton`, given the
final `targOffset`: level index non-negative and
`targ->IsRun(offset, targOffset[path] - 1)`. -/
def singletonPaths {α : Type} (r : RestageNode) (pathNode : List PathNode)
    (targOffset : List Nat) (IsRun : (Nat → α) → Int → Int → Bool) (targ : Nat → α) :
    List Nat :=
  (List.range (2 ^ r.levelDel)).filter (fun p =>
    decide (0 ≤ pathLevel r pathNode p) &&
      IsRun targ (sliceOffset r pathNode p : Int) ((targOffset.getD p 0 : Int) - 1))

/-- Collaborators of a level-1 run: no pair is exhausted, every pair's MRRA is
node 0 of the level one back. -/
def exEnv : PairEnv :=
  { Exhausted := fun _ => false, MrraIdx := fun _ _ _ => (0, 1) }

/-- A table for two nodes and two predictors, indexed node-major: both pairs of
node 0 have run count 0; at node 1 the pair of predictor 0 has 3 runs and the
pair of predictor 1 is a singleton. -/
def exTable : Nat → BottomNode :=
  fun i => if i = 2 then { runCount := 3, facCard := 3 }
    else if i = 3 then { runCount := 1, facCard := 3 }
    else { runCount := 0, facCard := 0 }

/-- Split flags: set everywhere but at pair index 1, the pair (node 0,
predictor 1). -/
def exFlags : Nat → Bool :=
  fun i => i != 1

/-- The window after level zero of a tree over four samples. -/
def exWindow : MrraWindow :=
  [[MRRA.Init 0 4]]

/-- What `PairInit` produces on `exTable`, `exFlags` and `exWindow` at a level of
two nodes and two predictors with one ancestor. -/
def exPairOut : PairInitOut :=
  { pairNode := [SplitPair.SplitInitNoSet 0 0, SplitPair.SplitInit 2 0 0]
    restageNode := [RestageNode.Init 0 4 1 0]
    mrraLevel := [[{ start := 0, extent := 4, restageIdx := 0 }]]
    setCount := 1, countSafe := [3], pathTotal := 6 }

/-- A restage node over source positions `0..3` with two reaching paths. -/
def exNode : RestageNode :=
  { startIdx := 0, extent := 4, levelDel := 1, pathZero := 0 }

/-- Path nodes of `exNode`: the left slice starts at 0, the right one at 2. -/
def exPathNode : List PathNode :=
  [PathNode.Init 0 0, PathNode.Init 1 2]

/-- Sample paths: sample 3 is extinct, the others carry their index as path. -/
def exSamplePath : Nat → SamplePath :=
  fun s => { extinct := if s = 3 then 1 else 0, path := s }

/-- A source buffer whose cell at position `i` is `10 + i`. -/
def exSource : Nat → Nat :=
  fun i => 10 + i

/-- A run test on cells that are numbers: first and last cell equal. -/
def exIsRun : (Nat → Nat) → Int → Int → Bool :=
  fun buf a b => buf a.toNat == buf b.toNat

/-- An orchestrator at a level of two nodes over two predictors whose table
entry `i` carries run count `10 + i`. -/
def exParent : Bottom :=
  { nPred := 2, nPredFac := 0, ancTot := 1, levelCount := 2
    samplePath := fun _ => SamplePath.new
    bottomNode := fun i => { runCount := 10 + i, facCard := 0 }
    preStage := none
    bufferLevel := [BitMatrix.new 1 2]
    mrraLevel := exWindow
    splitSig := { nPred := 2, splitCount := 0
                  levelSS := fun _ => { leftExpl := false, setIdx := 0, predIdx := 0, sCount := 0
                                        idxStart := 0, lhExtent := 0, info := 0, rankMean := 0
                                        lhImplicit := 0, bufIdx := 0 } } }

/-- Contents of a newly allocated table: run count 0 everywhere. -/
def exFresh : Nat → BottomNode :=
  fun _ => { runCount := 0, facCard := 0 }

/-- Collaborators of a level over cells that are numbers: no run is ever
detected and the splitting kernels publish nothing. -/
def exLevelEnv : LevelEnv Nat :=
  { pair := exEnv
    mrraFresh := { start := 0, extent := 0, restageIdx := 0 }
    IsRun := fun _ _ _ => false
    SplitFac := fun _ _ _ _ _ ss => ss
    SplitNum := fun _ _ _ _ ss => ss
    LevelInit := fun b => (fun _ => true, b.splitSig) }

/-- Sample buffers whose cell at position `i` is `10 + i` and whose sample index
at position `i` is `i`, in both buffers of every predictor. -/
def exSamplePred : SamplePred Nat :=
  { node := fun _ _ i => 10 + i, sIdx := fun _ _ i => i }

/-- Index nodes: node `i` covers two positions from `2 * i` and lies on path `i`. -/
def exIndexNode : Nat → IndexNode :=
  fun i => { start := 2 * i, extent := 2, path := i, minInfo := 0 }

/-- An orchestrator at level 1 of a tree over four samples: two nodes, two
predictors (one factor), the table `exTable`, one ancestor in the window. -/
def exBottom : Bottom :=
  { exParent with nPredFac := 1, bottomNode := exTable }

/-- The orchestrator constructed for four samples and two predictors, predictor
1 a factor of cardinality 3. -/
def exRoot : Bottom :=
  Bottom.new (fun p => if p = 1 then 3 else 0) exFresh exParent.splitSig 4 2 1

/-- Window `w'` keeps what `w` holds: every MRRA of `w` is still addressable in
`w'`, and unchanged if its dense index was already assigned. -/
def MrraWindow.Keeps (w w' : MrraWindow) : Prop :=
  ∀ levelDel mrraIdx m, w.look levelDel mrraIdx = some m →
    ∃ m', w'.look levelDel mrraIdx = some m' ∧ (0 ≤ m.restageIdx → m' = m)

/-- What a second `PairInit`, run right after the one that produced `exPairOut`,
produces on the same table and flags. -/
def exPairAgain : PairInitOut :=
  { pairNode := [SplitPair.SplitInitNoSet 0 0, SplitPair.SplitInit 2 0 0]
    restageNode := []
    mrraLevel := [[{ start := 0, extent := 4, restageIdx := 0 }]]
    setCount := 1, countSafe := [3], pathTotal := 4 }

theorem PairEmit_pairNode (flag : Bool) (rl : Int) (acc acc' : PairAcc) (botIdx : Nat)
    (t : Nat × MrraWindow × List RestageNode × Nat)
    (h : PairEmit flag rl acc botIdx t = some acc') :
    ∃ p : SplitPair, acc'.pairNode = acc.pairNode ++ [p] ∧ p.bottomIdx = botIdx ∧
      p.restageIdx = t.1 ∧ acc'.mrraLevel = t.2.1 ∧ acc'.restageNode = t.2.2.1 ∧
      acc'.pathAccum = t.2.2.2 := by
  unfold PairEmit at h
  by_cases hf : flag = true
  · rw [if_pos hf] at h
    by_cases hr : rl > 1
    · rw [if_pos hr] at h
      by_cases hs : acc.setCount < acc.safeCount.length
      · rw [if_pos hs] at h
        cases h
        exact ⟨_, rfl, rfl, rfl, rfl, rfl, rfl⟩
      · rw [if_neg hs] at h
        exact absurd h (by simp)
    · rw [if_neg hr] at h
      cases h
      exact ⟨_, rfl, rfl, rfl, rfl, rfl, rfl⟩
  · rw [if_neg hf] at h
    cases h
    exact ⟨_, rfl, rfl, rfl, rfl, rfl, rfl⟩

theorem PairStep_bottomIdx (env : PairEnv) (ancTot nPred : Nat)
    (bottomNode : Nat → BottomNode) (splitFlags : Nat → Bool) (acc acc' : PairAcc)
    (botIdx : Nat)
    (h : PairStep env ancTot nPred bottomNode splitFlags acc botIdx = some acc') :
    acc'.pairNode.map SplitPair.bottomIdx =
      acc.pairNode.map SplitPair.bottomIdx ++
        (if Emits env bottomNode splitFlags botIdx = true then [botIdx] else []) := by
  unfold PairStep at h
  by_cases hE : Emits env bottomNode splitFlags botIdx = true
  · rw [if_pos hE] at h
    rw [if_pos hE]
    cases ht : PairTouch env ancTot nPred acc botIdx with
    | none => rw [ht] at h; exact absurd h (by simp)
    | some t =>
      rw [ht] at h
      obtain ⟨p, hp, hb, -⟩ := PairEmit_pairNode _ _ _ _ _ _ h
      rw [hp, List.map_append, List.map_singleton, hb]
  · rw [if_neg hE] at h
    rw [if_neg hE]
    cases h
    simp

theorem PairFold_bottomIdx (env : PairEnv) (ancTot nPred : Nat)
    (bottomNode : Nat → BottomNode) (splitFlags : Nat → Bool) (l : List Nat) :
    ∀ (acc acc' : PairAcc),
      l.foldlM (PairStep env ancTot nPred bottomNode splitFlags) acc = some acc' →
      acc'.pairNode.map SplitPair.bottomIdx =
        acc.pairNode.map SplitPair.bottomIdx ++
          l.filter (fun b => Emits env bottomNode splitFlags b) := by
  induction l with
  | nil =>
    intro acc acc' h
    simp at h
    subst h
    simp
  | cons b l ih =>
    intro acc acc' h
    rw [List.foldlM_cons] at h
    cases hs : PairStep env ancTot nPred bottomNode splitFlags acc b with
    | none => rw [hs] at h; exact absurd h (by simp)
    | some mid =>
      rw [hs] at h
      have h1 := PairStep_bottomIdx env ancTot nPred bottomNode splitFlags acc mid b hs
      have h2 := ih mid acc' (by simpa using h)
      rw [h2, h1, List.filter_cons]
      by_cases hE : Emits env bottomNode splitFlags b = true <;> simp [hE]

theorem PairInit_bottomIdx (env : PairEnv) (ancTot levelCount nPred nPredFac : Nat)
    (bottomNode : Nat → BottomNode) (w : MrraWindow) (splitFlags : Nat → Bool)
    (out : PairInitOut)
    (h : PairInit env ancTot levelCount nPred nPredFac bottomNode w splitFlags = some out) :
    out.pairNode.map SplitPair.bottomIdx =
      (List.range (levelCount * nPred)).filter (fun b => Emits env bottomNode splitFlags b) := by
  unfold PairInit at h
  simp only at h
  split at h
  · exact absurd h (by simp)
  · rename_i acc hacc
    cases h
    have := PairFold_bottomIdx env ancTot nPred bottomNode splitFlags _ _ _ hacc
    simpa using this

theorem PairInit_sorted (env : PairEnv) (ancTot levelCount nPred nPredFac : Nat)
    (bottomNode : Nat → BottomNode) (w : MrraWindow) (splitFlags : Nat → Bool)
    (out : PairInitOut)
    (h : PairInit env ancTot levelCount nPred nPredFac bottomNode w splitFlags = some out) :
    (out.pairNode.map SplitPair.bottomIdx).Pairwise (fun a b => a < b) := by
  rw [PairInit_bottomIdx env ancTot levelCount nPred nPredFac bottomNode w splitFlags out h]
  exact List.Pairwise.filter _ (List.pairwise_lt_range _)

theorem Emits_iff (env : PairEnv) (bottomNode : Nat → BottomNode) (splitFlags : Nat → Bool)
    (botIdx : Nat) :
    Emits env bottomNode splitFlags botIdx = true ↔
      ((bottomNode botIdx).RunCount ≠ 1 ∧
        (splitFlags botIdx = true ∨ env.Exhausted botIdx = true)) := by
  simp [Emits]

/-- C1: whenever `PairInit` runs to completion, a pair index `botIdx` below
`levelCount * nPred` has a `SplitPair` in the output exactly when its run count
is not 1 and its split flag is set or `Exhausted(botIdx)` holds; a pair whose
run count is 1 is never emitted, whatever its flag; and the emitted pairs carry
strictly increasing pair indices. -/
theorem PairInit_emits_iff (env : PairEnv) (ancTot levelCount nPred nPredFac : Nat)
    (bottomNode : Nat → BottomNode) (w : MrraWindow) (splitFlags : Nat → Bool)
    (out : PairInitOut)
    (h : PairInit env ancTot levelCount nPred nPredFac bottomNode w splitFlags = some out) :
    (∀ botIdx, botIdx < levelCount * nPred →
      ((∃ p ∈ out.pairNode, p.bottomIdx = botIdx) ↔
        ((bottomNode botIdx).RunCount ≠ 1 ∧
          (splitFlags botIdx = true ∨ env.Exhausted botIdx = true)))) ∧
    (∀ botIdx, (bottomNode botIdx).RunCount = 1 →
      ∀ p ∈ out.pairNode, p.bottomIdx ≠ botIdx) ∧
    (out.pairNode.map SplitPair.bottomIdx).Pairwise (fun a b => a < b) := by
  have hmap := PairInit_bottomIdx env ancTot levelCount nPred nPredFac bottomNode w
    splitFlags out h
  have hmem : ∀ botIdx, (∃ p ∈ out.pairNode, p.bottomIdx = botIdx) ↔
      (botIdx < levelCount * nPred ∧ Emits env bottomNode splitFlags botIdx = true) := by
    intro botIdx
    have : (∃ p ∈ out.pairNode, p.bottomIdx = botIdx) ↔
        botIdx ∈ out.pairNode.map SplitPair.bottomIdx := by
      simp [List.mem_map]
    rw [this, hmap, List.mem_filter, List.mem_range]
  refine ⟨?_, ?_, ?_⟩
  · intro botIdx hlt
    rw [hmem, Emits_iff]
    exact ⟨fun hh => hh.2, fun hh => ⟨hlt, hh⟩⟩
  · intro botIdx hone p hp heq
    have := (hmem botIdx).1 ⟨p, hp, heq⟩
    rw [Emits_iff] at this
    exact this.2.1 hone
  · exact PairInit_sorted env ancTot levelCount nPred nPredFac bottomNode w splitFlags out h

theorem PairInit_emits_iff_witness :
    PairInit exEnv 1 2 2 1 exTable exWindow exFlags = some exPairOut ∧
    (exPairOut.pairNode.map SplitPair.bottomIdx).Pairwise (fun a b => a < b) :=
  ⟨by decide,
   (PairInit_emits_iff exEnv 1 2 2 1 exTable exWindow exFlags exPairOut (by decide)).2.2⟩

/-- C10: first-touch semantics of `MRRA::RestageIdx`.  With a negative cached
index the call appends `RestageNode{start, extent, levelDel, pathZero}` with
`pathZero` the incoming `pathAccum`, advances `pathAccum` by `2^levelDel`, caches
and returns the previous length of `restageNode`; with a non-negative cached
index it returns that index and leaves the MRRA, `restageNode` and `pathAccum`
as they were. -/
theorem RestageIdx_first_touch (m : MRRA) (levelDel pathAccum : Nat)
    (restageNode : List RestageNode) :
    (m.restageIdx < 0 →
      m.RestageIdx levelDel pathAccum restageNode =
        (restageNode.length,
         { start := m.start, extent := m.extent, restageIdx := (restageNode.length : Int) },
         pathAccum + 2 ^ levelDel,
         restageNode ++ [{ startIdx := m.start, extent := m.extent, levelDel := levelDel,
                           pathZero := pathAccum }])) ∧
    (0 ≤ m.restageIdx →
      m.RestageIdx levelDel pathAccum restageNode =
        (m.restageIdx.toNat, m, pathAccum, restageNode) ∧
      ((m.RestageIdx levelDel pathAccum restageNode).1 : Int) = m.restageIdx) := by
  constructor
  · intro hneg
    simp [MRRA.RestageIdx, hneg, RestageNode.Init]
  · intro hpos
    have : ¬ m.restageIdx < 0 := not_lt.mpr hpos
    simp [MRRA.RestageIdx, this, Int.toNat_of_nonneg hpos]

theorem RestageIdx_first_touch_witness :
    (MRRA.Init 0 4).restageIdx < 0 ∧
    (MRRA.Init 0 4).RestageIdx 1 0 [] =
      (0, { start := 0, extent := 4, restageIdx := 0 }, 2, [RestageNode.Init 0 4 1 0]) :=
  ⟨by decide, (RestageIdx_first_touch (MRRA.Init 0 4) 1 0 []).1 (by decide)⟩

/-! ### The restaging kernel -/

theorem pathMask_eq (d : Nat) (hd : d ≤ 8) : pathMask d = 2 ^ d - 1 := by
  interval_cases d <;> rfl

theorem livePath_lt (samplePath : Nat → SamplePath) (d : Nat) (sIdxSource : Nat → Nat)
    (idx p : Nat) (h : livePath samplePath d sIdxSource idx = some p) : p < 2 ^ d := by
  unfold livePath at h
  cases hl : IsLive samplePath (sIdxSource idx) with
  | none => rw [hl] at h; exact absurd h (by simp)
  | some b =>
    rw [hl] at h
    simp only [Option.map_some', Option.some.injEq] at h
    rw [← h]
    exact Nat.mod_lt _ (by positivity)

theorem liveSel_snoc (samplePath : Nat → SamplePath) (d : Nat) (sIdxSource : Nat → Nat)
    (l : List Nat) (x p : Nat) :
    liveSel samplePath d sIdxSource (l ++ [x]) p =
      liveSel samplePath d sIdxSource l p ++
        (if livePath samplePath d sIdxSource x = some p then [x] else []) := by
  unfold liveSel
  rw [List.filter_append]
  by_cases h : livePath samplePath d sIdxSource x = some p
  · simp [List.filter_cons, h]
  · simp [List.filter_cons, h]

theorem RestageStep_dead {α : Type} (samplePath : Nat → SamplePath) (d : Nat)
    (source : Nat → α) (sIdxSource : Nat → Nat) (st : RestageState α) (idx : Nat)
    (h : livePath samplePath d sIdxSource idx = none) :
    RestageStep samplePath (pathMask d) source sIdxSource st idx = some st := by
  unfold livePath at h
  cases hl : IsLive samplePath (sIdxSource idx) with
  | none => simp only [RestageStep, hl]
  | some b => rw [hl] at h; exact absurd h (by simp)

theorem RestageStep_live {α : Type} (samplePath : Nat → SamplePath) (d : Nat) (hd : d ≤ 8)
    (source : Nat → α) (sIdxSource : Nat → Nat) (st : RestageState α) (idx p o : Nat)
    (h : livePath samplePath d sIdxSource idx = some p)
    (ho : st.targOffset[p]? = some o) :
    RestageStep samplePath (pathMask d) source sIdxSource st idx =
      some { targOffset := st.targOffset.set p (o + 1)
             targ := Function.update st.targ o (source idx)
             sIdxTarg := Function.update st.sIdxTarg o (sIdxSource idx) } := by
  unfold livePath at h
  cases hl : IsLive samplePath (sIdxSource idx) with
  | none => rw [hl] at h; exact absurd h (by simp)
  | some b =>
    rw [hl] at h
    simp only [Option.map_some', Option.some.injEq] at h
    have hm : b &&& pathMask d = p := by
      rw [pathMask_eq d hd, Nat.and_pow_two_sub_one_eq_mod, h]
    simp only [RestageStep, hl, hm, ho]

theorem RestageFold_inv {α : Type} (samplePath : Nat → SamplePath) (d : Nat) (hd : d ≤ 8)
    (source : Nat → α) (sIdxSource : Nat → Nat) (off : Nat → Nat) (st0 : RestageState α)
    (hlen : st0.targOffset.length = 2 ^ d)
    (hoff : ∀ p, p < 2 ^ d → st0.targOffset[p]? = some (off p)) :
    ∀ l : List Nat,
      (∀ p q k k', p < 2 ^ d → q < 2 ^ d → p ≠ q →
        k < (liveSel samplePath d sIdxSource l p).length →
        k' < (liveSel samplePath d sIdxSource l q).length → off p + k ≠ off q + k') →
      ∃ st, l.foldlM (RestageStep samplePath (pathMask d) source sIdxSource) st0 = some st ∧
        RestageInv samplePath d source sIdxSource off st0.targ st0.sIdxTarg l st := by
  intro l
  induction l using List.reverseRecOn with
  | nil =>
    intro _
    refine ⟨st0, by simp, hlen, ?_, ?_, ?_⟩
    · intro p hp
      simpa [liveSel] using hoff p hp
    · intro p k idx _ h
      simp [liveSel] at h
    · intro pos _
      exact ⟨rfl, rfl⟩
  | append_singleton l x ih =>
    intro hdisj
    have hmono : ∀ p, (liveSel samplePath d sIdxSource l p).length ≤
        (liveSel samplePath d sIdxSource (l ++ [x]) p).length := by
      intro p
      rw [liveSel_snoc, List.length_append]
      exact Nat.le_add_right _ _
    obtain ⟨st, hfold, hl1, hl2, hl3, hl4⟩ := ih (fun p q k k' hp hq hne hk hk' =>
      hdisj p q k k' hp hq hne (lt_of_lt_of_le hk (hmono p)) (lt_of_lt_of_le hk' (hmono q)))
    cases hx : livePath samplePath d sIdxSource x with
    | none =>
      have hsel : ∀ p, liveSel samplePath d sIdxSource (l ++ [x]) p =
          liveSel samplePath d sIdxSource l p := by
        intro p
        rw [liveSel_snoc, hx]
        simp
      refine ⟨st, ?_, hl1, ?_, ?_, ?_⟩
      · rw [List.foldlM_append, hfold]
        simp [RestageStep_dead samplePath d source sIdxSource st x hx]
      · intro p hp
        rw [hsel]
        exact hl2 p hp
      · intro p k idx hp h
        rw [hsel] at h
        exact hl3 p k idx hp h
      · intro pos hpos
        exact hl4 pos (fun p k hp hk => hpos p k hp (by rw [hsel]; exact hk))
    | some px =>
      have hpx : px < 2 ^ d := livePath_lt samplePath d sIdxSource x px hx
      have hselx : liveSel samplePath d sIdxSource (l ++ [x]) px =
          liveSel samplePath d sIdxSource l px ++ [x] := by
        rw [liveSel_snoc, hx]
        simp
      have hselo : ∀ p, p ≠ px → liveSel samplePath d sIdxSource (l ++ [x]) p =
          liveSel samplePath d sIdxSource l p := by
        intro p hne
        rw [liveSel_snoc, hx]
        have : ¬ (some px = some p) := fun h => hne (Option.some.inj h).symm
        simp [this]
      have hstep := RestageStep_live samplePath d hd source sIdxSource st x px _ hx (hl2 px hpx)
      refine ⟨{ targOffset := st.targOffset.set px
                    (off px + (liveSel samplePath d sIdxSource l px).length + 1)
                targ := Function.update st.targ
                    (off px + (liveSel samplePath d sIdxSource l px).length) (source x)
                sIdxTarg := Function.update st.sIdxTarg
                    (off px + (liveSel samplePath d sIdxSource l px).length) (sIdxSource x) },
        ?_, ?_, ?_, ?_, ?_⟩
      · rw [List.foldlM_append, hfold]
        simp [hstep]
      · simp [hl1]
      · intro p hp
        by_cases hpp : p = px
        · subst hpp
          rw [hselx]
          simp only [List.length_append, List.length_singleton]
          rw [List.getElem?_set_self (by rw [hl1]; exact hp)]
          rfl
        · rw [hselo p hpp, List.getElem?_set_ne (Ne.symm hpp)]
          exact hl2 p hp
      · intro p k idx hp h
        by_cases hpp : p = px
        · subst hpp
          rw [hselx] at h
          by_cases hk : k < (liveSel samplePath d sIdxSource l p).length
          · rw [List.getElem?_append_left hk] at h
            have hne : off p + k ≠ off p + (liveSel samplePath d sIdxSource l p).length := by
              omega
            simp only [Function.update_noteq hne]
            exact hl3 p k idx hp h
          · have hk2 : (liveSel samplePath d sIdxSource l p).length ≤ k := not_lt.mp hk
            rw [List.getElem?_append_right hk2] at h
            have hk3 : k = (liveSel samplePath d sIdxSource l p).length := by
              by_contra hc
              have : k - (liveSel samplePath d sIdxSource l p).length ≠ 0 := by omega
              obtain ⟨j, hj⟩ := Nat.exists_eq_succ_of_ne_zero this
              rw [hj] at h
              simp at h
            rw [hk3] at h
            simp only [Nat.sub_self, List.getElem?_cons_zero, Option.some.injEq] at h
            rw [hk3, ← h]
            simp
        · rw [hselo p hpp] at h
          have hk : k < (liveSel samplePath d sIdxSource l p).length := by
            by_contra hc
            rw [List.getElem?_eq_none (not_lt.mp hc)] at h
            exact absurd h (by simp)
          have hne : off p + k ≠ off px + (liveSel samplePath d sIdxSource l px).length :=
            hdisj p px k _ hp hpx hpp (by rw [hselo p hpp]; exact hk)
              (by rw [hselx]; simp)
          simp only [Function.update_noteq hne]
          exact hl3 p k idx hp h
      · intro pos hpos
        have hne : pos ≠ off px + (liveSel samplePath d sIdxSource l px).length :=
          hpos px _ hpx (by rw [hselx]; simp)
        simp only [Function.update_noteq hne]
        exact hl4 pos (fun p k hp hk => hpos p k hp (lt_of_lt_of_le hk (hmono p)))

theorem mapM_option_some {β γ : Type} (f : β → Option γ) (g : β → γ) :
    ∀ l : List β, (∀ a, a ∈ l → f a = some (g a)) → l.mapM f = some (l.map g) := by
  intro l
  induction l with
  | nil => intro _; rfl
  | cons a l ih =>
    intro h
    rw [List.mapM_cons, h a (List.mem_cons_self a l),
      ih (fun b hb => h b (List.mem_cons_of_mem a hb))]
    rfl

theorem foldlM_option_some {β σ : Type} (f : σ → β → Option σ) :
    ∀ (l : List β) (s : σ), (∀ t a, a ∈ l → ∃ t', f t a = some t') →
      ∃ s', l.foldlM f s = some s' := by
  intro l
  induction l with
  | nil => intro s _; exact ⟨s, rfl⟩
  | cons a l ih =>
    intro s h
    obtain ⟨t, ht⟩ := h s a (List.mem_cons_self a l)
    obtain ⟨s', hs'⟩ := ih t (fun u b hb => h u b (List.mem_cons_of_mem a hb))
    refine ⟨s', ?_⟩
    rw [List.foldlM_cons, ht]
    exact hs'

theorem targOffsets_some (r : RestageNode) (pathNode : List PathNode)
    (hpn : r.pathZero + 2 ^ r.levelDel ≤ pathNode.length) :
    ∃ offs, r.targOffsets pathNode = some offs ∧ offs.length = 2 ^ r.levelDel ∧
      ∀ p, p < 2 ^ r.levelDel → offs[p]? = some (sliceOffset r pathNode p) := by
  refine ⟨(List.range (2 ^ r.levelDel)).map (sliceOffset r pathNode), ?_, by simp, ?_⟩
  · unfold RestageNode.targOffsets
    apply mapM_option_some
    intro a ha
    have ha' : a < 2 ^ r.levelDel := List.mem_range.mp ha
    have hlt : r.pathZero + a < pathNode.length := by omega
    simp [sliceOffset, List.getElem?_eq_getElem hlt]
  · intro p hp
    simp [List.getElem?_map, List.getElem?_range hp]

theorem Singletons_some {α : Type} (r : RestageNode) (pathNode : List PathNode)
    (targOffset : List Nat) (IsRun : (Nat → α) → Int → Int → Bool) (targ : Nat → α)
    (predIdx : Nat) (hpn : r.pathZero + 2 ^ r.levelDel ≤ pathNode.length)
    (hlen : targOffset.length = 2 ^ r.levelDel) :
    ∃ calls, r.Singletons pathNode targOffset IsRun targ predIdx = some calls := by
  unfold RestageNode.Singletons
  apply foldlM_option_some
  intro t a ha
  have ha' : a < 2 ^ r.levelDel := List.mem_range.mp ha
  have hlt : r.pathZero + a < pathNode.length := by omega
  have hlt2 : a < targOffset.length := by omega
  simp only [List.getElem?_eq_getElem hlt, List.getElem?_eq_getElem hlt2]
  split_ifs <;> exact ⟨_, rfl⟩

theorem mem_liveSlice (r : RestageNode) (samplePath : Nat → SamplePath)
    (sIdxSource : Nat → Nat) (p idx : Nat) :
    idx ∈ liveSlice r samplePath sIdxSource p ↔
      (r.startIdx ≤ idx ∧ idx < r.startIdx + r.extent ∧
        ∃ b, IsLive samplePath (sIdxSource idx) = some b ∧ b % 2 ^ r.levelDel = p) := by
  unfold liveSlice liveSel livePath
  rw [List.mem_filter, List.mem_range'_1]
  cases hl : IsLive samplePath (sIdxSource idx) with
  | none => simp
  | some b => simp [and_assoc]

/-- C2: `RestageNode::Restage` is a stable partition.  For a restage node with
`levelDel ≤ 8` whose `2^levelDel` path nodes lie inside `pathNode` and whose
target slices do not overlap, the call completes and, for every path
`p < 2^levelDel`, the `k`-th target cell from `pathNode[pathZero + p].offset`
(and the mirrored sample index) holds the `k`-th source cell of
`[startIdx, startIdx + extent)` whose sample is live with masked path `p`, the
positions of a slice being taken in increasing source order; every live source
position occupies exactly one place of exactly one target slice. -/
theorem Restage_stable_partition {α : Type} (r : RestageNode)
    (samplePath : Nat → SamplePath) (pathNode : List PathNode)
    (IsRun : (Nat → α) → Int → Int → Bool) (predIdx : Nat)
    (source : Nat → α) (sIdxSource : Nat → Nat) (targ : Nat → α) (sIdxTarg : Nat → Nat)
    (hdel : r.levelDel ≤ pathMax)
    (hpn : r.pathZero + 2 ^ r.levelDel ≤ pathNode.length)
    (hdisj : ∀ p q k k', p < 2 ^ r.levelDel → q < 2 ^ r.levelDel → p ≠ q →
      k < (liveSlice r samplePath sIdxSource p).length →
      k' < (liveSlice r samplePath sIdxSource q).length →
      sliceOffset r pathNode p + k ≠ sliceOffset r pathNode q + k') :
    ∃ out, r.Restage samplePath pathNode IsRun predIdx source sIdxSource targ sIdxTarg
        = some out ∧
      (∀ p k idx, p < 2 ^ r.levelDel →
        (liveSlice r samplePath sIdxSource p)[k]? = some idx →
        out.targ (sliceOffset r pathNode p + k) = source idx ∧
        out.sIdxTarg (sliceOffset r pathNode p + k) = sIdxSource idx) ∧
      (∀ p idx, idx ∈ liveSlice r samplePath sIdxSource p ↔
        (r.startIdx ≤ idx ∧ idx < r.startIdx + r.extent ∧
          ∃ b, IsLive samplePath (sIdxSource idx) = some b ∧ b % 2 ^ r.levelDel = p)) ∧
      (∀ p, (liveSlice r samplePath sIdxSource p).Pairwise (fun a b => a < b)) ∧
      (∀ idx b, r.startIdx ≤ idx → idx < r.startIdx + r.extent →
        IsLive samplePath (sIdxSource idx) = some b →
        ∃! pk : Nat × Nat, pk.1 < 2 ^ r.levelDel ∧
          (liveSlice r samplePath sIdxSource pk.1)[pk.2]? = some idx) := by
  have hd8 : r.levelDel ≤ 8 := hdel
  obtain ⟨offs, hoffs, hlen, hget⟩ := targOffsets_some r pathNode hpn
  obtain ⟨st, hfold, hl1, hl2, hl3, hl4⟩ :=
    RestageFold_inv samplePath r.levelDel hd8 source sIdxSource (sliceOffset r pathNode)
      { targOffset := offs, targ := targ, sIdxTarg := sIdxTarg } hlen hget
      (List.range' r.startIdx r.extent) hdisj
  obtain ⟨calls, hcalls⟩ := Singletons_some r pathNode st.targOffset IsRun st.targ predIdx
    hpn hl1
  have hsorted : ∀ p, (liveSlice r samplePath sIdxSource p).Pairwise (fun a b => a < b) :=
    fun p => List.Pairwise.filter _ (List.pairwise_lt_range' r.startIdx r.extent)
  refine ⟨{ targ := st.targ, sIdxTarg := st.sIdxTarg, targOffset := st.targOffset,
            singletons := calls }, ?_, ?_, ?_, hsorted, ?_⟩
  · unfold RestageNode.Restage
    rw [if_neg (not_lt.mpr hdel)]
    simp only [hoffs, hfold, hcalls]
  · intro p k idx hp h
    exact hl3 p k idx hp h
  · intro p idx
    exact mem_liveSlice r samplePath sIdxSource p idx
  · intro idx b hlo hhi hlive
    have hmem : idx ∈ liveSlice r samplePath sIdxSource (b % 2 ^ r.levelDel) :=
      (mem_liveSlice r samplePath sIdxSource _ idx).2 ⟨hlo, hhi, b, hlive, rfl⟩
    obtain ⟨k, hk⟩ := List.getElem?_of_mem hmem
    refine ⟨(b % 2 ^ r.levelDel, k), ⟨Nat.mod_lt _ (by positivity), hk⟩, ?_⟩
    rintro ⟨p', k'⟩ ⟨_, hk'⟩
    simp only at hk'
    have hmem' : idx ∈ liveSlice r samplePath sIdxSource p' :=
      List.mem_iff_getElem?.2 ⟨k', hk'⟩
    obtain ⟨-, -, b', hb', hp'⟩ := (mem_liveSlice r samplePath sIdxSource p' idx).1 hmem'
    rw [hlive] at hb'
    have hbb : b = b' := Option.some.inj hb'
    subst hbb
    subst hp'
    have hklt : k' < (liveSlice r samplePath sIdxSource (b % 2 ^ r.levelDel)).length := by
      by_contra hc
      rw [List.getElem?_eq_none (not_lt.mp hc)] at hk'
      exact absurd hk' (by simp)
    have hnd : (liveSlice r samplePath sIdxSource (b % 2 ^ r.levelDel)).Nodup :=
      (hsorted _).imp (fun h => Nat.ne_of_lt h)
    have := List.getElem?_inj hklt hnd (hk'.trans hk.symm)
    rw [this]

theorem Restage_stable_partition_witness :
    exNode.levelDel ≤ pathMax ∧ exNode.pathZero + 2 ^ exNode.levelDel ≤ exPathNode.length ∧
    liveSlice exNode exSamplePath id 0 = [0, 2] ∧
    liveSlice exNode exSamplePath id 1 = [1] ∧
    ∃ out, exNode.Restage exSamplePath exPathNode exIsRun 0 exSource id (fun _ => 0)
        (fun _ => 0) = some out ∧
      out.targ 0 = 10 ∧ out.targ 1 = 12 ∧ out.targ 2 = 11 ∧
      out.sIdxTarg 0 = 0 ∧ out.sIdxTarg 1 = 2 ∧ out.sIdxTarg 2 = 1 := by
  have h0 : liveSlice exNode exSamplePath id 0 = [0, 2] := by decide
  have h1 : liveSlice exNode exSamplePath id 1 = [1] := by decide
  have hsel : ∀ p, p < 2 ^ exNode.levelDel → p = 0 ∨ p = 1 := by
    intro p hp
    have : p < 2 := hp
    omega
  have hoff0 : sliceOffset exNode exPathNode 0 = 0 := by decide
  have hoff1 : sliceOffset exNode exPathNode 1 = 2 := by decide
  obtain ⟨out, hout, hcells, -⟩ :=
    Restage_stable_partition exNode exSamplePath exPathNode exIsRun 0 exSource id
      (fun _ => 0) (fun _ => 0) (by decide) (by decide)
      (by
        intro p q k k' hp hq hne hk hk'
        rcases hsel p hp with rfl | rfl <;> rcases hsel q hq with rfl | rfl
        · exact absurd rfl hne
        · rw [h0] at hk
          rw [hoff0, hoff1]
          simp only [List.length_cons, List.length_nil] at hk
          omega
        · rw [h0] at hk'
          rw [hoff0, hoff1]
          simp only [List.length_cons, List.length_nil] at hk'
          omega
        · exact absurd rfl hne)
  refine ⟨by decide, by decide, h0, h1, out, hout, ?_⟩
  have c0 := hcells 0 0 0 (by decide) (by rw [h0]; rfl)
  have c1 := hcells 0 1 2 (by decide) (by rw [h0]; rfl)
  have c2 := hcells 1 0 1 (by decide) (by rw [h1]; rfl)
  rw [hoff0] at c0 c1
  rw [hoff1] at c2
  exact ⟨c0.1, c1.1, c2.1, c0.2, c1.2, c2.2⟩

/-! ### Constructor, handshake and registry -/

theorem foldl_update_table {β : Type} (f : Nat → β) :
    ∀ (l : List Nat) (tbl : Nat → β) (p : Nat),
      (l.foldl (fun t i => Function.update t i (f i)) tbl) p =
        if p ∈ l then f p else tbl p := by
  intro l
  induction l with
  | nil => intro tbl p; simp
  | cons a l ih =>
    intro tbl p
    rw [List.foldl_cons, ih]
    by_cases hp : p ∈ l
    · simp [hp]
    · by_cases hpa : p = a
      · subst hpa
        simp [hp]
      · simp [hp, hpa, Function.update_noteq hpa]

/-- C7: the freshly constructed orchestrator has `levelCount = 1`, `ancTot = 0`,
an MRRA window of exactly one level holding the single MRRA
`{start = 0, extent = bagCount}` (not yet referenced), a buffer-bit window of
exactly one `1 x nPred` matrix with every bit zero, and for each predictor a
`BottomNode` initialised from that predictor's factor cardinality. -/
theorem Bottom_new_state (FacCard : Nat → Nat) (fresh : Nat → BottomNode) (ss : SplitSig)
    (bagCount nPred nPredFac : Nat) :
    (Bottom.new FacCard fresh ss bagCount nPred nPredFac).levelCount = 1 ∧
    (Bottom.new FacCard fresh ss bagCount nPred nPredFac).ancTot = 0 ∧
    (Bottom.new FacCard fresh ss bagCount nPred nPredFac).mrraLevel =
      [[{ start := 0, extent := bagCount, restageIdx := -1 }]] ∧
    (∃ m, (Bottom.new FacCard fresh ss bagCount nPred nPredFac).bufferLevel = [m] ∧
      m.nRow = 1 ∧ m.nCol = nPred ∧ ∀ i j, m.IsSet i j = false) ∧
    (∀ p, p < nPred →
      (Bottom.new FacCard fresh ss bagCount nPred nPredFac).bottomNode p =
        BottomNode.Init (FacCard p)) ∧
    (Bottom.new FacCard fresh ss bagCount nPred nPredFac).nPred = nPred := by
  refine ⟨rfl, rfl, rfl, ⟨BitMatrix.new 1 nPred, rfl, rfl, rfl, fun _ _ => rfl⟩, ?_, rfl⟩
  intro p hp
  show ((List.range nPred).foldl
      (fun tbl predIdx => Function.update tbl predIdx (BottomNode.Init (FacCard predIdx)))
      fresh) p = _
  rw [foldl_update_table (fun i => BottomNode.Init (FacCard i))]
  simp [hp]

theorem ArgMax_fold (ss : SplitSig) (levelIdx : Nat) :
    ∀ (l : List Nat) (acc : Option SSNode),
      (l = [] ∧ acc = none ∧
        l.foldl (fun acc predIdx =>
          match acc with
          | none => some (ss.Lookup levelIdx predIdx)
          | some b =>
            if b.info < (ss.Lookup levelIdx predIdx).info then
              some (ss.Lookup levelIdx predIdx)
            else some b) acc = none) ∨
      ∃ s, l.foldl (fun acc predIdx =>
          match acc with
          | none => some (ss.Lookup levelIdx predIdx)
          | some b =>
            if b.info < (ss.Lookup levelIdx predIdx).info then
              some (ss.Lookup levelIdx predIdx)
            else some b) acc = some s ∧
        (acc = some s ∨ ∃ p, p ∈ l ∧ s = ss.Lookup levelIdx p) ∧
        (∀ q, q ∈ l → (ss.Lookup levelIdx q).info ≤ s.info) ∧
        (∀ b, acc = some b → b.info ≤ s.info) := by
  intro l
  induction l with
  | nil =>
    intro acc
    cases acc with
    | none => left; simp
    | some b => right; exact ⟨b, rfl, Or.inl rfl, by simp, by simp⟩
  | cons a l ih =>
    intro acc
    right
    rw [List.foldl_cons]
    cases acc with
    | none =>
      rcases ih (some (ss.Lookup levelIdx a)) with ⟨_, h, _⟩ | ⟨s, hs, hfrom, hmax, hacc⟩
      · exact absurd h (by simp)
      · refine ⟨s, hs, Or.inr ?_, ?_, by simp⟩
        · rcases hfrom with h | ⟨p, hp, hsp⟩
          · exact ⟨a, List.mem_cons_self a l, (Option.some.inj h).symm⟩
          · exact ⟨p, List.mem_cons_of_mem a hp, hsp⟩
        · intro q hq
          rcases List.mem_cons.mp hq with rfl | hq
          · exact hacc _ rfl
          · exact hmax q hq
    | some b =>
      by_cases hlt : b.info < (ss.Lookup levelIdx a).info
      · simp only [hlt, if_true]
        rcases ih (some (ss.Lookup levelIdx a)) with ⟨_, h, _⟩ | ⟨s, hs, hfrom, hmax, hacc⟩
        · exact absurd h (by simp)
        · refine ⟨s, hs, Or.inr ?_, ?_, ?_⟩
          · rcases hfrom with h | ⟨p, hp, hsp⟩
            · exact ⟨a, List.mem_cons_self a l, (Option.some.inj h).symm⟩
            · exact ⟨p, List.mem_cons_of_mem a hp, hsp⟩
          · intro q hq
            rcases List.mem_cons.mp hq with rfl | hq
            · exact hacc _ rfl
            · exact hmax q hq
          · intro b' hb'
            cases hb'
            exact le_trans (le_of_lt hlt) (hacc _ rfl)
      · simp only [hlt, if_false]
        rcases ih (some b) with ⟨_, h, _⟩ | ⟨s, hs, hfrom, hmax, hacc⟩
        · exact absurd h (by simp)
        · refine ⟨s, hs, ?_, ?_, ?_⟩
          · rcases hfrom with h | ⟨p, hp, hsp⟩
            · exact Or.inl h
            · exact Or.inr ⟨p, List.mem_cons_of_mem a hp, hsp⟩
          · intro q hq
            rcases List.mem_cons.mp hq with rfl | hq
            · exact le_trans (not_lt.mp hlt) (hacc _ rfl)
            · exact hmax q hq
          · intro b' hb'
            cases hb'
            exact hacc _ rfl

/-- C5: `ArgMax(levelIdx, gainMin)`, for any contents of the workspace: a
returned candidate is the candidate of some predictor, its `info` is the maximum
over all predictors and is at least `gainMin`; a candidate is returned whenever
some predictor's `info` reaches `gainMin`; and none is returned if and only if
every predictor's `info` is below `gainMin`. -/
theorem ArgMax_correct (ss : SplitSig) (levelIdx : Nat) (gainMin : Info) :
    (∀ s, ss.ArgMax levelIdx gainMin = some s →
      (∃ p, p < ss.nPred ∧ s = ss.Lookup levelIdx p) ∧
      (∀ q, q < ss.nPred → (ss.Lookup levelIdx q).info ≤ s.info) ∧
      gainMin ≤ s.info) ∧
    ((∃ q, q < ss.nPred ∧ gainMin ≤ (ss.Lookup levelIdx q).info) →
      ∃ s, ss.ArgMax levelIdx gainMin = some s) ∧
    (ss.ArgMax levelIdx gainMin = none ↔
      ∀ q, q < ss.nPred → (ss.Lookup levelIdx q).info < gainMin) := by
  have hnone : ss.ArgMax levelIdx gainMin = none ↔
      ∀ q, q < ss.nPred → (ss.Lookup levelIdx q).info < gainMin := by
    unfold SplitSig.ArgMax
    rcases ArgMax_fold ss levelIdx (List.range ss.nPred) none with
      ⟨hl, _, hf⟩ | ⟨s, hs, hfrom, hmax, _⟩
    · simp only [hf]
      constructor
      · intro _ q hq
        have : q ∈ List.range ss.nPred := List.mem_range.mpr hq
        rw [hl] at this
        exact absurd this (List.not_mem_nil q)
      · intro _; trivial
    · simp only [hs]
      constructor
      · intro h q hq
        by_cases hg : gainMin ≤ s.info
        · rw [if_pos hg] at h
          exact absurd h (by simp)
        · exact lt_of_le_of_lt (hmax q (List.mem_range.mpr hq)) (not_le.mp hg)
      · intro h
        rcases hfrom with h0 | ⟨p, hp, hsp⟩
        · exact absurd h0 (by simp)
        · have := h p (List.mem_range.mp hp)
          rw [← hsp] at this
          rw [if_neg (not_le.mpr this)]
  refine ⟨?_, ?_, hnone⟩
  · intro s hsome
    unfold SplitSig.ArgMax at hsome
    rcases ArgMax_fold ss levelIdx (List.range ss.nPred) none with
      ⟨_, _, hf⟩ | ⟨t, ht, hfrom, hmax, _⟩
    · simp only [hf] at hsome
      exact absurd hsome (by simp)
    · simp only [ht] at hsome
      by_cases hg : gainMin ≤ t.info
      · rw [if_pos hg] at hsome
        cases hsome
        refine ⟨?_, fun q hq => hmax q (List.mem_range.mpr hq), hg⟩
        rcases hfrom with h0 | ⟨p, hp, hsp⟩
        · exact absurd h0 (by simp)
        · exact ⟨p, List.mem_range.mp hp, hsp⟩
      · rw [if_neg hg] at hsome
        exact absurd hsome (by simp)
  · rintro ⟨q, hq, hge⟩
    cases hA : ss.ArgMax levelIdx gainMin with
    | some s => exact ⟨s, rfl⟩
    | none => exact absurd (hnone.mp hA q hq) (not_lt.mpr hge)

/-! ### One level: what each phase leaves unchanged -/

theorem foldlM_option_inv {β σ : Type} (f : σ → β → Option σ) (P : σ → Prop)
    (hstep : ∀ s a s', P s → f s a = some s' → P s') :
    ∀ (l : List β) (s s' : σ), P s → l.foldlM f s = some s' → P s' := by
  intro l
  induction l with
  | nil =>
    intro s s' hP h
    simp at h
    subst h
    exact hP
  | cons a l ih =>
    intro s s' hP h
    rw [List.foldlM_cons] at h
    cases hf : f s a with
    | none => rw [hf] at h; exact absurd h (by simp)
    | some t =>
      rw [hf] at h
      exact ih t s' (hstep s a t hP hf) (by simpa using h)

/-- The part of the orchestrator that restaging and splitting leave alone. -/
theorem SetSingleton_frame (b b' : Bottom) (levelIdx predIdx : Nat)
    (h : b.SetSingleton levelIdx predIdx = some b') :
    b'.nPred = b.nPred ∧ b'.nPredFac = b.nPredFac ∧ b'.ancTot = b.ancTot ∧
    b'.levelCount = b.levelCount ∧ b'.bufferLevel = b.bufferLevel ∧
    b'.mrraLevel = b.mrraLevel ∧ b'.bottomNode = b.bottomNode ∧
    b'.splitSig = b.splitSig ∧ b'.samplePath = b.samplePath := by
  unfold Bottom.SetSingleton at h
  split at h
  · exact absurd h (by simp)
  · cases h
    exact ⟨rfl, rfl, rfl, rfl, rfl, rfl, rfl, rfl, rfl⟩

theorem SplitOne_frame {α : Type} (env : LevelEnv α) (sp : SamplePred α) (run : List Nat)
    (indexNode : Nat → IndexNode) (b b' : Bottom) (pair : SplitPair)
    (h : Bottom.SplitOne env sp run indexNode b pair = some b') :
    b'.nPred = b.nPred ∧ b'.nPredFac = b.nPredFac ∧ b'.ancTot = b.ancTot ∧
    b'.levelCount = b.levelCount ∧ b'.bufferLevel = b.bufferLevel ∧
    b'.mrraLevel = b.mrraLevel ∧ b'.bottomNode = b.bottomNode ∧
    b'.preStage = b.preStage ∧ b'.samplePath = b.samplePath := by
  unfold Bottom.SplitOne at h
  simp only at h
  split at h
  · split at h
    · exact absurd h (by simp)
    · split at h <;> (cases h; exact ⟨rfl, rfl, rfl, rfl, rfl, rfl, rfl, rfl, rfl⟩)
  · cases h
    exact ⟨rfl, rfl, rfl, rfl, rfl, rfl, rfl, rfl, rfl⟩

theorem Split_frame {α : Type} (b : Bottom) (env : LevelEnv α) (sp : SamplePred α)
    (run : List Nat) (indexNode : Nat → IndexNode) (pairNode : List SplitPair) (b' : Bottom)
    (h : b.Split env sp run indexNode pairNode = some b') :
    b'.nPred = b.nPred ∧ b'.nPredFac = b.nPredFac ∧ b'.ancTot = b.ancTot ∧
    b'.levelCount = b.levelCount ∧ b'.bufferLevel = b.bufferLevel ∧
    b'.mrraLevel = b.mrraLevel ∧ b'.bottomNode = b.bottomNode ∧
    b'.preStage = b.preStage ∧ b'.samplePath = b.samplePath := by
  unfold Bottom.Split at h
  exact foldlM_option_inv (Bottom.SplitOne env sp run indexNode)
    (fun x => x.nPred = b.nPred ∧ x.nPredFac = b.nPredFac ∧
      x.ancTot = b.ancTot ∧ x.levelCount = b.levelCount ∧
      x.bufferLevel = b.bufferLevel ∧ x.mrraLevel = b.mrraLevel ∧
      x.bottomNode = b.bottomNode ∧ x.preStage = b.preStage ∧
      x.samplePath = b.samplePath)
    (fun s a s' hP hs => by
      obtain ⟨h1, h2, h3, h4, h5, h6, h7, h8, h9⟩ := SplitOne_frame env sp run indexNode s s' a hs
      obtain ⟨p1, p2, p3, p4, p5, p6, p7, p8, p9⟩ := hP
      exact ⟨h1.trans p1, h2.trans p2, h3.trans p3, h4.trans p4, h5.trans p5,
        h6.trans p6, h7.trans p7, h8.trans p8, h9.trans p9⟩)
    _ _ _ ⟨rfl, rfl, rfl, rfl, rfl, rfl, rfl, rfl, rfl⟩ h

theorem RestageInit_out (b : Bottom) (env : PairEnv) (mrraFresh : MRRA)
    (indexNode : Nat → IndexNode) (pairNode : List SplitPair)
    (restageNode : List RestageNode) (pathNode : List PathNode) (ri : RestageInitOut)
    (h : b.RestageInit env mrraFresh indexNode pairNode restageNode pathNode = some ri) :
    ∃ acc, pairNode.foldlM
        (RestageInitStep env b.nPred indexNode b.bufferLevel restageNode)
        { restageSource := BV.new (restageNode.length * b.nPred)
          reaching := BV.new (restageNode.length * b.nPred)
          bufTarg := BitMatrix.new b.levelCount b.nPred
          mrraTarg := List.replicate b.levelCount mrraFresh
          pathNode := pathNode
          idxPrev := b.levelCount } = some acc ∧
      ri.bottom.bufferLevel =
        (if (b.bufferLevel ++ [acc.bufTarg]).length > pathMax then
          (b.bufferLevel ++ [acc.bufTarg]).drop 1 else b.bufferLevel ++ [acc.bufTarg]) ∧
      ri.bottom.mrraLevel =
        (if (b.mrraLevel ++ [acc.mrraTarg]).length > pathMax then
          (b.mrraLevel ++ [acc.mrraTarg]).drop 1 else b.mrraLevel ++ [acc.mrraTarg]) ∧
      ri.bottom.ancTot =
        (if (b.mrraLevel ++ [acc.mrraTarg]).length > pathMax then
          ancSub b.ancTot ((b.mrraLevel ++ [acc.mrraTarg]).headD []).length else b.ancTot) ∧
      ri.bottom.levelCount = b.levelCount ∧ ri.bottom.nPred = b.nPred ∧
      ri.bottom.nPredFac = b.nPredFac ∧ ri.bottom.bottomNode = b.bottomNode ∧
      ri.bottom.preStage = b.preStage ∧ ri.bottom.splitSig = b.splitSig ∧
      ri.bottom.samplePath = b.samplePath := by
  unfold Bottom.RestageInit at h
  simp only at h
  split at h
  · exact absurd h (by simp)
  · rename_i acc hacc
    cases h
    exact ⟨acc, hacc, rfl, rfl, rfl, rfl, rfl, rfl, rfl, rfl, rfl, rfl⟩

theorem SplitCoords_inj (nPred a b : Nat)
    (h : SplitCoords nPred a = SplitCoords nPred b) : a = b := by
  unfold SplitCoords at h
  have h1 : a / nPred = b / nPred := congrArg Prod.fst h
  have h2 : a % nPred = b % nPred := congrArg Prod.snd h
  rw [← Nat.div_add_mod a nPred, ← Nat.div_add_mod b nPred, h1, h2]

theorem RestageInitStep_bufTarg (env : PairEnv) (nPred : Nat)
    (indexNode : Nat → IndexNode) (bufferLevel : List BitMatrix)
    (restageNode : List RestageNode) (acc acc' : RestageInitAcc) (pair : SplitPair)
    (h : RestageInitStep env nPred indexNode bufferLevel restageNode acc pair
      = some acc') :
    ∃ bufMRRA,
      bufLook bufferLevel
        (env.MrraIdx pair.bottomIdx (SplitCoords nPred pair.bottomIdx).1 true).2
        = some bufMRRA ∧
      acc'.bufTarg = acc.bufTarg.SetBit (SplitCoords nPred pair.bottomIdx).1
        (SplitCoords nPred pair.bottomIdx).2
        (!bufMRRA.IsSet
          (env.MrraIdx pair.bottomIdx (SplitCoords nPred pair.bottomIdx).1 true).1
          (SplitCoords nPred pair.bottomIdx).2) := by
  unfold RestageInitStep at h
  simp only [SplitPair.BottomIdx] at h
  cases hr : restageNode[pair.restageIdx]? with
  | none => simp only [hr] at h; exact absurd h (by simp)
  | some rsNode =>
    simp only [hr] at h
    split at h
    · cases hb : bufLook bufferLevel
          (env.MrraIdx pair.bottomIdx (SplitCoords nPred pair.bottomIdx).1 true).2 with
      | none => simp only [hb] at h; exact absurd h (by simp)
      | some bufMRRA =>
        simp only [hb] at h
        split at h
        · exact absurd h (by simp)
        · cases h
          exact ⟨bufMRRA, rfl, rfl⟩
    · exact absurd h (by simp)

theorem SetBit_IsSet_same (m : BitMatrix) (row col : Nat) (bit : Bool) :
    (m.SetBit row col bit).IsSet row col = bit := by
  simp [BitMatrix.SetBit, BitMatrix.IsSet]

theorem SetBit_IsSet_other (m : BitMatrix) (row col i j : Nat) (bit : Bool)
    (h : (row, col) ≠ (i, j)) : (m.SetBit row col bit).IsSet i j = m.IsSet i j := by
  have : ¬ (i = row ∧ j = col) := by
    rintro ⟨rfl, rfl⟩
    exact h rfl
  simp [BitMatrix.SetBit, BitMatrix.IsSet, this]

theorem RestageInitFold_bufTarg (env : PairEnv) (nPred : Nat)
    (indexNode : Nat → IndexNode) (bufferLevel : List BitMatrix)
    (restageNode : List RestageNode) (l : List SplitPair) :
    ∀ (acc acc' : RestageInitAcc),
      l.foldlM (RestageInitStep env nPred indexNode bufferLevel restageNode) acc
        = some acc' →
      (∀ i j, (∀ p, p ∈ l → SplitCoords nPred p.bottomIdx ≠ (i, j)) →
        acc'.bufTarg.IsSet i j = acc.bufTarg.IsSet i j) ∧
      (l.Pairwise (fun p q => p.bottomIdx ≠ q.bottomIdx) →
        ∀ p, p ∈ l → ∃ bufMRRA,
          bufLook bufferLevel
            (env.MrraIdx p.bottomIdx (SplitCoords nPred p.bottomIdx).1 true).2
            = some bufMRRA ∧
          acc'.bufTarg.IsSet (SplitCoords nPred p.bottomIdx).1
              (SplitCoords nPred p.bottomIdx).2 =
            !bufMRRA.IsSet
              (env.MrraIdx p.bottomIdx (SplitCoords nPred p.bottomIdx).1 true).1
              (SplitCoords nPred p.bottomIdx).2) := by
  induction l with
  | nil =>
    intro acc acc' h
    simp at h
    subst h
    exact ⟨fun _ _ _ => rfl, fun _ p hp => absurd hp (List.not_mem_nil p)⟩
  | cons a l ih =>
    intro acc acc' h
    rw [List.foldlM_cons] at h
    cases hs : RestageInitStep env nPred indexNode bufferLevel restageNode acc a with
    | none => rw [hs] at h; exact absurd h (by simp)
    | some mid =>
      rw [hs] at h
      obtain ⟨bm, hbm, hmid⟩ := RestageInitStep_bufTarg _ _ _ _ _ _ _ _ hs
      obtain ⟨ih1, ih2⟩ := ih mid acc' (by simpa using h)
      constructor
      · intro i j hne
        rw [ih1 i j (fun p hp => hne p (List.mem_cons_of_mem a hp)), hmid]
        exact SetBit_IsSet_other _ _ _ _ _ _
          (by
            have := hne a (List.mem_cons_self a l)
            unfold SplitCoords at this
            exact this)
      · intro hpw p hp
        rw [List.pairwise_cons] at hpw
        rcases List.mem_cons.mp hp with rfl | hpl
        · refine ⟨bm, hbm, ?_⟩
          rw [ih1 (SplitCoords nPred p.bottomIdx).1 (SplitCoords nPred p.bottomIdx).2
            (fun q hq hc => hpw.1 q hq
              (SplitCoords_inj nPred _ _ (hc.trans Prod.mk.eta)).symm), hmid]
          exact SetBit_IsSet_same _ _ _ _
        · exact ih2 hpw.2 p hpl

theorem getLast?_push_evict {β : Type} (l : List β) (x : β) :
    (if (l ++ [x]).length > pathMax then (l ++ [x]).drop 1 else l ++ [x]).getLast?
      = some x := by
  split
  · rename_i hlen
    have hl : 1 ≤ l.length := by
      simp only [List.length_append, List.length_singleton, pathMax] at hlen
      omega
    rw [List.drop_append_of_le_length hl]
    simp
  · simp

/-- C3: buffer-bit alternation.  Let `PairInit` complete on the current table
and flags, and let `RestageInit` then complete on the pairs it emitted.  For every
emitted pair, resolved to `(levelIdx, predIdx)`, the matrix `levelDel` levels back
exists in the window as it was on entry, and `BufBit(levelIdx, predIdx)` read
afterwards from the newest matrix is the complement of the bit of that matrix
at `(mrraIdx, predIdx)`, the source bit `RestageInit` read for the pair. -/
theorem bufBit_alternation (b : Bottom) (env : PairEnv) (mrraFresh : MRRA)
    (indexNode : Nat → IndexNode) (splitFlags : Nat → Bool) (out : PairInitOut)
    (pathNode : List PathNode) (ri : RestageInitOut)
    (hpi : PairInit env b.ancTot b.levelCount b.nPred b.nPredFac b.bottomNode b.mrraLevel
      splitFlags = some out)
    (hri : Bottom.RestageInit { b with mrraLevel := out.mrraLevel } env mrraFresh indexNode
      out.pairNode out.restageNode pathNode = some ri) :
    ∀ pair, pair ∈ out.pairNode → ∃ bufMRRA,
      bufLook b.bufferLevel
        (env.MrraIdx pair.bottomIdx (SplitCoords b.nPred pair.bottomIdx).1 true).2
        = some bufMRRA ∧
      ri.bottom.BufBit (SplitCoords b.nPred pair.bottomIdx).1
          (SplitCoords b.nPred pair.bottomIdx).2 =
        some (if bufMRRA.IsSet
            (env.MrraIdx pair.bottomIdx (SplitCoords b.nPred pair.bottomIdx).1 true).1
            (SplitCoords b.nPred pair.bottomIdx).2 = true then 0 else 1) := by
  intro pair hpair
  obtain ⟨acc, hacc, hbuf, -⟩ := RestageInit_out _ env mrraFresh indexNode _ _ _ ri hri
  have hsorted := PairInit_sorted env b.ancTot b.levelCount b.nPred b.nPredFac
    b.bottomNode b.mrraLevel splitFlags out hpi
  have hpw : out.pairNode.Pairwise (fun p q => p.bottomIdx ≠ q.bottomIdx) := by
    rw [List.pairwise_map] at hsorted
    exact hsorted.imp (fun h => Nat.ne_of_lt h)
  obtain ⟨bm, hbm, hbit⟩ := (RestageInitFold_bufTarg env b.nPred indexNode
    b.bufferLevel out.restageNode out.pairNode _ acc hacc).2 hpw pair hpair
  refine ⟨bm, hbm, ?_⟩
  unfold Bottom.BufBit
  rw [hbuf]
  have hlast := getLast?_push_evict b.bufferLevel acc.bufTarg
  simp only [] at hlast ⊢
  rw [hlast]
  simp only [hbit]
  cases bm.IsSet
      (env.MrraIdx pair.bottomIdx (SplitCoords b.nPred pair.bottomIdx).1 true).1
      (SplitCoords b.nPred pair.bottomIdx).2 <;> simp

theorem bufBit_alternation_witness :
    PairInit exEnv exBottom.ancTot exBottom.levelCount exBottom.nPred exBottom.nPredFac
      exBottom.bottomNode exBottom.mrraLevel exFlags = some exPairOut ∧
    ∃ ri, Bottom.RestageInit { exBottom with mrraLevel := exPairOut.mrraLevel } exEnv
        exLevelEnv.mrraFresh exIndexNode exPairOut.pairNode exPairOut.restageNode
        (List.replicate exPairOut.pathTotal PathNode.Init0) = some ri ∧
      exBottom.BufBit 0 0 = some 0 ∧ exBottom.BufBit 1 0 = some 0 ∧
      ri.bottom.BufBit 0 0 = some 1 ∧ ri.bottom.BufBit 1 0 = some 1 := by
  have hpi : PairInit exEnv exBottom.ancTot exBottom.levelCount exBottom.nPred
      exBottom.nPredFac exBottom.bottomNode exBottom.mrraLevel exFlags = some exPairOut := by
    decide
  have hs : (Bottom.RestageInit { exBottom with mrraLevel := exPairOut.mrraLevel } exEnv
      exLevelEnv.mrraFresh exIndexNode exPairOut.pairNode exPairOut.restageNode
      (List.replicate exPairOut.pathTotal PathNode.Init0)).isSome = true := by decide
  obtain ⟨ri, hri⟩ := Option.isSome_iff_exists.mp hs
  have hall := bufBit_alternation exBottom exEnv exLevelEnv.mrraFresh exIndexNode exFlags
    exPairOut (List.replicate exPairOut.pathTotal PathNode.Init0) ri hpi hri
  obtain ⟨m0, hm0, hb0⟩ := hall (SplitPair.SplitInitNoSet 0 0) (by decide)
  obtain ⟨m2, hm2, hb2⟩ := hall (SplitPair.SplitInit 2 0 0) (by decide)
  have e0 : m0 = BitMatrix.new 1 2 := by
    have : bufLook exBottom.bufferLevel 1 = some (BitMatrix.new 1 2) := rfl
    exact (Option.some.inj (hm0.symm.trans this))
  have e2 : m2 = BitMatrix.new 1 2 := by
    have : bufLook exBottom.bufferLevel 1 = some (BitMatrix.new 1 2) := rfl
    exact (Option.some.inj (hm2.symm.trans this))
  subst e0
  subst e2
  exact ⟨hpi, ri, hri, rfl, rfl, hb0, hb2⟩

theorem set_of_getElem? {β : Type} : ∀ (l : List β) (i : Nat) (a : β),
    l[i]? = some a → l.set i a = l := by
  intro l
  induction l with
  | nil => intro i a h; simp at h
  | cons x l ih =>
    intro i a h
    cases i with
    | zero =>
      simp only [List.getElem?_cons_zero, Option.some.injEq] at h
      simp [h]
    | succ j =>
      simp only [List.getElem?_cons_succ] at h
      simp [ih j a h]

theorem look_some (w : MrraWindow) (levelDel mrraIdx : Nat) (m : MRRA)
    (h : w.look levelDel mrraIdx = some m) :
    1 ≤ levelDel ∧ levelDel ≤ w.length ∧
      ∃ mrraVec, w[w.length - levelDel]? = some mrraVec ∧ mrraVec[mrraIdx]? = some m := by
  unfold MrraWindow.look at h
  split at h
  · exact absurd h (by simp)
  · rename_i hg
    split at h
    · exact absurd h (by simp)
    · rename_i mrraVec hv
      exact ⟨by omega, by omega, mrraVec, hv, h⟩

theorem store_look_self (w : MrraWindow) (levelDel mrraIdx : Nat) (m : MRRA)
    (h : w.look levelDel mrraIdx = some m) : w.store levelDel mrraIdx m = w := by
  obtain ⟨-, -, mrraVec, hv, hm⟩ := look_some w levelDel mrraIdx m h
  unfold MrraWindow.store
  rw [hv]
  simp only
  rw [set_of_getElem? mrraVec mrraIdx m hm, set_of_getElem? w _ mrraVec hv]

theorem look_store (w : MrraWindow) (levelDel mrraIdx : Nat) (m0 m : MRRA)
    (levelDel' mrraIdx' : Nat) (h : w.look levelDel mrraIdx = some m0) :
    (w.store levelDel mrraIdx m).look levelDel' mrraIdx' =
      if levelDel' = levelDel ∧ mrraIdx' = mrraIdx then some m
      else w.look levelDel' mrraIdx' := by
  obtain ⟨h1, h2, mrraVec, hv, hm⟩ := look_some w levelDel mrraIdx m0 h
  have hlt : w.length - levelDel < w.length := by omega
  have hmi : mrraIdx < mrraVec.length := by
    by_contra hc
    rw [List.getElem?_eq_none (not_lt.mp hc)] at hm
    exact absurd hm (by simp)
  have hst : w.store levelDel mrraIdx m =
      w.set (w.length - levelDel) (mrraVec.set mrraIdx m) := by
    unfold MrraWindow.store
    rw [hv]
  rw [hst]
  unfold MrraWindow.look
  simp only [List.length_set]
  by_cases hg : levelDel' = 0 ∨ w.length < levelDel'
  · rw [if_pos hg, if_pos hg]
    have : ¬ (levelDel' = levelDel ∧ mrraIdx' = mrraIdx) := by
      rintro ⟨rfl, -⟩
      omega
    rw [if_neg this]
  · rw [if_neg hg, if_neg hg]
    by_cases hd : levelDel' = levelDel
    · subst hd
      rw [List.getElem?_set_self hlt, hv]
      simp only
      by_cases hi : mrraIdx' = mrraIdx
      · subst hi
        rw [List.getElem?_set_self hmi]
        simp
      · rw [List.getElem?_set_ne (Ne.symm hi)]
        simp [hi]
    · have hne : w.length - levelDel ≠ w.length - levelDel' := by omega
      rw [List.getElem?_set_ne hne]
      simp [hd]

theorem Keeps_refl (w : MrraWindow) : w.Keeps w :=
  fun _ _ m h => ⟨m, h, fun _ => rfl⟩

theorem Keeps_trans (w1 w2 w3 : MrraWindow) (h12 : w1.Keeps w2) (h23 : w2.Keeps w3) :
    w1.Keeps w3 := by
  intro ld mi m hm
  obtain ⟨m2, hm2, e2⟩ := h12 ld mi m hm
  obtain ⟨m3, hm3, e3⟩ := h23 ld mi m2 hm2
  refine ⟨m3, hm3, fun hpos => ?_⟩
  have := e2 hpos
  subst this
  exact e3 hpos

theorem RestageIdx_cached (m : MRRA) (levelDel pathAccum : Nat)
    (restageNode : List RestageNode) :
    (m.RestageIdx levelDel pathAccum restageNode).2.1.restageIdx =
      ((m.RestageIdx levelDel pathAccum restageNode).1 : Int) ∧
    (0 ≤ m.restageIdx →
      (m.RestageIdx levelDel pathAccum restageNode).2.1 = m ∧
      (m.RestageIdx levelDel pathAccum restageNode).2.2.2 = restageNode ∧
      (m.RestageIdx levelDel pathAccum restageNode).2.2.1 = pathAccum) := by
  unfold MRRA.RestageIdx
  by_cases hneg : m.restageIdx < 0
  · rw [if_pos hneg]
    exact ⟨by simp, fun hpos => absurd hneg (not_lt.mpr hpos)⟩
  · rw [if_neg hneg]
    exact ⟨(Int.toNat_of_nonneg (not_lt.mp hneg)).symm, fun _ => ⟨rfl, rfl, rfl⟩⟩

theorem PathAccum_some (env : PairEnv) (nPred : Nat) (w : MrraWindow)
    (restageNode : List RestageNode) (bottomIdx pathAccum : Nat)
    (t : Nat × MrraWindow × List RestageNode × Nat)
    (h : PathAccum env nPred w restageNode bottomIdx pathAccum = some t) :
    ∃ m, w.look (env.MrraIdx bottomIdx (SplitCoords nPred bottomIdx).1 false).2
        (env.MrraIdx bottomIdx (SplitCoords nPred bottomIdx).1 false).1 = some m ∧
      t = ((m.RestageIdx (env.MrraIdx bottomIdx (SplitCoords nPred bottomIdx).1 false).2
              pathAccum restageNode).1,
           w.store (env.MrraIdx bottomIdx (SplitCoords nPred bottomIdx).1 false).2
             (env.MrraIdx bottomIdx (SplitCoords nPred bottomIdx).1 false).1
             (m.RestageIdx (env.MrraIdx bottomIdx (SplitCoords nPred bottomIdx).1 false).2
               pathAccum restageNode).2.1,
           (m.RestageIdx (env.MrraIdx bottomIdx (SplitCoords nPred bottomIdx).1 false).2
             pathAccum restageNode).2.2.2,
           (m.RestageIdx (env.MrraIdx bottomIdx (SplitCoords nPred bottomIdx).1 false).2
             pathAccum restageNode).2.2.1 +
             2 ^ (env.MrraIdx bottomIdx (SplitCoords nPred bottomIdx).1 false).2) := by
  unfold PathAccum at h
  simp only at h
  split at h
  · exact absurd h (by simp)
  · rename_i m hm
    cases h
    exact ⟨m, hm, rfl⟩

theorem PathAccum_of_look (env : PairEnv) (nPred : Nat) (w : MrraWindow)
    (restageNode : List RestageNode) (bottomIdx pathAccum : Nat) (m : MRRA)
    (h : w.look (env.MrraIdx bottomIdx (SplitCoords nPred bottomIdx).1 false).2
        (env.MrraIdx bottomIdx (SplitCoords nPred bottomIdx).1 false).1 = some m) :
    PathAccum env nPred w restageNode bottomIdx pathAccum =
      some ((m.RestageIdx (env.MrraIdx bottomIdx (SplitCoords nPred bottomIdx).1 false).2
              pathAccum restageNode).1,
           w.store (env.MrraIdx bottomIdx (SplitCoords nPred bottomIdx).1 false).2
             (env.MrraIdx bottomIdx (SplitCoords nPred bottomIdx).1 false).1
             (m.RestageIdx (env.MrraIdx bottomIdx (SplitCoords nPred bottomIdx).1 false).2
               pathAccum restageNode).2.1,
           (m.RestageIdx (env.MrraIdx bottomIdx (SplitCoords nPred bottomIdx).1 false).2
             pathAccum restageNode).2.2.2,
           (m.RestageIdx (env.MrraIdx bottomIdx (SplitCoords nPred bottomIdx).1 false).2
             pathAccum restageNode).2.2.1 +
             2 ^ (env.MrraIdx bottomIdx (SplitCoords nPred bottomIdx).1 false).2) := by
  unfold PathAccum
  simp only [h]

theorem PairStep_first (env : PairEnv) (ancTot nPred : Nat)
    (bottomNode : Nat → BottomNode) (splitFlags : Nat → Bool) (acc acc' : PairAcc)
    (botIdx : Nat)
    (h : PairStep env ancTot nPred bottomNode splitFlags acc botIdx = some acc') :
    acc.mrraLevel.Keeps acc'.mrraLevel ∧
    (Emits env bottomNode splitFlags botIdx = false → acc' = acc) ∧
    (Emits env bottomNode splitFlags botIdx = true →
      ∃ t, PairEmit (splitFlags botIdx) (bottomNode botIdx).RunCount acc botIdx t = some acc' ∧
        (0 < ancTot → ∃ m',
          acc'.mrraLevel.look
            (env.MrraIdx botIdx (SplitCoords nPred botIdx).1 false).2
            (env.MrraIdx botIdx (SplitCoords nPred botIdx).1 false).1 = some m' ∧
          m'.restageIdx = (t.1 : Int)) ∧
        (ancTot = 0 → t.1 = 0)) := by
  unfold PairStep at h
  by_cases hE : Emits env bottomNode splitFlags botIdx = true
  · rw [if_pos hE] at h
    cases ht : PairTouch env ancTot nPred acc botIdx with
    | none => rw [ht] at h; exact absurd h (by simp)
    | some t =>
      rw [ht] at h
      simp only at h
      obtain ⟨p, -, -, -, hw, -⟩ := PairEmit_pairNode _ _ _ _ _ _ h
      unfold PairTouch at ht
      by_cases ha : ancTot > 0
      · rw [if_pos ha] at ht
        obtain ⟨m, hm, hteq⟩ := PathAccum_some env nPred _ _ _ _ t ht
        have hcache := RestageIdx_cached m
          (env.MrraIdx botIdx (SplitCoords nPred botIdx).1 false).2 acc.pathAccum
          acc.restageNode
        have hw' : acc'.mrraLevel = acc.mrraLevel.store
            (env.MrraIdx botIdx (SplitCoords nPred botIdx).1 false).2
            (env.MrraIdx botIdx (SplitCoords nPred botIdx).1 false).1
            (m.RestageIdx (env.MrraIdx botIdx (SplitCoords nPred botIdx).1 false).2
              acc.pathAccum acc.restageNode).2.1 := by
          rw [hw, hteq]
        have ht1 : t.1 = (m.RestageIdx
            (env.MrraIdx botIdx (SplitCoords nPred botIdx).1 false).2
            acc.pathAccum acc.restageNode).1 := by
          rw [hteq]
        refine ⟨?_, fun hf => absurd hE (by simp [hf]), fun _ => ⟨t, h, fun _ => ?_,
          fun h0 => absurd ha (by omega)⟩⟩
        · intro ld mi x hx
          rw [hw', look_store _ _ _ m _ ld mi hm]
          by_cases hc : ld = (env.MrraIdx botIdx (SplitCoords nPred botIdx).1 false).2 ∧
              mi = (env.MrraIdx botIdx (SplitCoords nPred botIdx).1 false).1
          · rw [if_pos hc]
            refine ⟨_, rfl, fun hpos => ?_⟩
            obtain ⟨rfl, rfl⟩ := hc
            rw [hm] at hx
            cases hx
            exact (hcache.2 hpos).1
          · rw [if_neg hc]
            exact ⟨x, hx, fun _ => rfl⟩
        · refine ⟨(m.RestageIdx (env.MrraIdx botIdx (SplitCoords nPred botIdx).1 false).2
              acc.pathAccum acc.restageNode).2.1, ?_, ?_⟩
          · rw [hw', look_store _ _ _ m _ _ _ hm, if_pos ⟨rfl, rfl⟩]
          · rw [ht1]
            exact hcache.1
      · rw [if_neg ha] at ht
        cases ht
        refine ⟨?_, fun hf => absurd hE (by simp [hf]), fun _ =>
          ⟨_, h, fun hpos => absurd hpos ha, fun _ => rfl⟩⟩
        rw [hw]
        exact Keeps_refl _
  · rw [if_neg hE] at h
    cases h
    exact ⟨Keeps_refl _, fun _ => rfl, fun hf => absurd hf hE⟩

theorem PairFold_keeps (env : PairEnv) (ancTot nPred : Nat)
    (bottomNode : Nat → BottomNode) (splitFlags : Nat → Bool) (l : List Nat)
    (acc acc' : PairAcc)
    (h : l.foldlM (PairStep env ancTot nPred bottomNode splitFlags) acc = some acc') :
    acc.mrraLevel.Keeps acc'.mrraLevel :=
  foldlM_option_inv (PairStep env ancTot nPred bottomNode splitFlags)
    (fun a => acc.mrraLevel.Keeps a.mrraLevel)
    (fun s a s' hP hs => Keeps_trans _ _ _ hP
      (PairStep_first env ancTot nPred bottomNode splitFlags s s' a hs).1)
    l acc acc' (Keeps_refl _) h

theorem PairEmit_sim (flag : Bool) (rl : Int) (acc1 mid1 acc2 : PairAcc) (botIdx : Nat)
    (t1 t2 : Nat × MrraWindow × List RestageNode × Nat)
    (h : PairEmit flag rl acc1 botIdx t1 = some mid1)
    (hp : acc2.pairNode = acc1.pairNode) (hs : acc2.setCount = acc1.setCount)
    (hc : acc2.safeCount = acc1.safeCount) (ht : t2.1 = t1.1) :
    ∃ mid2, PairEmit flag rl acc2 botIdx t2 = some mid2 ∧
      mid2.pairNode = mid1.pairNode ∧ mid2.setCount = mid1.setCount ∧
      mid2.safeCount = mid1.safeCount ∧ mid2.mrraLevel = t2.2.1 ∧
      mid2.restageNode = t2.2.2.1 ∧ mid2.pathAccum = t2.2.2.2 := by
  unfold PairEmit at h ⊢
  rw [hp, hs, hc, ht]
  by_cases hf : flag = true
  · rw [if_pos hf] at h ⊢
    by_cases hr : rl > 1
    · rw [if_pos hr] at h ⊢
      by_cases hsz : acc1.setCount < acc1.safeCount.length
      · rw [if_pos hsz] at h ⊢
        cases h
        exact ⟨_, rfl, rfl, rfl, rfl, rfl, rfl, rfl⟩
      · rw [if_neg hsz] at h
        exact absurd h (by simp)
    · rw [if_neg hr] at h ⊢
      cases h
      exact ⟨_, rfl, rfl, rfl, rfl, rfl, rfl, rfl⟩
  · rw [if_neg hf] at h ⊢
    cases h
    exact ⟨_, rfl, rfl, rfl, rfl, rfl, rfl, rfl⟩

theorem PairStep_second (env : PairEnv) (ancTot nPred : Nat)
    (bottomNode : Nat → BottomNode) (splitFlags : Nat → Bool) (W : MrraWindow)
    (acc1 acc1' acc2 : PairAcc) (botIdx : Nat)
    (h1 : PairStep env ancTot nPred bottomNode splitFlags acc1 botIdx = some acc1')
    (hK : acc1'.mrraLevel.Keeps W)
    (hw : acc2.mrraLevel = W) (hp : acc2.pairNode = acc1.pairNode)
    (hs : acc2.setCount = acc1.setCount) (hc : acc2.safeCount = acc1.safeCount)
    (hr : acc2.restageNode = []) :
    ∃ acc2', PairStep env ancTot nPred bottomNode splitFlags acc2 botIdx = some acc2' ∧
      acc2'.mrraLevel = W ∧ acc2'.pairNode = acc1'.pairNode ∧
      acc2'.setCount = acc1'.setCount ∧ acc2'.safeCount = acc1'.safeCount ∧
      acc2'.restageNode = [] := by
  obtain ⟨-, hno, hyes⟩ := PairStep_first env ancTot nPred bottomNode splitFlags
    acc1 acc1' botIdx h1
  by_cases hE : Emits env bottomNode splitFlags botIdx = true
  · obtain ⟨t1, hemit, hpos, hzero⟩ := hyes hE
    have htouch : ∃ pa, PairTouch env ancTot nPred acc2 botIdx =
        some (t1.1, W, [], pa) := by
      unfold PairTouch
      by_cases ha : ancTot > 0
      · rw [if_pos ha]
        obtain ⟨m', hm', hidx⟩ := hpos ha
        obtain ⟨m'', hm'', heq⟩ := hK _ _ m' hm'
        have hnn : 0 ≤ m'.restageIdx := by rw [hidx]; exact Int.ofNat_nonneg _
        have := heq hnn
        subst this
        rw [hw, hr, PathAccum_of_look env nPred W [] botIdx acc2.pathAccum m'' hm'']
        have hcache := RestageIdx_cached m''
          (env.MrraIdx botIdx (SplitCoords nPred botIdx).1 false).2 acc2.pathAccum []
        obtain ⟨e1, e2, e3⟩ := hcache.2 hnn
        have e0 : (m''.RestageIdx
            (env.MrraIdx botIdx (SplitCoords nPred botIdx).1 false).2
            acc2.pathAccum []).1 = t1.1 := by
          have := hcache.1
          rw [e1, hidx] at this
          exact (Int.ofNat_inj.mp this).symm
        rw [e0, e1, e2, store_look_self W _ _ m'' hm'']
        exact ⟨_, rfl⟩
      · rw [if_neg ha, hw, hr, hzero (by omega)]
        exact ⟨_, rfl⟩
    obtain ⟨pa, hpa⟩ := htouch
    obtain ⟨mid2, hmid2, q1, q2, q3, q4, q5, -⟩ :=
      PairEmit_sim (splitFlags botIdx) (bottomNode botIdx).RunCount acc1 acc1' acc2 botIdx
        t1 (t1.1, W, [], pa) hemit hp hs hc rfl
    refine ⟨mid2, ?_, q4, q1, q2, q3, q5⟩
    unfold PairStep
    rw [if_pos hE, hpa]
    exact hmid2
  · have hf : Emits env bottomNode splitFlags botIdx = false := by simpa using hE
    have := hno hf
    subst this
    refine ⟨acc2, ?_, hw, hp, hs, hc, hr⟩
    unfold PairStep
    rw [if_neg hE]

theorem PairFold_second (env : PairEnv) (ancTot nPred : Nat)
    (bottomNode : Nat → BottomNode) (splitFlags : Nat → Bool) (W : MrraWindow)
    (l : List Nat) :
    ∀ (acc1 acc1' acc2 : PairAcc),
      l.foldlM (PairStep env ancTot nPred bottomNode splitFlags) acc1 = some acc1' →
      acc1'.mrraLevel.Keeps W →
      acc2.mrraLevel = W → acc2.pairNode = acc1.pairNode →
      acc2.setCount = acc1.setCount → acc2.safeCount = acc1.safeCount →
      acc2.restageNode = [] →
      ∃ acc2', l.foldlM (PairStep env ancTot nPred bottomNode splitFlags) acc2
          = some acc2' ∧
        acc2'.mrraLevel = W ∧ acc2'.pairNode = acc1'.pairNode ∧
        acc2'.setCount = acc1'.setCount ∧ acc2'.safeCount = acc1'.safeCount ∧
        acc2'.restageNode = [] := by
  induction l with
  | nil =>
    intro acc1 acc1' acc2 h _ hw hp hs hc hr
    simp at h
    subst h
    exact ⟨acc2, rfl, hw, hp, hs, hc, hr⟩
  | cons a l ih =>
    intro acc1 acc1' acc2 h hK hw hp hs hc hr
    rw [List.foldlM_cons] at h
    cases hstep : PairStep env ancTot nPred bottomNode splitFlags acc1 a with
    | none => rw [hstep] at h; exact absurd h (by simp)
    | some mid1 =>
      rw [hstep] at h
      have hrest : l.foldlM (PairStep env ancTot nPred bottomNode splitFlags) mid1
          = some acc1' := by simpa using h
      have hKmid : mid1.mrraLevel.Keeps W :=
        Keeps_trans _ _ _ (PairFold_keeps env ancTot nPred bottomNode splitFlags l
          mid1 acc1' hrest) hK
      obtain ⟨mid2, hmid2, r1, r2, r3, r4, r5⟩ :=
        PairStep_second env ancTot nPred bottomNode splitFlags W acc1 mid1 acc2 a
          hstep hKmid hw hp hs hc hr
      obtain ⟨acc2', hacc2', z⟩ := ih mid1 acc1' mid2 hrest hK r1 r2 r3 r4 r5
      refine ⟨acc2', ?_, z⟩
      rw [List.foldlM_cons, hmid2]
      exact hacc2'

theorem PairStep_level_zero (env : PairEnv) (nPred : Nat)
    (bottomNode : Nat → BottomNode) (splitFlags : Nat → Bool) (acc acc' : PairAcc)
    (botIdx : Nat)
    (h : PairStep env 0 nPred bottomNode splitFlags acc botIdx = some acc') :
    acc'.restageNode = acc.restageNode ∧ acc'.pathAccum = acc.pathAccum ∧
      acc'.mrraLevel = acc.mrraLevel := by
  unfold PairStep at h
  by_cases hE : Emits env bottomNode splitFlags botIdx = true
  · rw [if_pos hE] at h
    have ht : PairTouch env 0 nPred acc botIdx =
        some (0, acc.mrraLevel, acc.restageNode, acc.pathAccum) := by
      unfold PairTouch
      rw [if_neg (lt_irrefl 0)]
    rw [ht] at h
    obtain ⟨p, -, -, -, hw, hr, hpa⟩ := PairEmit_pairNode _ _ _ _ _ _ h
    exact ⟨hr, hpa, hw⟩
  · rw [if_neg hE] at h
    cases h
    exact ⟨rfl, rfl, rfl⟩

theorem PairInit_level_zero (env : PairEnv) (levelCount nPred nPredFac : Nat)
    (bottomNode : Nat → BottomNode) (w : MrraWindow) (splitFlags : Nat → Bool)
    (out : PairInitOut)
    (h : PairInit env 0 levelCount nPred nPredFac bottomNode w splitFlags = some out) :
    out.restageNode = [] ∧ out.pathTotal = 0 ∧ out.mrraLevel = w := by
  unfold PairInit at h
  simp only at h
  split at h
  · exact absurd h (by simp)
  · rename_i acc hacc
    cases h
    exact foldlM_option_inv (PairStep env 0 levelCount bottomNode splitFlags)
      (fun a => a.restageNode = [] ∧ a.pathAccum = 0 ∧ a.mrraLevel = w)
      (fun s a s' hP hs => by
        obtain ⟨e1, e2, e3⟩ := PairStep_level_zero env levelCount bottomNode splitFlags
          s s' a hs
        exact ⟨e1.trans hP.1, e2.trans hP.2.1, e3.trans hP.2.2⟩)
      _ _ _ ⟨rfl, rfl, rfl⟩ hacc

/-- C9 (the claim fails): with one ancestor in the window, the first `PairInit`
creates a `RestageNode` and returns path total 6; run again at once on the same
table and flags, it finds the MRRA already indexed, creates no `RestageNode` and
returns path total 4. -/
theorem PairInit_not_repeatable :
    PairInit exEnv 1 2 2 1 exTable exWindow exFlags = some exPairOut ∧
    PairInit exEnv 1 2 2 1 exTable exPairOut.mrraLevel exFlags = some exPairAgain ∧
    exPairAgain.restageNode ≠ exPairOut.restageNode ∧
    exPairAgain.pathTotal ≠ exPairOut.pathTotal := by
  decide

/-- C9 (amended): when `PairInit` has completed, running it again at once with
the same table and flags, on the window the first run left, completes too and
produces the same sequence of `SplitPair`s and the same run-set announcement; it
creates no `RestageNode` and leaves the window as it found it.  At `ancTot = 0`
the `RestageNode`s (none) and the returned path total (0) agree as well. -/
theorem PairInit_again (env : PairEnv) (ancTot levelCount nPred nPredFac : Nat)
    (bottomNode : Nat → BottomNode) (w : MrraWindow) (splitFlags : Nat → Bool)
    (out1 : PairInitOut)
    (h1 : PairInit env ancTot levelCount nPred nPredFac bottomNode w splitFlags
      = some out1) :
    ∃ out2, PairInit env ancTot levelCount nPred nPredFac bottomNode out1.mrraLevel
        splitFlags = some out2 ∧
      out2.pairNode = out1.pairNode ∧ out2.setCount = out1.setCount ∧
      out2.countSafe = out1.countSafe ∧ out2.restageNode = [] ∧
      out2.mrraLevel = out1.mrraLevel ∧
      (ancTot = 0 →
        out2.restageNode = out1.restageNode ∧ out2.pathTotal = out1.pathTotal) := by
  have h1' := h1
  unfold PairInit at h1
  simp only at h1
  split at h1
  · exact absurd h1 (by simp)
  · rename_i acc1 hacc1
    cases h1
    obtain ⟨acc2, hacc2, e1, e2, e3, e4, e5⟩ :=
      PairFold_second env ancTot nPred bottomNode splitFlags acc1.mrraLevel
        (List.range (levelCount * nPred)) _ acc1
        { setCount := 0, pathAccum := 0
          safeCount := List.replicate (nPredFac * levelCount) 0
          pairNode := [], restageNode := [], mrraLevel := acc1.mrraLevel }
        hacc1 (Keeps_refl _) rfl rfl rfl rfl rfl
    have h2 : PairInit env ancTot levelCount nPred nPredFac bottomNode acc1.mrraLevel
        splitFlags =
        some { pairNode := acc2.pairNode, restageNode := acc2.restageNode
               mrraLevel := acc2.mrraLevel, setCount := acc2.setCount
               countSafe := acc2.safeCount.take acc2.setCount
               pathTotal := acc2.pathAccum } := by
      unfold PairInit
      simp only [hacc2]
    refine ⟨_, h2, e2, e3, ?_, e5, e1, ?_⟩
    · show acc2.safeCount.take acc2.setCount = acc1.safeCount.take acc1.setCount
      rw [e3, e4]
    · intro h0
      subst h0
      obtain ⟨a1, a2, -⟩ := PairInit_level_zero env levelCount nPred nPredFac bottomNode w
        splitFlags _ h1'
      obtain ⟨b1, b2, -⟩ := PairInit_level_zero env levelCount nPred nPredFac bottomNode _
        splitFlags _ h2
      exact ⟨b1.trans a1.symm, b2.trans a2.symm⟩

theorem PairInit_again_witness :
    PairInit exEnv 1 2 2 1 exTable exWindow exFlags = some exPairOut ∧
    ∃ out2, PairInit exEnv 1 2 2 1 exTable exPairOut.mrraLevel exFlags = some out2 ∧
      out2.pairNode = exPairOut.pairNode ∧ out2.restageNode = [] := by
  obtain ⟨out2, h2, hp, -, -, hr, -⟩ :=
    PairInit_again exEnv 1 2 2 1 exTable exWindow exFlags exPairOut (by decide)
  exact ⟨by decide, out2, h2, hp, hr⟩

/-! ### When the pair enumerator completes -/

theorem PairEmit_total (flag : Bool) (rl : Int) (acc : PairAcc) (botIdx : Nat)
    (t : Nat × MrraWindow × List RestageNode × Nat)
    (h : flag = true → rl > 1 → acc.setCount < acc.safeCount.length) :
    ∃ acc', PairEmit flag rl acc botIdx t = some acc' ∧
      acc'.safeCount.length = acc.safeCount.length ∧
      acc'.setCount = acc.setCount + (if flag = true ∧ rl > 1 then 1 else 0) := by
  unfold PairEmit
  by_cases hf : flag = true
  · rw [if_pos hf]
    by_cases hr : rl > 1
    · rw [if_pos hr, if_pos (h hf hr)]
      exact ⟨_, rfl, by simp, by simp [hf, hr]⟩
    · rw [if_neg hr]
      exact ⟨_, rfl, rfl, by simp [hr]⟩
  · rw [if_neg hf]
    exact ⟨_, rfl, rfl, by simp [hf]⟩

theorem PairFold_total (env : PairEnv) (ancTot nPred : Nat)
    (bottomNode : Nat → BottomNode) (splitFlags : Nat → Bool) (l : List Nat) :
    ∀ acc : PairAcc,
      (0 < ancTot → ∀ b, b ∈ l → Emits env bottomNode splitFlags b = true →
        ∃ m, acc.mrraLevel.look (env.MrraIdx b (SplitCoords nPred b).1 false).2
          (env.MrraIdx b (SplitCoords nPred b).1 false).1 = some m) →
      acc.setCount + (l.filter (TakesSet env bottomNode splitFlags)).length
        ≤ acc.safeCount.length →
      ∃ acc', l.foldlM (PairStep env ancTot nPred bottomNode splitFlags) acc
        = some acc' := by
  induction l with
  | nil => intro acc _ _; exact ⟨acc, rfl⟩
  | cons a l ih =>
    intro acc hlook hcap
    have hstep : ∃ mid, PairStep env ancTot nPred bottomNode splitFlags acc a
        = some mid ∧ mid.safeCount.length = acc.safeCount.length ∧
        mid.setCount = acc.setCount +
          (if TakesSet env bottomNode splitFlags a = true then 1 else 0) := by
      unfold PairStep
      by_cases hE : Emits env bottomNode splitFlags a = true
      · rw [if_pos hE]
        have htouch : ∃ t, PairTouch env ancTot nPred acc a = some t := by
          unfold PairTouch
          by_cases ha : ancTot > 0
          · rw [if_pos ha]
            obtain ⟨m, hm⟩ := hlook ha a (List.mem_cons_self a l) hE
            exact ⟨_, PathAccum_of_look env nPred _ _ a _ m hm⟩
          · rw [if_neg ha]
            exact ⟨_, rfl⟩
        obtain ⟨t, ht⟩ := htouch
        rw [ht]
        simp only
        have hts : TakesSet env bottomNode splitFlags a =
            (splitFlags a && decide ((bottomNode a).RunCount > 1)) := by
          simp [TakesSet, hE]
        obtain ⟨mid, hmid, hlen, hcnt⟩ := PairEmit_total (splitFlags a)
          (bottomNode a).RunCount acc a t (by
            intro hf hr
            have : TakesSet env bottomNode splitFlags a = true := by
              rw [hts]; simp [hf, hr]
            rw [List.filter_cons, if_pos this, List.length_cons] at hcap
            omega)
        refine ⟨mid, hmid, hlen, ?_⟩
        rw [hcnt, hts]
        by_cases hf : splitFlags a = true <;> by_cases hr : (bottomNode a).RunCount > 1 <;>
          simp [hf, hr]
      · rw [if_neg hE]
        have : TakesSet env bottomNode splitFlags a = false := by
          have hE' : Emits env bottomNode splitFlags a = false := by simpa using hE
          simp [TakesSet, hE']
        exact ⟨acc, rfl, rfl, by simp [this]⟩
    obtain ⟨mid, hmid, hlen, hcnt⟩ := hstep
    have hkeep := (PairStep_first env ancTot nPred bottomNode splitFlags acc mid a
      hmid).1
    obtain ⟨acc', hacc'⟩ := ih mid
      (fun ha b hb hEb => by
        obtain ⟨m, hm⟩ := hlook ha b (List.mem_cons_of_mem a hb) hEb
        obtain ⟨m', hm', -⟩ := hkeep _ _ m hm
        exact ⟨m', hm'⟩)
      (by
        rw [hlen, hcnt]
        rw [List.filter_cons] at hcap
        by_cases hT : TakesSet env bottomNode splitFlags a = true
        · rw [if_pos hT, List.length_cons] at hcap
          rw [if_pos hT]
          omega
        · rw [if_neg hT] at hcap
          rw [if_neg hT]
          omega)
    exact ⟨acc', by rw [List.foldlM_cons, hmid]; exact hacc'⟩

/-- `PairInit` completes whenever every emitted pair's MRRA lies inside the
window (needed only when `ancTot > 0`) and the pairs taking a run set are no more
than the `nPredFac * levelCount` entries of `safeCount`. -/
theorem PairInit_completes (env : PairEnv) (ancTot levelCount nPred nPredFac : Nat)
    (bottomNode : Nat → BottomNode) (w : MrraWindow) (splitFlags : Nat → Bool)
    (hlook : 0 < ancTot → ∀ b, b < levelCount * nPred →
      Emits env bottomNode splitFlags b = true →
      ∃ m, w.look (env.MrraIdx b (SplitCoords nPred b).1 false).2
        (env.MrraIdx b (SplitCoords nPred b).1 false).1 = some m)
    (hcap : ((List.range (levelCount * nPred)).filter
      (TakesSet env bottomNode splitFlags)).length ≤ nPredFac * levelCount) :
    ∃ out, PairInit env ancTot levelCount nPred nPredFac bottomNode w splitFlags
      = some out := by
  obtain ⟨acc, hacc⟩ := PairFold_total env ancTot nPred bottomNode splitFlags
    (List.range (levelCount * nPred))
    { setCount := 0, pathAccum := 0, safeCount := List.replicate (nPredFac * levelCount) 0
      pairNode := [], restageNode := [], mrraLevel := w }
    (fun ha b hb hE => hlook ha b (List.mem_range.mp hb) hE)
    (by simpa using hcap)
  refine ⟨{ pairNode := acc.pairNode, restageNode := acc.restageNode
            mrraLevel := acc.mrraLevel, setCount := acc.setCount
            countSafe := acc.safeCount.take acc.setCount, pathTotal := acc.pathAccum }, ?_⟩
  unfold PairInit
  simp only [hacc]

/-! ### Split results -/

/-- C19: `NuxLH` round trip.  `Ref` called after `InitNum(idxStart, lhExtent,
sCount, info, rankLH, rankRH, lhImplicit)` outputs the same `idxStart`,
`lhExtent`, `sCount`, `info` and `lhImplicit`, and `rankMean = (rankLH + rankRH)
/ 2`; when `lhImplicit` is omitted from `InitNum`, `Ref` outputs
`lhImplicit = 0`. -/
theorem NuxLH_round_trip (n : NuxLH) (idxStart lhExtent sCount : Nat) (info : Info)
    (rankLH rankRH lhImplicit : Nat) :
    (n.InitNum idxStart lhExtent sCount info rankLH rankRH lhImplicit).Ref =
      (idxStart, lhExtent, sCount, info, ((rankLH : Info) + (rankRH : Info)) / 2,
        lhImplicit) ∧
    (n.InitNumDefault idxStart lhExtent sCount info rankLH rankRH).Ref =
      (idxStart, lhExtent, sCount, info, ((rankLH : Info) + (rankRH : Info)) / 2, 0) := by
  constructor <;>
    simp only [NuxLH.Ref, NuxLH.InitNumDefault, NuxLH.InitNum, NuxLH.Init, Prod.mk.injEq,
      true_and, and_true] <;> ring

/-! ### Level zero -/

theorem PairStep_zero_pairs (env : PairEnv) (nPred : Nat)
    (bottomNode : Nat → BottomNode) (splitFlags : Nat → Bool) (acc acc' : PairAcc)
    (botIdx : Nat)
    (h : PairStep env 0 nPred bottomNode splitFlags acc botIdx = some acc')
    (hP : ∀ p, p ∈ acc.pairNode → p.restageIdx = 0) :
    ∀ p, p ∈ acc'.pairNode → p.restageIdx = 0 := by
  unfold PairStep at h
  by_cases hE : Emits env bottomNode splitFlags botIdx = true
  · rw [if_pos hE] at h
    have ht : PairTouch env 0 nPred acc botIdx =
        some (0, acc.mrraLevel, acc.restageNode, acc.pathAccum) := by
      unfold PairTouch
      rw [if_neg (lt_irrefl 0)]
    rw [ht] at h
    obtain ⟨q, hq, -, hr, -⟩ := PairEmit_pairNode _ _ _ _ _ _ h
    intro p hp
    rw [hq, List.mem_append, List.mem_singleton] at hp
    rcases hp with hp | rfl
    · exact hP p hp
    · exact hr
  · rw [if_neg hE] at h
    cases h
    exact hP

theorem PairInit_zero_pairs (env : PairEnv) (levelCount nPred nPredFac : Nat)
    (bottomNode : Nat → BottomNode) (w : MrraWindow) (splitFlags : Nat → Bool)
    (out : PairInitOut)
    (h : PairInit env 0 levelCount nPred nPredFac bottomNode w splitFlags = some out) :
    ∀ p, p ∈ out.pairNode → p.restageIdx = 0 := by
  unfold PairInit at h
  simp only at h
  split at h
  · exact absurd h (by simp)
  · rename_i acc hacc
    cases h
    exact foldlM_option_inv (PairStep env 0 levelCount bottomNode splitFlags)
      (fun a => ∀ p, p ∈ a.pairNode → p.restageIdx = 0)
      (fun s a s' hP hs => PairStep_zero_pairs env levelCount bottomNode splitFlags s s' a
        hs hP)
      _ _ _ (fun p hp => absurd hp (List.not_mem_nil p)) hacc

theorem Level_zero_frame {α : Type} (b : Bottom) (env : LevelEnv α) (sp : SamplePred α)
    (splitFlags : Nat → Bool) (indexNode : Nat → IndexNode) (st : Bottom × SamplePred α)
    (h0 : b.ancTot = 0) (h : b.Level env sp splitFlags indexNode = some st) :
    ∃ out, PairInit env.pair 0 b.levelCount b.nPred b.nPredFac b.bottomNode b.mrraLevel
        splitFlags = some out ∧
      Bottom.LevelRestage { b with mrraLevel := out.mrraLevel } env sp indexNode out =
        some ({ b with mrraLevel := out.mrraLevel }, sp) ∧
      st.2 = sp ∧ st.1.mrraLevel = b.mrraLevel ∧ st.1.bufferLevel = b.bufferLevel ∧
      st.1.ancTot = b.levelCount ∧ st.1.preStage = b.preStage ∧
      st.1.levelCount = b.levelCount ∧ st.1.nPred = b.nPred := by
  unfold Bottom.Level at h
  split at h
  · exact absurd h (by simp)
  · rename_i out hout
    rw [h0] at hout
    have hres : Bottom.LevelRestage { b with mrraLevel := out.mrraLevel } env sp indexNode out
        = some ({ b with mrraLevel := out.mrraLevel }, sp) := by
      unfold Bottom.LevelRestage
      have : ¬ (({ b with mrraLevel := out.mrraLevel } : Bottom).ancTot > 0) := by
        show ¬ (b.ancTot > 0)
        omega
      rw [if_neg this]
    rw [hres] at h
    simp only at h
    split at h
    · exact absurd h (by simp)
    · rename_i b' hb'
      cases h
      obtain ⟨s1, -, s3, s4, s5, s6, -, s8, -⟩ := Split_frame _ env _ _ indexNode _ b' hb'
      obtain ⟨-, -, hw⟩ := PairInit_level_zero env.pair b.levelCount b.nPred b.nPredFac
        b.bottomNode b.mrraLevel splitFlags out hout
      refine ⟨out, hout, hres, rfl, ?_, s5, ?_, s8, s4, s1⟩
      · show b'.mrraLevel = b.mrraLevel
        rw [s6]
        exact hw
      · show b'.ancTot = b.levelCount
        rw [s3]
        show b.ancTot + b.levelCount = b.levelCount
        omega

/-- C13: no restaging at level zero.  Whenever `Level` completes from a state with
`ancTot = 0`, `PairInit` created no `RestageNode` and returned path total 0,
every emitted pair carries `restageIdx = 0`, the restaging part of `Level` is the
identity (neither `RestageInit` nor `Restage` runs), so the sample buffers, the
MRRA window, the buffer-bit window and the staged table are unchanged, and
afterwards `ancTot` equals `levelCount`. -/
theorem Level_zero_no_restage {α : Type} (b : Bottom) (env : LevelEnv α)
    (sp : SamplePred α) (splitFlags : Nat → Bool) (indexNode : Nat → IndexNode)
    (st : Bottom × SamplePred α)
    (h0 : b.ancTot = 0) (h : b.Level env sp splitFlags indexNode = some st) :
    ∃ out, PairInit env.pair b.ancTot b.levelCount b.nPred b.nPredFac b.bottomNode
        b.mrraLevel splitFlags = some out ∧
      out.restageNode = [] ∧ out.pathTotal = 0 ∧
      (∀ p, p ∈ out.pairNode → p.restageIdx = 0) ∧
      Bottom.LevelRestage { b with mrraLevel := out.mrraLevel } env sp indexNode out =
        some ({ b with mrraLevel := out.mrraLevel }, sp) ∧
      st.2 = sp ∧ st.1.mrraLevel = b.mrraLevel ∧ st.1.bufferLevel = b.bufferLevel ∧
      st.1.preStage = b.preStage ∧ st.1.ancTot = b.levelCount := by
  obtain ⟨out, hout, hres, e1, e2, e3, e4, e5, -, -⟩ :=
    Level_zero_frame b env sp splitFlags indexNode st h0 h
  obtain ⟨r1, r2, -⟩ := PairInit_level_zero env.pair b.levelCount b.nPred b.nPredFac
    b.bottomNode b.mrraLevel splitFlags out hout
  have hz := PairInit_zero_pairs env.pair b.levelCount b.nPred b.nPredFac
    b.bottomNode b.mrraLevel splitFlags out hout
  refine ⟨out, ?_, r1, r2, hz, hres, e1, e2, e3, e5, e4⟩
  rw [h0]
  exact hout

theorem Level_zero_no_restage_witness :
    exRoot.ancTot = 0 ∧
    ∃ st, exRoot.Level exLevelEnv exSamplePred (fun _ => true) exIndexNode = some st ∧
      st.1.mrraLevel = exRoot.mrraLevel ∧ st.1.ancTot = 1 := by
  have hs : (exRoot.Level exLevelEnv exSamplePred (fun _ => true) exIndexNode).isSome
      = true := by decide
  obtain ⟨st, hst⟩ := Option.isSome_iff_exists.mp hs
  obtain ⟨out, -, -, -, -, -, -, hm, -, -, ha⟩ :=
    Level_zero_no_restage exRoot exLevelEnv exSamplePred (fun _ => true) exIndexNode st rfl hst
  exact ⟨rfl, st, hst, hm, ha⟩

/-- C12 (the claim fails): from the factory state with `bagCount = 4` and
`nPred = 2`, level 0 run with both split flags set leaves the buffer-bit window
at length 1, not 2, and the bit of both pairs of node 0 at 0, not 1. -/
theorem level_zero_scenario_fails :
    ∃ st, exRoot.Level exLevelEnv exSamplePred (fun _ => true) exIndexNode = some st ∧
      st.1.bufferLevel.length = 1 ∧ st.1.bufferLevel.length ≠ 2 ∧
      st.1.BufBit 0 0 = some 0 ∧ st.1.BufBit 0 1 = some 0 ∧
      st.1.BufBit 0 0 ≠ some 1 ∧ st.1.BufBit 0 1 ≠ some 1 := by
  have hs : (exRoot.Level exLevelEnv exSamplePred (fun _ => true) exIndexNode).isSome
      = true := by decide
  obtain ⟨st, hst⟩ := Option.isSome_iff_exists.mp hs
  obtain ⟨out, -, -, -, -, hb, -⟩ :=
    Level_zero_frame exRoot exLevelEnv exSamplePred (fun _ => true) exIndexNode st rfl hst
  have hbuf : st.1.bufferLevel = [BitMatrix.new 1 2] := hb
  have h00 : st.1.BufBit 0 0 = some 0 := by
    unfold Bottom.BufBit
    rw [hbuf]
    rfl
  have h01 : st.1.BufBit 0 1 = some 0 := by
    unfold Bottom.BufBit
    rw [hbuf]
    rfl
  refine ⟨st, hst, by rw [hbuf]; rfl, by rw [hbuf]; decide, h00, h01, ?_, ?_⟩
  · rw [h00]; decide
  · rw [h01]; decide

/-- C12 (amended): from the factory state with `bagCount = 4` and `nPred = 2`,
whatever the factor cardinalities, level 0 run with any split flags leaves the
buffer-bit window at length 1 and the bit of both pairs of node 0 at 0; no
restaging takes place at level 0. -/
theorem level_zero_scenario {α : Type} (FacCard : Nat → Nat) (fresh : Nat → BottomNode)
    (ss : SplitSig) (nPredFac : Nat) (env : LevelEnv α) (sp : SamplePred α)
    (splitFlags : Nat → Bool) (indexNode : Nat → IndexNode) (st : Bottom × SamplePred α)
    (h : (Bottom.new FacCard fresh ss 4 2 nPredFac).Level env sp splitFlags indexNode
      = some st) :
    st.1.bufferLevel.length = 1 ∧ st.1.BufBit 0 0 = some 0 ∧ st.1.BufBit 0 1 = some 0 ∧
    st.2 = sp := by
  obtain ⟨out, -, -, hsp, -, hb, -⟩ :=
    Level_zero_frame (Bottom.new FacCard fresh ss 4 2 nPredFac) env sp splitFlags indexNode
      st rfl h
  have hbuf : st.1.bufferLevel = [BitMatrix.new 1 2] := hb
  refine ⟨by rw [hbuf]; rfl, ?_, ?_, hsp⟩
  · unfold Bottom.BufBit
    rw [hbuf]
    rfl
  · unfold Bottom.BufBit
    rw [hbuf]
    rfl

theorem level_zero_scenario_witness :
    ∃ st, exRoot.Level exLevelEnv exSamplePred (fun _ => true) exIndexNode = some st ∧
      st.1.bufferLevel.length = 1 ∧ st.1.BufBit 0 0 = some 0 ∧ st.1.BufBit 0 1 = some 0 := by
  have hs : (exRoot.Level exLevelEnv exSamplePred (fun _ => true) exIndexNode).isSome
      = true := by decide
  obtain ⟨st, hst⟩ := Option.isSome_iff_exists.mp hs
  obtain ⟨h1, h2, h3, -⟩ := level_zero_scenario (fun p => if p = 1 then 3 else 0) exFresh
    exParent.splitSig 1 exLevelEnv exSamplePred (fun _ => true) exIndexNode st hst
  exact ⟨st, hst, h1, h2, h3⟩

/-! ### Path slots and dense restaging pairs -/

theorem RestageIdx_slots (m : MRRA) (levelDel pathAccum : Nat)
    (restageNode : List RestageNode) :
    (m.RestageIdx levelDel pathAccum restageNode).2.2.1 +
        (restageNode.map (fun r => 2 ^ r.levelDel)).sum =
      pathAccum +
        ((m.RestageIdx levelDel pathAccum restageNode).2.2.2.map
          (fun r => 2 ^ r.levelDel)).sum := by
  unfold MRRA.RestageIdx
  by_cases hneg : m.restageIdx < 0
  · rw [if_pos hneg]
    simp [RestageNode.Init]
    omega
  · rw [if_neg hneg]

theorem PairStep_slots (env : PairEnv) (ancTot nPred : Nat) (hanc : 0 < ancTot)
    (bottomNode : Nat → BottomNode) (splitFlags : Nat → Bool) (acc acc' : PairAcc)
    (botIdx : Nat)
    (h : PairStep env ancTot nPred bottomNode splitFlags acc botIdx = some acc')
    (hP : acc.pathAccum = (acc.restageNode.map (fun r => 2 ^ r.levelDel)).sum +
      (acc.pairNode.map (fun p =>
        2 ^ (env.MrraIdx p.bottomIdx (SplitCoords nPred p.bottomIdx).1 false).2)).sum) :
    acc'.pathAccum = (acc'.restageNode.map (fun r => 2 ^ r.levelDel)).sum +
      (acc'.pairNode.map (fun p =>
        2 ^ (env.MrraIdx p.bottomIdx (SplitCoords nPred p.bottomIdx).1 false).2)).sum := by
  unfold PairStep at h
  by_cases hE : Emits env bottomNode splitFlags botIdx = true
  · rw [if_pos hE] at h
    cases ht : PairTouch env ancTot nPred acc botIdx with
    | none => rw [ht] at h; exact absurd h (by simp)
    | some t =>
      rw [ht] at h
      simp only at h
      obtain ⟨q, hq, hqb, -, -, hr, hpa⟩ := PairEmit_pairNode _ _ _ _ _ _ h
      unfold PairTouch at ht
      rw [if_pos hanc] at ht
      obtain ⟨m, -, hteq⟩ := PathAccum_some env nPred _ _ _ _ t ht
      have hslots := RestageIdx_slots m
        (env.MrraIdx botIdx (SplitCoords nPred botIdx).1 false).2 acc.pathAccum
        acc.restageNode
      have e1 : acc'.restageNode = (m.RestageIdx
          (env.MrraIdx botIdx (SplitCoords nPred botIdx).1 false).2 acc.pathAccum
          acc.restageNode).2.2.2 := by rw [hr, hteq]
      have e2 : acc'.pathAccum = (m.RestageIdx
          (env.MrraIdx botIdx (SplitCoords nPred botIdx).1 false).2 acc.pathAccum
          acc.restageNode).2.2.1 +
          2 ^ (env.MrraIdx botIdx (SplitCoords nPred botIdx).1 false).2 := by
        rw [hpa, hteq]
      rw [e1, e2, hq, List.map_append, List.sum_append, List.map_singleton,
        List.sum_singleton, hqb]
      omega
  · rw [if_neg hE] at h
    cases h
    exact hP

/-- What the code computes: at `ancTot > 0` the path total returned by `PairInit`
is the sum of `2^levelDel` over the `RestageNode`s it created plus the sum of
`2^levelDel` over the pairs it emitted. -/
theorem PairInit_path_total (env : PairEnv) (ancTot levelCount nPred nPredFac : Nat)
    (hanc : 0 < ancTot) (bottomNode : Nat → BottomNode) (w : MrraWindow)
    (splitFlags : Nat → Bool) (out : PairInitOut)
    (h : PairInit env ancTot levelCount nPred nPredFac bottomNode w splitFlags = some out) :
    out.pathTotal = (out.restageNode.map (fun r => 2 ^ r.levelDel)).sum +
      (out.pairNode.map (fun p =>
        2 ^ (env.MrraIdx p.bottomIdx (SplitCoords nPred p.bottomIdx).1 false).2)).sum := by
  unfold PairInit at h
  simp only at h
  split at h
  · exact absurd h (by simp)
  · rename_i acc hacc
    cases h
    exact foldlM_option_inv (PairStep env ancTot nPred bottomNode splitFlags)
      (fun a => a.pathAccum = (a.restageNode.map (fun r => 2 ^ r.levelDel)).sum +
        (a.pairNode.map (fun p =>
          2 ^ (env.MrraIdx p.bottomIdx (SplitCoords nPred p.bottomIdx).1 false).2)).sum)
      (fun s a s' hP hs => PairStep_slots env ancTot nPred hanc bottomNode splitFlags
        s s' a hs hP)
      _ _ _ (by simp) hacc

/-- C11 (the code at the failing input): at a level of two nodes and two
predictors with one ancestor, `PairInit` emits two pairs that both reach the
same MRRA one level back.  It creates one `RestageNode` with `levelDel = 1`, whose
`2^levelDel` is 2, and returns path total 6: the first touch advanced the total
by 4 and the repeated reference by 2. -/
theorem PairInit_path_total_overcounts :
    PairInit exEnv 1 2 2 1 exTable exWindow exFlags = some exPairOut ∧
    exPairOut.restageNode = [RestageNode.Init 0 4 1 0] ∧
    (exPairOut.restageNode.map (fun r => 2 ^ r.levelDel)).sum = 2 ∧
    exPairOut.pathTotal = 6 ∧
    (PairInit exEnv 1 1 1 0 exTable exWindow exFlags).map (fun o => o.pathTotal)
      = some 4 := by
  decide

/-! ### Run sets -/

theorem take_set_ge {β : Type} (l : List β) (n k : Nat) (v : β) (h : k ≤ n) :
    (l.set n v).take k = l.take k := by
  apply List.ext_getElem?
  intro i
  simp only [List.getElem?_take]
  split
  · rename_i hi
    rw [List.getElem?_set_ne (by omega)]
  · rfl

theorem RestageFold_frame {α : Type} (samplePath : Nat → SamplePath) (d : Nat) (hd : d ≤ 8)
    (source : Nat → α) (sIdxSource : Nat → Nat) (off : Nat → Nat) (st0 : RestageState α)
    (hlen : st0.targOffset.length = 2 ^ d)
    (hoff : ∀ p, p < 2 ^ d → st0.targOffset[p]? = some (off p)) :
    ∀ l : List Nat,
      ∃ st, l.foldlM (RestageStep samplePath (pathMask d) source sIdxSource) st0 = some st ∧
        st.targOffset.length = 2 ^ d ∧
        (∀ p, p < 2 ^ d →
          st.targOffset[p]? = some (off p + (liveSel samplePath d sIdxSource l p).length)) ∧
        (∀ pos, (∀ p k, p < 2 ^ d →
            k < (liveSel samplePath d sIdxSource l p).length → pos ≠ off p + k) →
          st.targ pos = st0.targ pos ∧ st.sIdxTarg pos = st0.sIdxTarg pos) := by
  intro l
  induction l using List.reverseRecOn with
  | nil =>
    refine ⟨st0, by simp, hlen, ?_, fun _ _ => ⟨rfl, rfl⟩⟩
    intro p hp
    simpa [liveSel] using hoff p hp
  | append_singleton l x ih =>
    obtain ⟨st, hfold, hl1, hl2, hl4⟩ := ih
    have hmono : ∀ p, (liveSel samplePath d sIdxSource l p).length ≤
        (liveSel samplePath d sIdxSource (l ++ [x]) p).length := by
      intro p
      rw [liveSel_snoc, List.length_append]
      exact Nat.le_add_right _ _
    cases hx : livePath samplePath d sIdxSource x with
    | none =>
      have hsel : ∀ p, liveSel samplePath d sIdxSource (l ++ [x]) p =
          liveSel samplePath d sIdxSource l p := by
        intro p
        rw [liveSel_snoc, hx]
        simp
      refine ⟨st, ?_, hl1, ?_, ?_⟩
      · rw [List.foldlM_append, hfold]
        simp [RestageStep_dead samplePath d source sIdxSource st x hx]
      · intro p hp
        rw [hsel]
        exact hl2 p hp
      · intro pos hpos
        exact hl4 pos (fun p k hp hk => hpos p k hp (by rw [hsel]; exact hk))
    | some px =>
      have hpx : px < 2 ^ d := livePath_lt samplePath d sIdxSource x px hx
      have hselx : liveSel samplePath d sIdxSource (l ++ [x]) px =
          liveSel samplePath d sIdxSource l px ++ [x] := by
        rw [liveSel_snoc, hx]
        simp
      have hselo : ∀ p, p ≠ px → liveSel samplePath d sIdxSource (l ++ [x]) p =
          liveSel samplePath d sIdxSource l p := by
        intro p hne
        rw [liveSel_snoc, hx]
        have : ¬ (some px = some p) := fun h => hne (Option.some.inj h).symm
        simp [this]
      have hstep := RestageStep_live samplePath d hd source sIdxSource st x px _ hx (hl2 px hpx)
      refine ⟨{ targOffset := st.targOffset.set px
                    (off px + (liveSel samplePath d sIdxSource l px).length + 1)
                targ := Function.update st.targ
                    (off px + (liveSel samplePath d sIdxSource l px).length) (source x)
                sIdxTarg := Function.update st.sIdxTarg
                    (off px + (liveSel samplePath d sIdxSource l px).length) (sIdxSource x) },
        ?_, ?_, ?_, ?_⟩
      · rw [List.foldlM_append, hfold]
        simp [hstep]
      · simp [hl1]
      · intro p hp
        by_cases hpp : p = px
        · subst hpp
          rw [hselx]
          simp only [List.length_append, List.length_singleton]
          rw [List.getElem?_set_self (by rw [hl1]; exact hp)]
          rfl
        · rw [hselo p hpp, List.getElem?_set_ne (Ne.symm hpp)]
          exact hl2 p hp
      · intro pos hpos
        have hne : pos ≠ off px + (liveSel samplePath d sIdxSource l px).length :=
          hpos px _ hpx (by rw [hselx]; simp)
        simp only [Function.update_noteq hne]
        exact hl4 pos (fun p k hp hk => hpos p k hp (lt_of_lt_of_le hk (hmono p)))

theorem SingletonsFold_eq {α : Type} (r : RestageNode) (pathNode : List PathNode)
    (targOffset : List Nat) (IsRun : (Nat → α) → Int → Int → Bool) (targ : Nat → α)
    (predIdx : Nat) (hpn : r.pathZero + 2 ^ r.levelDel ≤ pathNode.length)
    (hlen : targOffset.length = 2 ^ r.levelDel) :
    ∀ (l : List Nat) (calls : List (Nat × Nat)), (∀ p, p ∈ l → p < 2 ^ r.levelDel) →
      l.foldlM
        (fun calls path =>
          match pathNode[r.pathZero + path]?, targOffset[path]? with
          | some node, some last =>
            if node.levelIdx ≥ 0 then
              if IsRun targ (node.offset : Int) ((last : Int) - 1) = true then
                some (calls ++ [(node.levelIdx.toNat, predIdx)])
              else some calls
            else some calls
          | _, _ => none)
        calls =
      some (calls ++ (l.filter (fun p =>
          decide (0 ≤ pathLevel r pathNode p) &&
            IsRun targ (sliceOffset r pathNode p : Int)
              ((targOffset.getD p 0 : Int) - 1))).map
        (fun p => ((pathLevel r pathNode p).toNat, predIdx))) := by
  intro l
  induction l with
  | nil => intro calls _; simp
  | cons a l ih =>
    intro calls hb
    have ha : a < 2 ^ r.levelDel := hb a (List.mem_cons_self a l)
    have hlt : r.pathZero + a < pathNode.length := by omega
    have hlt2 : a < targOffset.length := by omega
    have hlev : pathLevel r pathNode a = (pathNode[r.pathZero + a]).levelIdx := by
      simp [pathLevel, List.getElem?_eq_getElem hlt]
    have hof : sliceOffset r pathNode a = (pathNode[r.pathZero + a]).offset := by
      simp [sliceOffset, List.getElem?_eq_getElem hlt, PathNode.Offset]
    have hgd : targOffset.getD a 0 = targOffset[a] := by
      simp [List.getD, List.getElem?_eq_getElem hlt2]
    rw [List.foldlM_cons]
    simp only [List.getElem?_eq_getElem hlt, List.getElem?_eq_getElem hlt2]
    rw [List.filter_cons]
    by_cases h1 : (pathNode[r.pathZero + a]).levelIdx ≥ 0
    · rw [if_pos h1]
      by_cases h2 : IsRun targ ((pathNode[r.pathZero + a]).offset : Int)
          ((targOffset[a] : Int) - 1) = true
      · rw [if_pos h2]
        have hc : (decide (0 ≤ pathLevel r pathNode a) &&
            IsRun targ (sliceOffset r pathNode a : Int)
              ((targOffset.getD a 0 : Int) - 1)) = true := by
          rw [hlev, hof, hgd, h2]
          simpa using h1
        rw [if_pos hc]
        simp only [Option.bind_eq_bind, Option.some_bind]
        rw [ih _ (fun p hp => hb p (List.mem_cons_of_mem a hp))]
        simp [hlev]
      · rw [if_neg h2]
        have hc : ¬ (decide (0 ≤ pathLevel r pathNode a) &&
            IsRun targ (sliceOffset r pathNode a : Int)
              ((targOffset.getD a 0 : Int) - 1)) = true := by
          rw [hlev, hof, hgd]
          simp [h2]
        rw [if_neg hc]
        simp only [Option.bind_eq_bind, Option.some_bind]
        exact ih _ (fun p hp => hb p (List.mem_cons_of_mem a hp))
    · rw [if_neg h1]
      have hc : ¬ (decide (0 ≤ pathLevel r pathNode a) &&
          IsRun targ (sliceOffset r pathNode a : Int)
            ((targOffset.getD a 0 : Int) - 1)) = true := by
        rw [hlev]
        have : ¬ (0 ≤ (pathNode[r.pathZero + a]).levelIdx) := h1
        simp [this]
      rw [if_neg hc]
      simp only [Option.bind_eq_bind, Option.some_bind]
      exact ih _ (fun p hp => hb p (List.mem_cons_of_mem a hp))

theorem Singletons_eq {α : Type} (r : RestageNode) (pathNode : List PathNode)
    (targOffset : List Nat) (IsRun : (Nat → α) → Int → Int → Bool) (targ : Nat → α)
    (predIdx : Nat) (hpn : r.pathZero + 2 ^ r.levelDel ≤ pathNode.length)
    (hlen : targOffset.length = 2 ^ r.levelDel) :
    r.Singletons pathNode targOffset IsRun targ predIdx =
      some ((singletonPaths r pathNode targOffset IsRun targ).map
        (fun p => ((pathLevel r pathNode p).toNat, predIdx))) := by
  unfold RestageNode.Singletons singletonPaths
  simp only [PathNode.Coords]
  rw [SingletonsFold_eq r pathNode targOffset IsRun targ predIdx hpn hlen _ []
    (fun p hp => List.mem_range.mp hp)]
  simp

/-- C17: restage frame.  For a restage node with `levelDel ≤ 8` whose path nodes
lie inside `pathNode`, `Restage` completes; it changes the target buffer and the
target sample-index array only at positions `[offset_p, offset_p + n_p)` for
`p < 2^levelDel`, with `offset_p = pathNode[pathZero + p].offset` and `n_p` the
number of live samples of the source slice with masked path `p` (an extinct
sample is not counted and causes no write), and leaves each `targOffset[p]` at
`offset_p + n_p`.  In the loop of `Bottom::Restage` the source buffer and source
sample-index array of the pair, and both buffers of every other predictor, are
as before. -/
theorem Restage_writes_only_slices {α : Type} (r : RestageNode)
    (samplePath : Nat → SamplePath) (pathNode : List PathNode)
    (IsRun : (Nat → α) → Int → Int → Bool) (predIdx : Nat)
    (source : Nat → α) (sIdxSource : Nat → Nat) (targ : Nat → α) (sIdxTarg : Nat → Nat)
    (hdel : r.levelDel ≤ pathMax)
    (hpn : r.pathZero + 2 ^ r.levelDel ≤ pathNode.length) :
    (∃ out, r.Restage samplePath pathNode IsRun predIdx source sIdxSource targ sIdxTarg
        = some out ∧
      (∀ pos, (∀ p, p < 2 ^ r.levelDel →
          ¬ (sliceOffset r pathNode p ≤ pos ∧
            pos < sliceOffset r pathNode p + (liveSlice r samplePath sIdxSource p).length)) →
        out.targ pos = targ pos ∧ out.sIdxTarg pos = sIdxTarg pos) ∧
      (∀ p, p < 2 ^ r.levelDel → out.targOffset[p]? =
        some (sliceOffset r pathNode p + (liveSlice r samplePath sIdxSource p).length))) ∧
    (∀ (env : LevelEnv α) (restageNode : List RestageNode) (restageSource : BV)
        (st st' : Bottom × SamplePred α) (pr : RestagePair),
      Bottom.RestageOne env restageNode pathNode restageSource st pr = some st' →
      (st'.2.node pr.predIdx
          (if restageSource.IsSet (PairOffset st.1.nPred pr.nodeIdx pr.predIdx) = true
            then 1 else 0) =
        st.2.node pr.predIdx
          (if restageSource.IsSet (PairOffset st.1.nPred pr.nodeIdx pr.predIdx) = true
            then 1 else 0)) ∧
      (st'.2.sIdx pr.predIdx
          (if restageSource.IsSet (PairOffset st.1.nPred pr.nodeIdx pr.predIdx) = true
            then 1 else 0) =
        st.2.sIdx pr.predIdx
          (if restageSource.IsSet (PairOffset st.1.nPred pr.nodeIdx pr.predIdx) = true
            then 1 else 0)) ∧
      (∀ q bit, q ≠ pr.predIdx →
        st'.2.node q bit = st.2.node q bit ∧ st'.2.sIdx q bit = st.2.sIdx q bit)) := by
  constructor
  · have hd8 : r.levelDel ≤ 8 := hdel
    obtain ⟨offs, hoffs, hlen, hget⟩ := targOffsets_some r pathNode hpn
    obtain ⟨st, hfold, hl1, hl2, hl4⟩ :=
      RestageFold_frame samplePath r.levelDel hd8 source sIdxSource (sliceOffset r pathNode)
        { targOffset := offs, targ := targ, sIdxTarg := sIdxTarg } hlen hget
        (List.range' r.startIdx r.extent)
    obtain ⟨calls, hcalls⟩ := Singletons_some r pathNode st.targOffset IsRun st.targ predIdx
      hpn hl1
    refine ⟨{ targ := st.targ, sIdxTarg := st.sIdxTarg, targOffset := st.targOffset,
              singletons := calls }, ?_, ?_, ?_⟩
    · unfold RestageNode.Restage
      rw [if_neg (not_lt.mpr hdel)]
      simp only [hoffs, hfold, hcalls]
    · intro pos hpos
      exact hl4 pos (fun p k hp hk heq => hpos p hp
        ⟨by omega, by
          have hk' : k < (liveSlice r samplePath sIdxSource p).length := hk
          omega⟩)
    · intro p hp
      exact hl2 p hp
  · intro env restageNode restageSource st st' pr h
    unfold Bottom.RestageOne at h
    simp only [RestagePair.Coords] at h
    split at h
    · exact absurd h (by simp)
    · split at h
      · exact absurd h (by simp)
      · split at h
        · exact absurd h (by simp)
        · cases h
          by_cases hbit : restageSource.IsSet
              (PairOffset st.1.nPred pr.nodeIdx pr.predIdx) = true
          · simp [SamplePred.storeTarg, hbit]
            intro q bit hq
            simp [hq]
          · simp [SamplePred.storeTarg, hbit]
            intro q bit hq
            simp [hq]

theorem Restage_writes_only_slices_witness :
    exNode.levelDel ≤ pathMax ∧ exNode.pathZero + 2 ^ exNode.levelDel ≤ exPathNode.length ∧
    ∃ out, exNode.Restage exSamplePath exPathNode exIsRun 0 exSource id (fun _ => 0)
        (fun _ => 0) = some out ∧ out.targ 3 = 0 ∧ out.targ 7 = 0 ∧
      out.targOffset[0]? = some 2 ∧ out.targOffset[1]? = some 3 := by
  have h0 : liveSlice exNode exSamplePath id 0 = [0, 2] := by decide
  have h1 : liveSlice exNode exSamplePath id 1 = [1] := by decide
  have hoff0 : sliceOffset exNode exPathNode 0 = 0 := by decide
  have hoff1 : sliceOffset exNode exPathNode 1 = 2 := by decide
  have hsel : ∀ p, p < 2 ^ exNode.levelDel → p = 0 ∨ p = 1 := by
    intro p hp
    have : p < 2 := hp
    omega
  obtain ⟨⟨out, hout, hframe, hoffs⟩, -⟩ :=
    Restage_writes_only_slices exNode exSamplePath exPathNode exIsRun 0 exSource id
      (fun _ => 0) (fun _ => 0) (by decide) (by decide)
  have hout3 : ∀ pos, 3 ≤ pos → out.targ pos = 0 := by
    intro pos hpos
    refine (hframe pos ?_).1
    intro p hp
    rcases hsel p hp with rfl | rfl
    · rw [hoff0, h0]
      simp only [List.length_cons, List.length_nil]
      omega
    · rw [hoff1, h1]
      simp only [List.length_cons, List.length_nil]
      omega
  have t0 := hoffs 0 (by decide)
  have t1 := hoffs 1 (by decide)
  rw [hoff0, h0] at t0
  rw [hoff1, h1] at t1
  exact ⟨by decide, by decide, out, hout, hout3 3 (le_refl 3), hout3 7 (by omega), t0, t1⟩

/-! ### Singletons in the staged table -/

theorem foldl_update_other {β ι : Type} (k : ι → Nat) (g : (Nat → β) → ι → β) (o : Nat) :
    ∀ (l : List ι) (tbl : Nat → β), (∀ i, i ∈ l → k i ≠ o) →
      (l.foldl (fun t i => Function.update t (k i) (g t i)) tbl) o = tbl o := by
  intro l
  induction l with
  | nil => intro tbl _; rfl
  | cons a l ih =>
    intro tbl h
    rw [List.foldl_cons, ih _ (fun i hi => h i (List.mem_cons_of_mem a hi))]
    exact Function.update_noteq (Ne.symm (h a (List.mem_cons_self a l))) _ _

theorem InheritLoop_other (b : Bottom) (levelIdx next : Nat) (pre : Nat → BottomNode)
    (o : Nat) (h : ∀ q, q < b.nPred → PairOffset b.nPred next q ≠ o) :
    (b.InheritLoop levelIdx next pre) o = pre o := by
  unfold Bottom.InheritLoop
  exact foldl_update_other (fun q => PairOffset b.nPred next q)
    (fun tbl q => (tbl (PairOffset b.nPred next q)).Inherit
      (b.bottomNode (PairOffset b.nPred levelIdx q))) o
    (List.range b.nPred) pre (fun q hq => h q (List.mem_range.mp hq))

theorem PairOffset_div (nPred l p : Nat) (hp : p < nPred) :
    PairOffset nPred l p / nPred = l ∧ PairOffset nPred l p % nPred = p := by
  unfold PairOffset
  have hpos : 0 < nPred := Nat.lt_of_le_of_lt (Nat.zero_le p) hp
  constructor
  · rw [Nat.add_comm, Nat.add_mul_div_right _ _ hpos, Nat.div_eq_of_lt hp, Nat.zero_add]
  · rw [Nat.add_comm, Nat.add_mul_mod_self_right, Nat.mod_eq_of_lt hp]

theorem PairOffset_ne (nPred l c p q : Nat) (hp : p < nPred) (hq : q < nPred)
    (hne : c ≠ l) : PairOffset nPred c q ≠ PairOffset nPred l p := by
  intro h
  have e1 := (PairOffset_div nPred c q hq).1
  have e2 := (PairOffset_div nPred l p hp).1
  rw [h] at e1
  exact hne (e1.symm.trans e2)

/-- C15 (the claim fails): with the pair (node 0, predictor 0) of the next level
recorded as singleton in the staged table, `Inherit(0, 0, -1)` copies the state of
the parent pair, run count 10, over it. -/
theorem Inherit_overwrites_singleton :
    (((exParent.Overlap exFresh 2).SetSingleton 0 0).bind (fun b => b.preStage)).map
        (fun pre => (pre (PairOffset 2 0 0)).runCount) = some 1 ∧
    ((((exParent.Overlap exFresh 2).SetSingleton 0 0).bind
        (fun b => b.Inherit 0 0 (-1))).bind (fun b => b.preStage)).map
        (fun pre => (pre (PairOffset 2 0 0)).runCount) = some 10 := by
  constructor
  · simp [Bottom.SetSingleton, Bottom.Overlap, exParent, PairOffset]
  · simp [Bottom.SetSingleton, Bottom.Inherit, Bottom.Overlap, Bottom.InheritLoop, exParent,
      PairOffset, BottomNode.Inherit, List.range, List.range.loop, Function.update]

/-- C15 (amended): once run count 1 is recorded for the pair `(levelIdx, predIdx)`
in the staged table of the next level, `SetSingleton` for any pair, `DeOverlap`,
and `Inherit` for any parent whose non-negative children are nodes other than
`levelIdx` leave that pair's run count equal to 1, `predIdx` being one of the
`nPred` predictors.  (`Inherit` into the node itself copies the parent pair's
state over it.) -/
theorem singleton_kept (b : Bottom) (pre : Nat → BottomNode) (levelIdx predIdx : Nat)
    (hpre : b.preStage = some pre)
    (hone : (pre (PairOffset b.nPred levelIdx predIdx)).runCount = 1) :
    (∀ l p b', b.SetSingleton l p = some b' →
      ∃ pre', b'.preStage = some pre' ∧
        (pre' (PairOffset b'.nPred levelIdx predIdx)).runCount = 1) ∧
    (∀ b', b.DeOverlap = some b' →
      (b'.bottomNode (PairOffset b'.nPred levelIdx predIdx)).runCount = 1) ∧
    (∀ parent lNext rNext b', b.Inherit parent lNext rNext = some b' →
      predIdx < b.nPred →
      (0 ≤ lNext → lNext.toNat ≠ levelIdx) →
      (0 ≤ rNext → rNext.toNat ≠ levelIdx) →
      ∃ pre', b'.preStage = some pre' ∧
        (pre' (PairOffset b'.nPred levelIdx predIdx)).runCount = 1) := by
  refine ⟨?_, ?_, ?_⟩
  · intro l p b' h
    unfold Bottom.SetSingleton at h
    rw [hpre] at h
    simp only at h
    cases h
    refine ⟨_, rfl, ?_⟩
    show (Function.update pre (PairOffset b.nPred l p)
      { pre (PairOffset b.nPred l p) with runCount := 1 }
      (PairOffset b.nPred levelIdx predIdx)).runCount = 1
    by_cases he : PairOffset b.nPred levelIdx predIdx = PairOffset b.nPred l p
    · rw [he, Function.update_same]
    · rw [Function.update_noteq he]
      exact hone
  · intro b' h
    unfold Bottom.DeOverlap at h
    rw [hpre] at h
    simp only at h
    cases h
    exact hone
  · intro parent lNext rNext b' h hl hL hR
    unfold Bottom.Inherit at h
    split at h
    · cases h
      exact ⟨pre, hpre, hone⟩
    · rw [hpre] at h
      simp only at h
      cases h
      refine ⟨_, rfl, ?_⟩
      show ((if rNext ≥ 0 then
          b.InheritLoop parent rNext.toNat
            (if lNext ≥ 0 then b.InheritLoop parent lNext.toNat pre else pre)
        else (if lNext ≥ 0 then b.InheritLoop parent lNext.toNat pre else pre))
        (PairOffset b.nPred levelIdx predIdx)).runCount = 1
      have h1 : (if lNext ≥ 0 then b.InheritLoop parent lNext.toNat pre else pre)
          (PairOffset b.nPred levelIdx predIdx) =
          pre (PairOffset b.nPred levelIdx predIdx) := by
        split
        · rename_i hge
          exact InheritLoop_other b parent lNext.toNat pre _
            (fun q hq => PairOffset_ne b.nPred levelIdx lNext.toNat predIdx q hl hq
              (hL hge))
        · rfl
      split
      · rename_i hge
        rw [InheritLoop_other b parent rNext.toNat _ _
          (fun q hq => PairOffset_ne b.nPred levelIdx rNext.toNat predIdx q hl hq
            (hR hge)), h1]
        exact hone
      · rw [h1]
        exact hone

theorem singleton_kept_witness :
    ∃ b pre, (exParent.Overlap exFresh 2).SetSingleton 0 0 = some b ∧
      b.preStage = some pre ∧ (pre (PairOffset b.nPred 0 0)).runCount = 1 ∧
      ∃ b' pre', b.Inherit 0 1 (-1) = some b' ∧ b'.preStage = some pre' ∧
        (pre' (PairOffset b'.nPred 0 0)).runCount = 1 := by
  have hs : ((exParent.Overlap exFresh 2).SetSingleton 0 0).isSome = true := by decide
  obtain ⟨b, hb⟩ := Option.isSome_iff_exists.mp hs
  have hnp : b.nPred = 2 := (SetSingleton_frame _ b 0 0 hb).1
  have hpre : ∃ pre, b.preStage = some pre ∧
      (pre (PairOffset b.nPred 0 0)).runCount = 1 := by
    unfold Bottom.SetSingleton at hb
    simp only [Bottom.Overlap] at hb
    cases hb
    exact ⟨_, rfl, by simp [PairOffset]⟩
  obtain ⟨pre, hpre, hone⟩ := hpre
  have hi : (b.Inherit 0 1 (-1)).isSome = true := by
    unfold Bottom.Inherit
    rw [hpre, hnp]
    simp
  obtain ⟨b', hb'⟩ := Option.isSome_iff_exists.mp hi
  obtain ⟨pre', hp', hone'⟩ := (singleton_kept b pre 0 0 hpre hone).2.2 0 1 (-1) b' hb'
    (by rw [hnp]; decide) (fun _ => by decide) (fun h => absurd h (by decide))
  exact ⟨b, pre, hb, hpre, hone, b', pre', hb', hp', hone'⟩

/-! ### The windows across levels -/

/-- C26: `NuxLH::Init` resets `rankLH` and `rankRH` to 0 and leaves `lhImplicit`
at its previous value.  On every `NuxLH` on which `InitNum(..., lhImplicit = k)`
was called, `Init(idxStart, lhExtent, sCount, info)` followed by `Ref` outputs
the new `idxStart`, `lhExtent`, `sCount` and `info`, `rankMean = 0` and
`lhImplicit = k`. -/
theorem NuxLH_Init_keeps_lhImplicit (n : NuxLH) (idxStart0 lhExtent0 sCount0 : Nat)
    (info0 : Info) (rankLH rankRH k : Nat) (idxStart lhExtent sCount : Nat) (info : Info) :
    ((n.InitNum idxStart0 lhExtent0 sCount0 info0 rankLH rankRH k).Init idxStart lhExtent
        sCount info).rankLH = 0 ∧
    ((n.InitNum idxStart0 lhExtent0 sCount0 info0 rankLH rankRH k).Init idxStart lhExtent
        sCount info).rankRH = 0 ∧
    ((n.InitNum idxStart0 lhExtent0 sCount0 info0 rankLH rankRH k).Init idxStart lhExtent
        sCount info).Ref = (idxStart, lhExtent, sCount, info, 0, k) := by
  refine ⟨rfl, rfl, ?_⟩
  simp [NuxLH.Ref, NuxLH.InitNum, NuxLH.Init]

/-! ### Path masking -/

theorem mapM_option_length {β γ : Type} (f : β → Option γ) :
    ∀ (l : List β) (l' : List γ), l.mapM f = some l' → l'.length = l.length := by
  intro l
  induction l with
  | nil =>
    intro l' h
    rw [List.mapM_nil] at h
    cases h
    rfl
  | cons a l ih =>
    intro l' h
    rw [List.mapM_cons] at h
    cases ha : f a with
    | none => rw [ha] at h; exact absurd h (by simp)
    | some c =>
      cases hl : l.mapM f with
      | none => rw [ha, hl] at h; exact absurd h (by simp)
      | some cs =>
        rw [ha, hl] at h
        cases h
        simp only [List.length_cons, ih cs hl]

theorem targOffsets_length (r : RestageNode) (pathNode : List PathNode) (offs : List Nat)
    (h : r.targOffsets pathNode = some offs) : offs.length = 2 ^ r.levelDel := by
  unfold RestageNode.targOffsets at h
  rw [mapM_option_length _ _ _ h, List.length_range]

/-- C23: path masking.  For every `levelDel` in `0..8` and every path value `b`,
8-bit or not, the mask `unsigned char(~(0xff << levelDel))` equals `2^levelDel - 1`, so
`b & mask` equals `b mod 2^levelDel`, is less than `2^levelDel`, which is at most
`2^pathMax`, the size of the stack array, and addresses one of the entries of
`targOffset` that `Restage` initialised; the path byte output by `IsLive` is such
a `b`, and the copying step at a live sample finds its offset. -/
theorem pathMask_indexes (levelDel b : Nat) (hd : levelDel ≤ pathMax) :
    pathMask levelDel = 2 ^ levelDel - 1 ∧
    b &&& pathMask levelDel = b % 2 ^ levelDel ∧
    b &&& pathMask levelDel < 2 ^ levelDel ∧
    2 ^ levelDel ≤ 2 ^ pathMax ∧
    (∀ (r : RestageNode) (pathNode : List PathNode) (offs : List Nat),
      r.levelDel = levelDel → r.targOffsets pathNode = some offs →
      ∃ o, offs[b &&& pathMask levelDel]? = some o) ∧
    (∀ (samplePath : Nat → SamplePath) (sIdx : Nat) (sIdxPath : Nat),
      IsLive samplePath sIdx = some sIdxPath → sIdxPath < 256) := by
  have hm : pathMask levelDel = 2 ^ levelDel - 1 := pathMask_eq levelDel hd
  have hand : b &&& pathMask levelDel = b % 2 ^ levelDel := by
    rw [hm, Nat.and_pow_two_sub_one_eq_mod]
  have hlt : b &&& pathMask levelDel < 2 ^ levelDel := by
    rw [hand]
    exact Nat.mod_lt _ (by positivity)
  refine ⟨hm, hand, hlt, Nat.pow_le_pow_right (by decide) hd, ?_, ?_⟩
  · intro r pathNode offs hr hoffs
    have hlen := targOffsets_length r pathNode offs hoffs
    rw [hr] at hlen
    have hidx : b &&& pathMask levelDel < offs.length := by
      rw [hlen]
      exact hlt
    exact ⟨offs[b &&& pathMask levelDel], List.getElem?_eq_getElem hidx⟩
  · intro samplePath sIdx sIdxPath h
    unfold IsLive at h
    split at h
    · cases h
      exact Nat.mod_lt _ (by decide)
    · exact absurd h (by simp)

theorem pathMask_indexes_witness :
    pathMask 3 = 7 ∧ 173 &&& pathMask 3 = 5 ∧
    (∀ (r : RestageNode) (pathNode : List PathNode) (offs : List Nat),
      r.levelDel = 3 → r.targOffsets pathNode = some offs →
      ∃ o, offs[173 &&& pathMask 3]? = some o) := by
  obtain ⟨h1, h2, -, -, h5, -⟩ := pathMask_indexes 3 173 (by decide)
  exact ⟨h1, h2, h5⟩

/-! ### Target areas of the restage nodes -/

theorem RestageIdx_ranges (m : MRRA) (levelDel pathAccum : Nat)
    (restageNode : List RestageNode)
    (hP : restageNode.Pairwise (fun a b => a.pathZero + 2 ^ a.levelDel ≤ b.pathZero))
    (hB : ∀ r, r ∈ restageNode → r.pathZero + 2 ^ r.levelDel ≤ pathAccum) :
    (m.RestageIdx levelDel pathAccum restageNode).2.2.2.Pairwise
        (fun a b => a.pathZero + 2 ^ a.levelDel ≤ b.pathZero) ∧
    (∀ r, r ∈ (m.RestageIdx levelDel pathAccum restageNode).2.2.2 →
      r.pathZero + 2 ^ r.levelDel ≤ (m.RestageIdx levelDel pathAccum restageNode).2.2.1) := by
  unfold MRRA.RestageIdx
  by_cases hneg : m.restageIdx < 0
  · rw [if_pos hneg]
    simp only
    constructor
    · rw [List.pairwise_append]
      refine ⟨hP, List.pairwise_singleton _ _, ?_⟩
      intro a ha b hb
      rw [List.mem_singleton] at hb
      subst hb
      exact hB a ha
    · intro r hr
      rw [List.mem_append, List.mem_singleton] at hr
      rcases hr with hr | hr
      · exact Nat.le_trans (hB r hr) (Nat.le_add_right _ _)
      · subst hr
        exact Nat.le_refl _
  · rw [if_neg hneg]
    exact ⟨hP, hB⟩

theorem PairStep_ranges (env : PairEnv) (ancTot nPred : Nat)
    (bottomNode : Nat → BottomNode) (splitFlags : Nat → Bool) (acc acc' : PairAcc)
    (botIdx : Nat)
    (hI : acc.restageNode.Pairwise (fun a b => a.pathZero + 2 ^ a.levelDel ≤ b.pathZero) ∧
      ∀ r, r ∈ acc.restageNode → r.pathZero + 2 ^ r.levelDel ≤ acc.pathAccum)
    (h : PairStep env ancTot nPred bottomNode splitFlags acc botIdx = some acc') :
    acc'.restageNode.Pairwise (fun a b => a.pathZero + 2 ^ a.levelDel ≤ b.pathZero) ∧
      ∀ r, r ∈ acc'.restageNode → r.pathZero + 2 ^ r.levelDel ≤ acc'.pathAccum := by
  unfold PairStep at h
  by_cases hE : Emits env bottomNode splitFlags botIdx = true
  · rw [if_pos hE] at h
    cases ht : PairTouch env ancTot nPred acc botIdx with
    | none => rw [ht] at h; exact absurd h (by simp)
    | some t =>
      rw [ht] at h
      simp only at h
      obtain ⟨q, -, -, -, -, hr, hpa⟩ := PairEmit_pairNode _ _ _ _ _ _ h
      unfold PairTouch at ht
      by_cases ha : ancTot > 0
      · rw [if_pos ha] at ht
        obtain ⟨m, -, hteq⟩ := PathAccum_some env nPred _ _ _ _ t ht
        obtain ⟨g1, g2⟩ := RestageIdx_ranges m
          (env.MrraIdx botIdx (SplitCoords nPred botIdx).1 false).2 acc.pathAccum
          acc.restageNode hI.1 hI.2
        have e1 : acc'.restageNode = (m.RestageIdx
            (env.MrraIdx botIdx (SplitCoords nPred botIdx).1 false).2 acc.pathAccum
            acc.restageNode).2.2.2 := by rw [hr, hteq]
        have e2 : acc'.pathAccum = (m.RestageIdx
            (env.MrraIdx botIdx (SplitCoords nPred botIdx).1 false).2 acc.pathAccum
            acc.restageNode).2.2.1 +
            2 ^ (env.MrraIdx botIdx (SplitCoords nPred botIdx).1 false).2 := by
          rw [hpa, hteq]
        rw [e1, e2]
        exact ⟨g1, fun r hr => Nat.le_trans (g2 r hr) (Nat.le_add_right _ _)⟩
      · rw [if_neg ha] at ht
        cases ht
        rw [hr, hpa]
        exact hI
  · rw [if_neg hE] at h
    cases h
    exact hI

/-- C25: unique target areas.  For the `RestageNode`s produced by one `PairInit`
call, the path-slot ranges `[pathZero, pathZero + 2^levelDel)` are laid out in
creation order without overlap, so the ranges of distinct `RestageNode`s are
pairwise disjoint; each range lies within `[0, T)` for the total `T` returned by
`PairInit`, and every access `pathNode[pathZero + p]` with `p < 2^levelDel` is in
bounds of the `PathNode` array of length `T` that `Level` allocates. -/
theorem PairInit_slot_ranges (env : PairEnv) (ancTot levelCount nPred nPredFac : Nat)
    (bottomNode : Nat → BottomNode) (w : MrraWindow) (splitFlags : Nat → Bool)
    (out : PairInitOut)
    (h : PairInit env ancTot levelCount nPred nPredFac bottomNode w splitFlags = some out) :
    (∀ (i j : Nat) (ri rj : RestageNode), i < j → out.restageNode[i]? = some ri →
      out.restageNode[j]? = some rj → ri.pathZero + 2 ^ ri.levelDel ≤ rj.pathZero) ∧
    (∀ (i j : Nat) (ri rj : RestageNode), i ≠ j → out.restageNode[i]? = some ri →
      out.restageNode[j]? = some rj → ∀ slot, ¬ (ri.pathZero ≤ slot ∧ slot < ri.pathZero + 2 ^ ri.levelDel ∧
        rj.pathZero ≤ slot ∧ slot < rj.pathZero + 2 ^ rj.levelDel)) ∧
    (∀ r, r ∈ out.restageNode → r.pathZero + 2 ^ r.levelDel ≤ out.pathTotal) ∧
    (∀ r, r ∈ out.restageNode → ∀ p, p < 2 ^ r.levelDel →
      r.pathZero + p < (List.replicate out.pathTotal PathNode.Init0).length ∧
      (List.replicate out.pathTotal PathNode.Init0)[r.pathZero + p]? =
        some PathNode.Init0) := by
  unfold PairInit at h
  simp only at h
  split at h
  · exact absurd h (by simp)
  · rename_i acc hacc
    cases h
    obtain ⟨hP, hB⟩ := foldlM_option_inv
      (PairStep env ancTot nPred bottomNode splitFlags)
      (fun a => a.restageNode.Pairwise
          (fun x y => x.pathZero + 2 ^ x.levelDel ≤ y.pathZero) ∧
        ∀ r, r ∈ a.restageNode → r.pathZero + 2 ^ r.levelDel ≤ a.pathAccum)
      (fun s a s' hI hs => PairStep_ranges env ancTot nPred bottomNode splitFlags
        s s' a hI hs)
      _ _ _ ⟨List.Pairwise.nil, fun r hr => absurd hr (List.not_mem_nil r)⟩ hacc
    have hord : ∀ (i j : Nat) (ri rj : RestageNode), i < j → acc.restageNode[i]? = some ri →
        acc.restageNode[j]? = some rj → ri.pathZero + 2 ^ ri.levelDel ≤ rj.pathZero := by
      intro i j ri rj hij hi hj
      obtain ⟨hi1, hi2⟩ := List.getElem?_eq_some_iff.mp hi
      obtain ⟨hj1, hj2⟩ := List.getElem?_eq_some_iff.mp hj
      have := List.pairwise_iff_getElem.mp hP i j hi1 hj1 hij
      rw [hi2, hj2] at this
      exact this
    refine ⟨hord, ?_, hB, ?_⟩
    · intro i j ri rj hij hi hj slot hs
      rcases Nat.lt_or_gt_of_ne hij with hlt | hgt
      · have := hord i j ri rj hlt hi hj
        omega
      · have := hord j i rj ri hgt hj hi
        omega
    · intro r hr p hp
      have hb := hB r hr
      have hlt : r.pathZero + p < acc.pathAccum := by omega
      exact ⟨by simpa using hlt, List.getElem?_replicate_of_lt hlt⟩

theorem PairInit_slot_ranges_witness :
    PairInit exEnv 1 2 2 1 exTable exWindow exFlags = some exPairOut ∧
    (∀ r, r ∈ exPairOut.restageNode → r.pathZero + 2 ^ r.levelDel ≤ exPairOut.pathTotal) ∧
    (∀ r, r ∈ exPairOut.restageNode → ∀ p, p < 2 ^ r.levelDel →
      r.pathZero + p < (List.replicate exPairOut.pathTotal PathNode.Init0).length ∧
      (List.replicate exPairOut.pathTotal PathNode.Init0)[r.pathZero + p]? =
        some PathNode.Init0) := by
  have h : PairInit exEnv 1 2 2 1 exTable exWindow exFlags = some exPairOut := by decide
  obtain ⟨-, -, h3, h4⟩ := PairInit_slot_ranges exEnv 1 2 2 1 exTable exWindow exFlags
    exPairOut h
  exact ⟨h, h3, h4⟩

/-! ### Singleton detection -/

/-- C22: singleton detection.  For a restage node with `levelDel ≤ 8` whose path
nodes lie inside `pathNode`, `Restage` completes and `Singletons` calls
`SetSingleton(levelIdx, predIdx)`, in path order, for exactly those paths
`p < 2^levelDel` whose `PathNode` has `levelIdx ≥ 0` and whose target slice, from
`offset_p = pathNode[pathZero + p].offset` to `targOffset[p] - 1 = offset_p + n_p
- 1`, the last cell written for `p` (`n_p` live samples with masked path `p`),
passes `IsRun` on the target buffer as restaged; a path whose `PathNode` has
`levelIdx < 0` causes no call. -/
theorem Restage_singletons {α : Type} (r : RestageNode) (samplePath : Nat → SamplePath)
    (pathNode : List PathNode) (IsRun : (Nat → α) → Int → Int → Bool) (predIdx : Nat)
    (source : Nat → α) (sIdxSource : Nat → Nat) (targ : Nat → α) (sIdxTarg : Nat → Nat)
    (hdel : r.levelDel ≤ pathMax)
    (hpn : r.pathZero + 2 ^ r.levelDel ≤ pathNode.length) :
    ∃ out, r.Restage samplePath pathNode IsRun predIdx source sIdxSource targ sIdxTarg
        = some out ∧
      (∀ p, p < 2 ^ r.levelDel → out.targOffset[p]? =
        some (sliceOffset r pathNode p + (liveSlice r samplePath sIdxSource p).length)) ∧
      out.singletons =
        ((List.range (2 ^ r.levelDel)).filter (fun p =>
          decide (0 ≤ pathLevel r pathNode p) &&
            IsRun out.targ (sliceOffset r pathNode p : Int)
              (((sliceOffset r pathNode p +
                (liveSlice r samplePath sIdxSource p).length : Nat) : Int) - 1))).map
          (fun p => ((pathLevel r pathNode p).toNat, predIdx)) ∧
      (∀ c, c ∈ out.singletons →
        ∃ p, p < 2 ^ r.levelDel ∧ 0 ≤ pathLevel r pathNode p ∧
          c = ((pathLevel r pathNode p).toNat, predIdx)) := by
  have hd8 : r.levelDel ≤ 8 := hdel
  obtain ⟨offs, hoffs, hlen, hget⟩ := targOffsets_some r pathNode hpn
  obtain ⟨st, hfold, hl1, hl2, -⟩ :=
    RestageFold_frame samplePath r.levelDel hd8 source sIdxSource (sliceOffset r pathNode)
      { targOffset := offs, targ := targ, sIdxTarg := sIdxTarg } hlen hget
      (List.range' r.startIdx r.extent)
  have hsing := Singletons_eq r pathNode st.targOffset IsRun st.targ predIdx hpn hl1
  have hpaths : singletonPaths r pathNode st.targOffset IsRun st.targ =
      (List.range (2 ^ r.levelDel)).filter (fun p =>
        decide (0 ≤ pathLevel r pathNode p) &&
          IsRun st.targ (sliceOffset r pathNode p : Int)
            (((sliceOffset r pathNode p +
              (liveSlice r samplePath sIdxSource p).length : Nat) : Int) - 1)) := by
    unfold singletonPaths
    apply List.filter_congr
    intro p hp
    have hp' := hl2 p (List.mem_range.mp hp)
    have : st.targOffset.getD p 0 = sliceOffset r pathNode p +
        (liveSlice r samplePath sIdxSource p).length := by
      simp [List.getD, hp', liveSlice]
    rw [this]
  refine ⟨{ targ := st.targ, sIdxTarg := st.sIdxTarg, targOffset := st.targOffset
            singletons := (singletonPaths r pathNode st.targOffset IsRun st.targ).map
              (fun p => ((pathLevel r pathNode p).toNat, predIdx)) }, ?_, ?_, ?_, ?_⟩
  · unfold RestageNode.Restage
    rw [if_neg (not_lt.mpr hdel)]
    simp only [hoffs, hfold, hsing]
  · intro p hp
    exact hl2 p hp
  · show (singletonPaths r pathNode st.targOffset IsRun st.targ).map _ = _
    rw [hpaths]
  · intro c hc
    have hc' : c ∈ (singletonPaths r pathNode st.targOffset IsRun st.targ).map
        (fun p => ((pathLevel r pathNode p).toNat, predIdx)) := hc
    rw [hpaths, List.mem_map] at hc'
    obtain ⟨p, hp, hpc⟩ := hc'
    rw [List.mem_filter, List.mem_range, Bool.and_eq_true, decide_eq_true_eq] at hp
    exact ⟨p, hp.1, hp.2.1, hpc.symm⟩

theorem Restage_singletons_witness :
    exNode.levelDel ≤ pathMax ∧ exNode.pathZero + 2 ^ exNode.levelDel ≤ exPathNode.length ∧
    ∃ out, exNode.Restage exSamplePath exPathNode exIsRun 0 exSource id (fun _ => 0)
        (fun _ => 0) = some out ∧
      ∀ c, c ∈ out.singletons →
        ∃ p, p < 2 ^ exNode.levelDel ∧ 0 ≤ pathLevel exNode exPathNode p ∧
          c = ((pathLevel exNode exPathNode p).toNat, 0) := by
  obtain ⟨out, h1, -, -, h4⟩ :=
    Restage_singletons exNode exSamplePath exPathNode exIsRun 0 exSource id (fun _ => 0)
      (fun _ => 0) (by decide) (by decide)
  exact ⟨by decide, by decide, out, h1, h4⟩

/-! ### The two-path restaging kernel -/

theorem RestageTwoStep_sim {α : Type} (samplePath : Nat → SamplePath) (source : Nat → α)
    (sIdxSource : Nat → Nat) (t : RestageTwoState α) (idx : Nat) :
    RestageStep samplePath (pathMask 1) source sIdxSource
        { targOffset := [t.leftOff, t.rightOff], targ := t.targ, sIdxTarg := t.sIdxTarg } idx =
      some { targOffset := [(RestageTwoStep samplePath (pathMask 1) source sIdxSource t idx).leftOff,
                            (RestageTwoStep samplePath (pathMask 1) source sIdxSource t idx).rightOff]
             targ := (RestageTwoStep samplePath (pathMask 1) source sIdxSource t idx).targ
             sIdxTarg :=
               (RestageTwoStep samplePath (pathMask 1) source sIdxSource t idx).sIdxTarg } := by
  have hm : pathMask 1 = 1 := by decide
  cases hl : IsLive samplePath (sIdxSource idx) with
  | none => simp only [RestageStep, RestageTwoStep, hl]
  | some b =>
    rcases Nat.mod_two_eq_zero_or_one b with h | h
    · simp [RestageStep, RestageTwoStep, hl, hm, Nat.and_one_is_mod, h]
    · simp [RestageStep, RestageTwoStep, hl, hm, Nat.and_one_is_mod, h]

theorem RestageTwoFold_sim {α : Type} (samplePath : Nat → SamplePath) (source : Nat → α)
    (sIdxSource : Nat → Nat) :
    ∀ (l : List Nat) (t : RestageTwoState α),
      l.foldlM (RestageStep samplePath (pathMask 1) source sIdxSource)
          { targOffset := [t.leftOff, t.rightOff], targ := t.targ, sIdxTarg := t.sIdxTarg } =
        some { targOffset :=
                 [(l.foldl (RestageTwoStep samplePath (pathMask 1) source sIdxSource) t).leftOff,
                  (l.foldl (RestageTwoStep samplePath (pathMask 1) source sIdxSource) t).rightOff]
               targ := (l.foldl (RestageTwoStep samplePath (pathMask 1) source sIdxSource) t).targ
               sIdxTarg :=
                 (l.foldl (RestageTwoStep samplePath (pathMask 1) source sIdxSource) t).sIdxTarg } := by
  intro l
  induction l with
  | nil => intro t; rfl
  | cons a l ih =>
    intro t
    rw [List.foldlM_cons, RestageTwoStep_sim, List.foldl_cons]
    exact ih _

theorem targOffsets_two (r : RestageNode) (pathNode : List PathNode) (hd : r.levelDel = 1) :
    r.targOffsets pathNode =
      match pathNode[r.pathZero]?, pathNode[r.pathZero + 1]? with
      | some left, some right => some [left.Offset, right.Offset]
      | _, _ => none := by
  unfold RestageNode.targOffsets
  rw [hd]
  have hr : List.range (2 ^ 1) = [0, 1] := by decide
  rw [hr, List.mapM_cons, List.mapM_cons, List.mapM_nil]
  cases h0 : pathNode[r.pathZero]? <;> cases h1 : pathNode[r.pathZero + 1]? <;>
    simp [h0, h1]

/-- C21: the two-path kernel against the general one.  For every restage node
with `levelDel = 1` and every predictor, source slice, target buffers and
liveness/path assignment, `RestageTwo` completes exactly when `Restage` does
(both path nodes in bounds) and leaves the same target cells and the same target
sample indices at every position, with `leftOff`, `rightOff` equal to the final
`targOffset[0]`, `targOffset[1]`. -/
theorem RestageTwo_eq_Restage {α : Type} (r : RestageNode) (samplePath : Nat → SamplePath)
    (pathNode : List PathNode) (IsRun : (Nat → α) → Int → Int → Bool) (predIdx : Nat)
    (source : Nat → α) (sIdxSource : Nat → Nat) (targ : Nat → α) (sIdxTarg : Nat → Nat)
    (hd : r.levelDel = 1) :
    (r.RestageTwo samplePath pathNode source sIdxSource targ sIdxTarg).map
        (fun o => (o.targ, o.sIdxTarg, [o.leftOff, o.rightOff])) =
      (r.Restage samplePath pathNode IsRun predIdx source sIdxSource targ sIdxTarg).map
        (fun o => (o.targ, o.sIdxTarg, o.targOffset)) ∧
    (r.pathZero + 2 ≤ pathNode.length →
      (r.RestageTwo samplePath pathNode source sIdxSource targ sIdxTarg).isSome = true) := by
  have hnot : ¬ r.levelDel > pathMax := by
    rw [hd]
    decide
  constructor
  · unfold RestageNode.RestageTwo RestageNode.Restage
    rw [if_neg hnot, targOffsets_two r pathNode hd]
    cases h0 : pathNode[r.pathZero]? with
    | none => rfl
    | some left =>
      cases h1 : pathNode[r.pathZero + 1]? with
      | none => rfl
      | some right =>
        simp only
        rw [hd]
        have hsim := RestageTwoFold_sim samplePath source sIdxSource
          (List.range' r.startIdx r.extent)
          { leftOff := left.Offset, rightOff := right.Offset, targ := targ,
            sIdxTarg := sIdxTarg }
        simp only at hsim
        rw [hsim]
        simp only
        have hpn : r.pathZero + 2 ^ r.levelDel ≤ pathNode.length := by
          rw [hd]
          obtain ⟨hlt, -⟩ := List.getElem?_eq_some_iff.mp h1
          show r.pathZero + 2 ≤ pathNode.length
          omega
        obtain ⟨calls, hcalls⟩ := Singletons_some r pathNode
          [((List.range' r.startIdx r.extent).foldl
              (RestageTwoStep samplePath (pathMask 1) source sIdxSource)
              { leftOff := left.Offset, rightOff := right.Offset, targ := targ,
                sIdxTarg := sIdxTarg }).leftOff,
           ((List.range' r.startIdx r.extent).foldl
              (RestageTwoStep samplePath (pathMask 1) source sIdxSource)
              { leftOff := left.Offset, rightOff := right.Offset, targ := targ,
                sIdxTarg := sIdxTarg }).rightOff]
          IsRun
          ((List.range' r.startIdx r.extent).foldl
              (RestageTwoStep samplePath (pathMask 1) source sIdxSource)
              { leftOff := left.Offset, rightOff := right.Offset, targ := targ,
                sIdxTarg := sIdxTarg }).targ
          predIdx hpn (by rw [hd]; rfl)
        rw [hcalls]
        rfl
  · intro hlen
    unfold RestageNode.RestageTwo
    have h0 : r.pathZero < pathNode.length := by omega
    have h1 : r.pathZero + 1 < pathNode.length := by omega
    rw [List.getElem?_eq_getElem h0, List.getElem?_eq_getElem h1]
    rfl

theorem RestageTwo_eq_Restage_witness :
    exNode.levelDel = 1 ∧
    (exNode.RestageTwo exSamplePath exPathNode exSource id (fun _ => 0) (fun _ => 0)).map
        (fun o => (o.targ, o.sIdxTarg, [o.leftOff, o.rightOff])) =
      (exNode.Restage exSamplePath exPathNode exIsRun 0 exSource id (fun _ => 0)
          (fun _ => 0)).map (fun o => (o.targ, o.sIdxTarg, o.targOffset)) ∧
    (exNode.RestageTwo exSamplePath exPathNode exSource id (fun _ => 0)
      (fun _ => 0)).isSome = true := by
  obtain ⟨h1, h2⟩ := RestageTwo_eq_Restage exNode exSamplePath exPathNode exIsRun 0 exSource
    id (fun _ => 0) (fun _ => 0) rfl
  exact ⟨rfl, h1, h2 (by decide)⟩

/-! ### The MRRA count -/

theorem foldl_update_at {β ι : Type} (k : ι → Nat) (v : ι → β) (g : (Nat → β) → ι → β)
    (hg : ∀ t j, g t j = v j) (o : Nat) (x : β) :
    ∀ (l : List ι) (tbl : Nat → β), (∀ j, j ∈ l → k j = o → v j = x) →
      (∃ j, j ∈ l ∧ k j = o) →
      (l.foldl (fun t i => Function.update t (k i) (g t i)) tbl) o = x := by
  intro l
  induction l with
  | nil =>
    intro tbl _ hex
    obtain ⟨j, hj, -⟩ := hex
    exact absurd hj (List.not_mem_nil j)
  | cons a l ih =>
    intro tbl hv hex
    rw [List.foldl_cons]
    by_cases hl : ∃ j, j ∈ l ∧ k j = o
    · exact ih _ (fun j hj => hv j (List.mem_cons_of_mem a hj)) hl
    · have hne : ∀ i, i ∈ l → k i ≠ o := fun i hi he => hl ⟨i, hi, he⟩
      rw [foldl_update_other k g o l _ hne]
      obtain ⟨j, hj, hjo⟩ := hex
      rcases List.mem_cons.mp hj with hja | hjl
      · subst hja
        rw [← hjo, Function.update_same, hg]
        exact hv j (List.mem_cons_self j l) hjo
      · exact absurd hjo (hne j hjl)

theorem InheritLoop_at (b : Bottom) (levelIdx next : Nat) (pre : Nat → BottomNode)
    (p : Nat) (hp : p < b.nPred) :
    (b.InheritLoop levelIdx next pre) (PairOffset b.nPred next p) =
      b.bottomNode (PairOffset b.nPred levelIdx p) := by
  unfold Bottom.InheritLoop
  apply foldl_update_at (fun q => PairOffset b.nPred next q)
    (fun q => b.bottomNode (PairOffset b.nPred levelIdx q))
    (fun tbl q => (tbl (PairOffset b.nPred next q)).Inherit
      (b.bottomNode (PairOffset b.nPred levelIdx q)))
    (fun _ _ => rfl)
  · intro j hj he
    have hjlt : j < b.nPred := List.mem_range.mp hj
    have e1 := (PairOffset_div b.nPred next j hjlt).2
    have e2 := (PairOffset_div b.nPred next p hp).2
    simp only at he
    rw [he] at e1
    have : j = p := e1.symm.trans e2
    rw [this]
  · exact ⟨p, List.mem_range.mpr hp, rfl⟩

/-- C6: after `Overlap(splitNext)`, `Inherit(levelIdx, lNext, rNext, ...)` completes
and, for every predictor `p < nPred` and each non-negative child index `c` among
`lNext` and `rNext`, makes the staged entry of the pair `(c, p)` a copy of the
current table's entry for the parent pair `(levelIdx, p)`, the pair index taken
with the stride `nPred` that `Overlap` does not change; every other staged entry
is as `Overlap` allocated it, the current table is untouched, and a negative
child index causes no write. -/
theorem Inherit_copies_parent (b : Bottom) (fresh : Nat → BottomNode) (splitNext : Nat)
    (levelIdx : Nat) (lNext rNext : Int) :
    ∃ b' pre', (b.Overlap fresh splitNext).Inherit levelIdx lNext rNext = some b' ∧
      b'.preStage = some pre' ∧ b'.bottomNode = b.bottomNode ∧
      (∀ p, p < b.nPred →
        (0 ≤ lNext → pre' (PairOffset b.nPred lNext.toNat p) =
          b.bottomNode (PairOffset b.nPred levelIdx p)) ∧
        (0 ≤ rNext → pre' (PairOffset b.nPred rNext.toNat p) =
          b.bottomNode (PairOffset b.nPred levelIdx p))) ∧
      (∀ o, (∀ p, p < b.nPred →
          ¬ (0 ≤ lNext ∧ PairOffset b.nPred lNext.toNat p = o) ∧
          ¬ (0 ≤ rNext ∧ PairOffset b.nPred rNext.toNat p = o)) →
        pre' o = fresh o) := by
  by_cases hskip : (lNext < 0 ∧ rNext < 0) ∨ b.nPred = 0
  · refine ⟨b.Overlap fresh splitNext, fresh, ?_, rfl, rfl, ?_, fun _ _ => rfl⟩
    · unfold Bottom.Inherit
      have : (lNext < 0 ∧ rNext < 0) ∨ (b.Overlap fresh splitNext).nPred = 0 := hskip
      rw [if_pos this]
    · intro p hp
      rcases hskip with ⟨hl, hr⟩ | h0
      · exact ⟨fun h => absurd h (not_le.mpr hl), fun h => absurd h (not_le.mpr hr)⟩
      · omega
  · set bo := b.Overlap fresh splitNext with hbo
    have hnp : bo.nPred = b.nPred := rfl
    have hbn : bo.bottomNode = b.bottomNode := rfl
    have hstep : bo.Inherit levelIdx lNext rNext =
        some { bo with preStage := some (if rNext ≥ 0 then
            bo.InheritLoop levelIdx rNext.toNat
              (if lNext ≥ 0 then bo.InheritLoop levelIdx lNext.toNat fresh else fresh)
          else (if lNext ≥ 0 then bo.InheritLoop levelIdx lNext.toNat fresh else fresh)) } := by
      unfold Bottom.Inherit
      have : ¬ ((lNext < 0 ∧ rNext < 0) ∨ bo.nPred = 0) := hskip
      rw [if_neg this]
      rfl
    refine ⟨_, _, hstep, rfl, rfl, ?_, ?_⟩
    · intro p hp
      have hp' : p < bo.nPred := hp
      constructor
      · intro hl
        have hl' : lNext ≥ 0 := hl
        simp only [if_pos hl']
        by_cases hr : rNext ≥ 0
        · simp only [if_pos hr]
          by_cases heq : rNext.toNat = lNext.toNat
          · rw [← heq]
            exact InheritLoop_at bo levelIdx rNext.toNat _ p hp'
          · exact (InheritLoop_other bo levelIdx rNext.toNat _ _
              (fun q hq => PairOffset_ne bo.nPred lNext.toNat rNext.toNat p q hp' hq heq)).trans
              (InheritLoop_at bo levelIdx lNext.toNat _ p hp')
        · simp only [if_neg hr]
          exact InheritLoop_at bo levelIdx lNext.toNat _ p hp'
      · intro hr
        have hr' : rNext ≥ 0 := hr
        simp only [if_pos hr']
        exact InheritLoop_at bo levelIdx rNext.toNat _ p hp'
    · intro o ho
      have hL : (if lNext ≥ 0 then bo.InheritLoop levelIdx lNext.toNat fresh else fresh) o
          = fresh o := by
        split
        · rename_i hl
          exact InheritLoop_other bo levelIdx lNext.toNat fresh o
            (fun q hq he => (ho q hq).1 ⟨hl, he⟩)
        · rfl
      by_cases hr : rNext ≥ 0
      · simp only [if_pos hr]
        exact (InheritLoop_other bo levelIdx rNext.toNat _ o
          (fun q hq he => (ho q hq).2 ⟨hr, he⟩)).trans hL
      · simp only [if_neg hr]
        exact hL

theorem Inherit_copies_parent_witness :
    ∃ b' pre', (exParent.Overlap exFresh 1).Inherit 1 0 (-1) = some b' ∧
      b'.preStage = some pre' ∧
      pre' (PairOffset 2 0 0) = exParent.bottomNode 2 ∧
      pre' (PairOffset 2 0 1) = exParent.bottomNode 3 := by
  obtain ⟨b', pre', h1, h2, -, h4, -⟩ := Inherit_copies_parent exParent exFresh 1 1 0 (-1)
  exact ⟨b', pre', h1, h2, (h4 0 (by decide)).1 (by decide), (h4 1 (by decide)).1 (by decide)⟩

/-! ### The dense restaging pairs -/

theorem RestageInitStep_reaching (env : PairEnv) (nPred : Nat)
    (indexNode : Nat → IndexNode) (bufferLevel : List BitMatrix)
    (restageNode : List RestageNode) (acc acc' : RestageInitAcc) (pair : SplitPair)
    (h : RestageInitStep env nPred indexNode bufferLevel restageNode acc pair
      = some acc') :
    acc'.reaching = acc.reaching.SetBit
        (PairOffset nPred pair.restageIdx (SplitCoords nPred pair.bottomIdx).2) true ∧
      pair.restageIdx < restageNode.length := by
  unfold RestageInitStep at h
  simp only [SplitPair.BottomIdx] at h
  cases hr : restageNode[pair.restageIdx]? with
  | none => simp only [hr] at h; exact absurd h (by simp)
  | some rsNode =>
    obtain ⟨hlt, -⟩ := List.getElem?_eq_some_iff.mp hr
    simp only [hr] at h
    split at h
    · cases hb : bufLook bufferLevel
          (env.MrraIdx pair.bottomIdx (SplitCoords nPred pair.bottomIdx).1 true).2 with
      | none => simp only [hb] at h; exact absurd h (by simp)
      | some bufMRRA =>
        simp only [hb] at h
        split at h
        · exact absurd h (by simp)
        · cases h
          exact ⟨rfl, hlt⟩
    · exact absurd h (by simp)

theorem RestageInitFold_reaching (env : PairEnv) (nPred : Nat)
    (indexNode : Nat → IndexNode) (bufferLevel : List BitMatrix)
    (restageNode : List RestageNode) :
    ∀ (pairs : List SplitPair) (acc acc' : RestageInitAcc),
      pairs.foldlM (RestageInitStep env nPred indexNode bufferLevel restageNode) acc
        = some acc' →
      (∀ pos, acc'.reaching.IsSet pos =
        (acc.reaching.IsSet pos || pairs.any (fun q =>
          decide (PairOffset nPred q.restageIdx (SplitCoords nPred q.bottomIdx).2 = pos)))) ∧
      (∀ q, q ∈ pairs → q.restageIdx < restageNode.length) := by
  intro pairs
  induction pairs with
  | nil =>
    intro acc acc' h
    simp at h
    subst h
    exact ⟨fun pos => by simp, fun q hq => absurd hq (List.not_mem_nil q)⟩
  | cons a l ih =>
    intro acc acc' h
    rw [List.foldlM_cons] at h
    cases hs : RestageInitStep env nPred indexNode bufferLevel restageNode acc a with
    | none => rw [hs] at h; exact absurd h (by simp)
    | some mid =>
      rw [hs] at h
      obtain ⟨hmid, hlt⟩ := RestageInitStep_reaching env nPred indexNode bufferLevel
        restageNode acc mid a hs
      obtain ⟨i1, i2⟩ := ih mid acc' (by simpa using h)
      constructor
      · intro pos
        rw [i1 pos, hmid, List.any_cons]
        unfold BV.IsSet BV.SetBit
        simp only
        by_cases hp : pos = PairOffset nPred a.restageIdx (SplitCoords nPred a.bottomIdx).2
        · simp [hp]
        · have hp' : ¬ PairOffset nPred a.restageIdx (SplitCoords nPred a.bottomIdx).2 = pos :=
            fun he => hp he.symm
          simp [hp, hp']
      · intro q hq
        rcases List.mem_cons.mp hq with hqa | hql
        · rw [hqa]
          exact hlt
        · exact i2 q hql

theorem reachingPairs_mem (reaching : BV) (nRestage nPred : Nat) (x : RestagePair) :
    x ∈ reachingPairs reaching nRestage nPred ↔
      x.nodeIdx < nRestage ∧ x.predIdx < nPred ∧
        reaching.IsSet (x.nodeIdx * nPred + x.predIdx) = true := by
  unfold reachingPairs
  simp only [List.mem_flatMap, List.mem_range, List.mem_map, List.mem_filter, RestagePair.Init]
  constructor
  · rintro ⟨r, hr, p, ⟨hp, hset⟩, rfl⟩
    exact ⟨hr, hp, hset⟩
  · rintro ⟨hr, hp, hset⟩
    exact ⟨x.nodeIdx, hr, x.predIdx, ⟨hp, hset⟩, rfl⟩

theorem reachingPairs_sorted (reaching : BV) (nRestage nPred : Nat) :
    (reachingPairs reaching nRestage nPred).Pairwise
      (fun x y => x.nodeIdx < y.nodeIdx ∨ (x.nodeIdx = y.nodeIdx ∧ x.predIdx < y.predIdx)) := by
  unfold reachingPairs
  rw [List.pairwise_flatMap]
  constructor
  · intro r _
    rw [List.pairwise_map]
    exact (List.Pairwise.filter _ (List.pairwise_lt_range nPred)).imp
      (fun h => Or.inr ⟨rfl, h⟩)
  · exact (List.pairwise_lt_range nRestage).imp (fun h x hx y hy => by
      simp only [List.mem_map, List.mem_filter, RestagePair.Init] at hx hy
      obtain ⟨p, -, rfl⟩ := hx
      obtain ⟨q, -, rfl⟩ := hy
      exact Or.inl h)

/-- C20: whenever `RestageInit` completes, the list `restagePair` it fills holds a
`RestagePair (restageIdx, predIdx)` exactly for the combinations referenced by at
least one of the pairs handed in (the pair's dense index is `restageIdx` and its
predictor is `predIdx`), holds each of them once, and lists them in increasing
order of `restageIdx`, then `predIdx`. -/
theorem RestageInit_pairs (b : Bottom) (env : PairEnv) (mrraFresh : MRRA)
    (indexNode : Nat → IndexNode) (pairNode : List SplitPair)
    (restageNode : List RestageNode) (pathNode : List PathNode) (ri : RestageInitOut)
    (h : b.RestageInit env mrraFresh indexNode pairNode restageNode pathNode = some ri) :
    (∀ x : RestagePair, x ∈ ri.restagePair ↔
      (x.predIdx < b.nPred ∧ ∃ q, q ∈ pairNode ∧ q.restageIdx = x.nodeIdx ∧
        (SplitCoords b.nPred q.bottomIdx).2 = x.predIdx)) ∧
    (0 < b.nPred → ∀ q, q ∈ pairNode →
      RestagePair.Init q.restageIdx (SplitCoords b.nPred q.bottomIdx).2 ∈ ri.restagePair) ∧
    ri.restagePair.Pairwise
      (fun x y => x.nodeIdx < y.nodeIdx ∨ (x.nodeIdx = y.nodeIdx ∧ x.predIdx < y.predIdx)) ∧
    ri.restagePair.Nodup := by
  unfold Bottom.RestageInit at h
  simp only at h
  split at h
  · exact absurd h (by simp)
  · rename_i acc hacc
    cases h
    obtain ⟨hset, hlt⟩ := RestageInitFold_reaching env b.nPred indexNode b.bufferLevel
      restageNode pairNode _ acc hacc
    have hmem : ∀ x : RestagePair, x ∈ reachingPairs acc.reaching restageNode.length b.nPred ↔
        (x.predIdx < b.nPred ∧ ∃ q, q ∈ pairNode ∧ q.restageIdx = x.nodeIdx ∧
          (SplitCoords b.nPred q.bottomIdx).2 = x.predIdx) := by
      intro x
      rw [reachingPairs_mem]
      constructor
      · rintro ⟨-, hp, hbit⟩
        rw [hset] at hbit
        have hnew : (BV.new (restageNode.length * b.nPred)).IsSet
            (x.nodeIdx * b.nPred + x.predIdx) = false := rfl
        rw [hnew, Bool.false_or, List.any_eq_true] at hbit
        obtain ⟨q, hq, hqe⟩ := hbit
        have hqe' : PairOffset b.nPred q.restageIdx (SplitCoords b.nPred q.bottomIdx).2 =
            PairOffset b.nPred x.nodeIdx x.predIdx := of_decide_eq_true hqe
        have hqp : (SplitCoords b.nPred q.bottomIdx).2 < b.nPred :=
          Nat.mod_lt _ (Nat.lt_of_le_of_lt (Nat.zero_le _) hp)
        obtain ⟨d1, m1⟩ := PairOffset_div b.nPred q.restageIdx _ hqp
        obtain ⟨d2, m2⟩ := PairOffset_div b.nPred x.nodeIdx x.predIdx hp
        rw [hqe'] at d1 m1
        exact ⟨hp, q, hq, d1.symm.trans d2, m1.symm.trans m2⟩
      · rintro ⟨hp, q, hq, hr, hpq⟩
        refine ⟨hr ▸ hlt q hq, hp, ?_⟩
        rw [hset, List.any_eq_true.mpr ⟨q, hq, by rw [hr, hpq]; exact decide_eq_true rfl⟩]
        exact Bool.or_true _
    have hsorted := reachingPairs_sorted acc.reaching restageNode.length b.nPred
    refine ⟨hmem, ?_, hsorted, ?_⟩
    · intro hpos q hq
      exact (hmem _).mpr ⟨Nat.mod_lt _ hpos, q, hq, rfl, rfl⟩
    · exact hsorted.imp (fun hxy he => by
        subst he
        rcases hxy with h1 | ⟨-, h2⟩
        · exact Nat.lt_irrefl _ h1
        · exact Nat.lt_irrefl _ h2)

theorem RestageInit_pairs_witness :
    ∃ ri, Bottom.RestageInit { exBottom with mrraLevel := exPairOut.mrraLevel } exEnv
        exLevelEnv.mrraFresh exIndexNode exPairOut.pairNode exPairOut.restageNode
        (List.replicate exPairOut.pathTotal PathNode.Init0) = some ri ∧
      RestagePair.Init 0 0 ∈ ri.restagePair ∧ RestagePair.Init 0 1 ∉ ri.restagePair ∧
      ri.restagePair.Nodup := by
  have hs : (Bottom.RestageInit { exBottom with mrraLevel := exPairOut.mrraLevel } exEnv
      exLevelEnv.mrraFresh exIndexNode exPairOut.pairNode exPairOut.restageNode
      (List.replicate exPairOut.pathTotal PathNode.Init0)).isSome = true := by decide
  obtain ⟨ri, hri⟩ := Option.isSome_iff_exists.mp hs
  obtain ⟨h1, h2, -, h4⟩ := RestageInit_pairs _ exEnv exLevelEnv.mrraFresh exIndexNode
    exPairOut.pairNode exPairOut.restageNode (List.replicate exPairOut.pathTotal PathNode.Init0)
    ri hri
  refine ⟨ri, hri, h2 (by decide) (SplitPair.SplitInitNoSet 0 0) (by decide), ?_, h4⟩
  intro hmem
  obtain ⟨-, q, hq, -, hp⟩ := (h1 _).mp hmem
  have hall : ∀ q, q ∈ exPairOut.pairNode → (SplitCoords 2 q.bottomIdx).2 ≠ 1 := by decide
  exact hall q hq hp

end Arborist
